import Mathlib

/-!
# brnwb.com static site generator: path safety, asset pipeline, template renderer

A shallow embedding of `internal/pathsafe`, `internal/assets` and the template
renderer of `internal/build`, with the Go library functions they call
(`path/filepath`, `strings`, `os`) modelled for a Unix host.

Go strings are modelled as lists of characters.  Errors are modelled by their
message text, so that "the error contains ..." is a statement about lists.
-/

namespace Sitegen

/-- Go `string`, as the list of its characters. -/
abbrev Str := List Char

/-! ## `strings` -/

/-- Go `strings.HasPrefix`. -/
def HasPrefix (s pre : Str) : Bool := pre.isPrefixOf s

/-- Go `strings.Contains`: `sub` occurs in `s` as a contiguous run. -/
def Contains : Str → Str → Bool
  | [], sub => sub.isEmpty
  | c :: cs, sub => sub.isPrefixOf (c :: cs) || Contains cs sub

/-- Go `unicode.IsSpace`. -/
def isSpace (c : Char) : Bool :=
  let n := c.toNat
  n = 9 || n = 10 || n = 11 || n = 12 || n = 13 || n = 32 || n = 0x85 || n = 0xA0 ||
  n = 0x1680 || (0x2000 ≤ n && n ≤ 0x200A) || n = 0x2028 || n = 0x2029 ||
  n = 0x202F || n = 0x205F || n = 0x3000

/-- Go `strings.TrimSpace`: leading and trailing white space removed. -/
def TrimSpace (s : Str) : Str :=
  ((s.dropWhile isSpace).reverse.dropWhile isSpace).reverse

/-- Go `strings.Split(s, "/")`: the pieces between separators; never empty. -/
def splitSep : Str → List Str
  | [] => [[]]
  | c :: cs =>
    if c = '/' then [] :: splitSep cs
    else
      match splitSep cs with
      | [] => [[c]]
      | w :: ws => (c :: w) :: ws

/-- Go `strings.Join(elems, "/")`. -/
def joinSep : List Str → Str
  | [] => []
  | [w] => w
  | w :: v :: ws => w ++ '/' :: joinSep (v :: ws)

/-- Go `strings.Join(elems, sep)` for an arbitrary separator. -/
def joinWith (sep : Str) : List Str → Str
  | [] => []
  | [w] => w
  | w :: v :: ws => w ++ sep ++ joinWith sep (v :: ws)

/-! ## `path/filepath` on Unix -/

/-- The parent-directory element `..`. -/
def dotdot : Str := ['.', '.']

/-- The current-directory element `.`. -/
def dot : Str := ['.']

/-- One step of `filepath.Clean` over the elements of a path.  `out` is the
stack of elements written so far, last element first.  Empty and `.` elements
are dropped; `..` removes the last element when there is one to remove, is
dropped at the root of a rooted path, and is kept otherwise. -/
def cleanStep (rooted : Bool) (out : List Str) (e : Str) : List Str :=
  if e = [] ∨ e = dot then out
  else if e = dotdot then
    match out with
    | [] => if rooted then [] else [dotdot]
    | top :: rest => if top = dotdot then dotdot :: top :: rest else rest
  else e :: out

/-- The elements `filepath.Clean` keeps, in path order. -/
def cleanElems (rooted : Bool) (es : List Str) : List Str :=
  (es.foldl (cleanStep rooted) []).reverse

/-- Go `filepath.IsAbs` on Unix. -/
def IsAbs (p : Str) : Bool := HasPrefix p ['/']

/-- Go `filepath.Clean` on Unix. -/
def Clean (p : Str) : Str :=
  if p = [] then dot
  else
    let rooted := IsAbs p
    let out := cleanElems rooted (splitSep p)
    if rooted then '/' :: joinSep out
    else if out = [] then dot
    else joinSep out

/-- Go `filepath.Join`: leading empty elements are ignored, the rest is joined
with the separator and cleaned; all elements empty gives the empty string. -/
def Join : List Str → Str
  | [] => []
  | e :: es => if e = [] then Join es else Clean (joinSep (e :: es))

/-- Go `filepath.Dir` on Unix: everything before the last separator, cleaned. -/
def Dir (p : Str) : Str :=
  Clean ((p.reverse.dropWhile (fun c => c != '/')).reverse)

/-- Go `filepath.ToSlash` and `filepath.FromSlash`: the identity on Unix. -/
def ToSlash (p : Str) : Str := p

/-- The elements of a cleaned path: the pieces after the leading separator of
a rooted path, none for the root itself or for the empty string. -/
def pathElems (p : Str) : List Str :=
  let q := if IsAbs p then p.drop 1 else p
  if q = [] then [] else splitSep q

/-- Drop the longest common prefix of two element lists. -/
def dropCommon : List Str → List Str → List Str × List Str
  | b :: bs, t :: ts => if b = t then dropCommon bs ts else (b :: bs, t :: ts)
  | bs, ts => (bs, ts)

/-- Go `filepath.Rel` on Unix.  Both paths are cleaned; equal paths give `.`;
a rooted and an unrooted path cannot be related; otherwise the common leading
elements are skipped, one `..` is written for every element left in the base,
and the elements left in the target follow. -/
def Rel (basepath targpath : Str) : Except Str Str :=
  let base := Clean basepath
  let targ := Clean targpath
  if targ = base then .ok dot
  else
    let base := if base = dot then [] else base
    if IsAbs base != IsAbs targ then
      .error ("Rel: can't make ".toList ++ targpath ++ " relative to ".toList ++ basepath)
    else
      let (brest, trest) := dropCommon (pathElems base) (pathElems targ)
      if brest.head? = some dotdot then
        .error ("Rel: can't make ".toList ++ targpath ++ " relative to ".toList ++ basepath)
      else .ok (joinSep (brest.map (fun _ => dotdot) ++ trest))

/-! ## The operating system, as the program observes it -/

/-- What `os.Lstat` reports for a path. -/
inductive LstatResult where
  | notExist (msg : Str)
  | failed (msg : Str)
  | info (isSymlink : Bool) (isDir : Bool)
deriving DecidableEq, Repr

/-- What `os.Stat` reports for a path (symbolic links followed). -/
inductive StatResult where
  | failed (msg : Str)
  | info (isDir : Bool) (perm : Nat)
deriving DecidableEq, Repr

/-- The file system and process state the program reads.  Every field is the
answer the operating system gives to one call; no consistency between the
answers is assumed, except that a working directory is a rooted path. -/
structure FS where
  getwd : Except Str Str
  lstat : Str → LstatResult
  stat : Str → StatResult
  readFile : Str → Except Str Str
  mkdirAll : Str → Option Str
  writeFile : Str → Str → Option Str
  getwd_abs : ∀ wd, getwd = .ok wd → IsAbs wd = true

/-- Go `filepath.Abs` on Unix: an absolute path is cleaned; any other path is
joined onto the working directory, which fails when that cannot be read. -/
def Abs (fs : FS) (p : Str) : Except Str Str :=
  if IsAbs p then .ok (Clean p)
  else
    match fs.getwd with
    | .error e => .error e
    | .ok wd => .ok (Join [wd, p])

/-! ## `internal/pathsafe` -/

/-- The test on the relative path shared by `IsWithinRoot` and
`EnsureNoSymlinkTraversal`: `rel == ".." || strings.HasPrefix(rel, "../")`. -/
def escapes (rel : Str) : Bool :=
  HasPrefix rel (dotdot ++ ['/']) || rel = dotdot

/-- `pathsafe.IsWithinRoot`. -/
def IsWithinRoot (fs : FS) (root target : Str) : Except Str Bool :=
  match Abs fs root with
  | .error e => .error ("resolve root path: ".toList ++ e)
  | .ok rootAbs =>
    match Abs fs target with
    | .error e => .error ("resolve target path: ".toList ++ e)
    | .ok targetAbs =>
      match Rel rootAbs targetAbs with
      | .error e => .error ("compute relative path: ".toList ++ e)
      | .ok rel =>
        if rel = dot then .ok true
        else if escapes rel then .ok false
        else .ok true

/-- The parts of the Go library whose exact output is not modelled: the
`%q` verb of `fmt` (`strconv.Quote`), and the position and context with which
`text/template` starts the message of an execution error (`template: NAME:LINE:COL:
executing "NAME" at <ACTION>: `), given the template name and the text of the
action.  The statements hold for every choice of them. -/
structure GoLib where
  quote : Str → Str
  execContext : Str → Str → Str

/-- `pathsafe.ResolveWithinRoot`. -/
def ResolveWithinRoot (lib : GoLib) (fs : FS) (root relativePath : Str) : Except Str Str :=
  match Abs fs root with
  | .error e => .error ("resolve root path: ".toList ++ e)
  | .ok rootAbs =>
    let resolved := Join [rootAbs, ToSlash relativePath]
    match Abs fs resolved with
    | .error e => .error ("resolve path: ".toList ++ e)
    | .ok resolvedAbs =>
      match IsWithinRoot fs rootAbs resolvedAbs with
      | .error e => .error e
      | .ok ok =>
        if !ok then .error ("path resolves outside root: ".toList ++ lib.quote relativePath)
        else .ok resolvedAbs

/-- The loop of `pathsafe.EnsureNoSymlinkTraversal` over the parts of the
relative path, `current` being the path reached so far. -/
def walkParts (lib : GoLib) (fs : FS) : Str → List Str → Except Str Unit
  | _, [] => .ok ()
  | current, part :: parts =>
    let current := Join [current, part]
    match fs.lstat current with
    | .notExist _ => .ok ()
    | .failed e => .error ("lstat ".toList ++ lib.quote current ++ ": ".toList ++ e)
    | .info isSymlink _ =>
      if isSymlink then .error ("symlink traversal is not allowed: ".toList ++ current)
      else walkParts lib fs current parts

/-- `pathsafe.EnsureNoSymlinkTraversal`. -/
def EnsureNoSymlinkTraversal (lib : GoLib) (fs : FS) (root target : Str) : Except Str Unit :=
  match Abs fs root with
  | .error e => .error ("resolve root path: ".toList ++ e)
  | .ok rootAbs =>
    match Abs fs target with
    | .error e => .error ("resolve target path: ".toList ++ e)
    | .ok targetAbs =>
      match Rel rootAbs targetAbs with
      | .error e => .error ("compute relative path: ".toList ++ e)
      | .ok rel =>
        if escapes rel then .error "target is outside root".toList
        else if rel = dot then .ok ()
        else walkParts lib fs rootAbs (splitSep rel)

/-! ## `internal/assets` -/

/-- `assets.Bundle`. -/
structure Bundle where
  Name : Str
  Inputs : List Str

/-- `map[string]string`, the `Assets` field of `assets.Manifest`: the list of
its keys with their values, each key once. -/
abbrev Manifest := List (Str × Str)

/-- The map assignment `manifest[key] = value`. -/
def Manifest.set (m : Manifest) (key value : Str) : Manifest :=
  (key, value) :: m.filter (fun kv => kv.1 != key)

/-- A call that changes the file system. -/
inductive Write where
  | mkdirAll (path : Str) (perm : Nat)
  | writeFile (path : Str) (data : Str) (perm : Nat)
deriving DecidableEq, Repr

/-- Whether a buffer ends in a newline. -/
def endsInNewline (s : Str) : Bool := s.getLast? == some '\n'

/-- The loop of `assets.concatInputs`: `i` is the index of the next input and
`out` the buffer written so far. -/
def concatLoop (lib : GoLib) (fs : FS) (srcRoot : Str) : Nat → Str → List Str → Except Str Str
  | _, out, [] => .ok out
  | i, out, input :: rest =>
    let rel := ToSlash (TrimSpace input)
    if rel = [] then .error "bundle input cannot be empty".toList
    else
      match ResolveWithinRoot lib fs srcRoot rel with
      | .error e => .error ("resolve input ".toList ++ lib.quote rel ++ ": ".toList ++ e)
      | .ok inputPath =>
        match EnsureNoSymlinkTraversal lib fs srcRoot inputPath with
        | .error e =>
          .error ("reject symlink input ".toList ++ lib.quote rel ++ ": ".toList ++ e)
        | .ok () =>
          match fs.stat inputPath with
          | .failed e => .error ("stat input ".toList ++ lib.quote rel ++ ": ".toList ++ e)
          | .info isDir _ =>
            if isDir then .error ("input ".toList ++ lib.quote rel ++ " is a directory".toList)
            else
              match fs.readFile inputPath with
              | .error e => .error ("read input ".toList ++ lib.quote rel ++ ": ".toList ++ e)
              | .ok data =>
                let out := if i > 0 && out.length > 0 && !endsInNewline out
                  then out ++ ['\n'] else out
                let out := out ++ data
                let out := if data.length > 0 && !endsInNewline data
                  then out ++ ['\n'] else out
                concatLoop lib fs srcRoot (i + 1) out rest

/-- `assets.concatInputs`. -/
def concatInputs (lib : GoLib) (fs : FS) (srcRoot : Str) (inputs : List Str) : Except Str Str :=
  concatLoop lib fs srcRoot 0 [] inputs

/-- The second half of `assets.buildBundle` (from the resolution of the output
path on): the calls that change the file system, in order, and the manifest
with the bundle recorded, or the error. -/
def writeBundle (lib : GoLib) (fs : FS) (outRoot name content : Str) (manifest : Manifest) :
    List Write × Except Str Manifest :=
  match ResolveWithinRoot lib fs outRoot name with
  | .error e => ([], .error ("resolve output path: ".toList ++ e))
  | .ok outPath =>
    match EnsureNoSymlinkTraversal lib fs outRoot outPath with
    | .error e => ([], .error ("validate output path: ".toList ++ e))
    | .ok () =>
      match fs.mkdirAll (Dir outPath) with
      | some e => ([.mkdirAll (Dir outPath) 0o755],
          .error ("create output directory: ".toList ++ e))
      | none =>
        match fs.writeFile outPath content with
        | some e => ([.mkdirAll (Dir outPath) 0o755, .writeFile outPath content 0o644],
            .error ("write bundle output: ".toList ++ e))
        | none => ([.mkdirAll (Dir outPath) 0o755, .writeFile outPath content 0o644],
            .ok (manifest.set name name))

/-- `assets.buildBundle`, without the line it prints when verbose: the calls
that change the file system, and the manifest or the error. -/
def buildBundle (lib : GoLib) (fs : FS) (srcRoot outRoot : Str) (bundle : Bundle)
    (manifest : Manifest) : List Write × Except Str Manifest :=
  let name := ToSlash (TrimSpace bundle.Name)
  if name = [] then ([], .error "bundle name is required".toList)
  else if HasPrefix name ['/'] then
    ([], .error ("bundle name must be relative: ".toList ++ lib.quote name))
  else if Contains name dotdot then
    ([], .error ("bundle name cannot contain '..': ".toList ++ lib.quote name))
  else if bundle.Inputs.length = 0 then
    ([], .error ("bundle ".toList ++ lib.quote name ++ " must include at least one input".toList))
  else
    match concatInputs lib fs srcRoot bundle.Inputs with
    | .error e => ([], .error ("concat bundle inputs: ".toList ++ e))
    | .ok content => writeBundle lib fs outRoot name content manifest

/-! ## The template renderer of `internal/build` -/

/-- A parsed template of the fragment the model covers, the static composition
the site uses: literal text, and actions `render "…"` and `asset "…"` with one
string argument. -/
inductive Node where
  | text (s : Str)
  | render (arg : Str)
  | asset (arg : Str)
deriving DecidableEq, Repr

/-- Cut a string at the first occurrence of a non-empty pattern: the text
before it and the text after it. -/
def cutAt (pat : Str) : Str → Option (Str × Str)
  | [] => none
  | c :: cs =>
    if pat.isPrefixOf (c :: cs) then some ([], (c :: cs).drop pat.length)
    else
      match cutAt pat cs with
      | none => none
      | some (a, b) => some (c :: a, b)

/-- The characters `text/template` skips between the words of an action. -/
def isActionSpace (c : Char) : Bool := c = ' ' || c = '\t' || c = '\r' || c = '\n'

/-- One action `NAME "ARGUMENT"` between the delimiters, `NAME` being `render`
or `asset` and the argument a double-quoted string without escapes and without
a newline. Any other action gives `none`: it is outside the fragment, and the
model says nothing about it, whether `text/template` rejects it or executes it
(conditionals, loops, pipelines, trim markers, comments, other functions). -/
def parseAction (body : Str) : Option Node :=
  let b := body.dropWhile isActionSpace
  let name := b.takeWhile (fun c => c.isAlphanum)
  let rest := b.dropWhile (fun c => c.isAlphanum)
  let arg := rest.dropWhile isActionSpace
  if rest = arg then none
  else
    match arg with
    | '"' :: q =>
      let lit := q.takeWhile (fun c => c != '"')
      let tail := (q.dropWhile (fun c => c != '"')).drop 1
      if lit.contains '\\' || lit.contains '\n' || q.length = lit.length ||
          !(tail.all isActionSpace) then none
      else if name = "render".toList then some (.render lit)
      else if name = "asset".toList then some (.asset lit)
      else none
    | _ => none

/-- The parser of `text/template` on the fragment, with as many steps as it is
given in `fuel`; `none` for a template outside the fragment. -/
def parseNodes : Nat → Str → Option (List Node)
  | 0, _ => none
  | fuel + 1, s =>
    match cutAt ['\x7b', '\x7b'] s with
    | none => some (if s = [] then [] else [.text s])
    | some (before, after) =>
      match cutAt ['\x7d', '\x7d'] after with
      | none => none
      | some (body, remaining) =>
        match parseAction body with
        | none => none
        | some node =>
          match parseNodes fuel remaining with
          | none => none
          | some nodes =>
            some (if before = [] then node :: nodes else .text before :: node :: nodes)

/-- `Template.Parse` on the fragment: the nodes of a template that consists of
literal text and of actions `render "…"` and `asset "…"`, and `none` for any
other template. -/
def parseTemplate (content : Str) : Option (List Node) :=
  parseNodes (content.length + 1) content

/-- The text of an action, as error messages show it. -/
def Node.source : Node → Str
  | .text s => s
  | .render arg => "render \"".toList ++ arg ++ "\"".toList
  | .asset arg => "asset \"".toList ++ arg ++ "\"".toList

/-- The `asset` function of the renderer's function map. -/
def assetFunc (lib : GoLib) (assets : Manifest) (name : Str) : Except Str Str :=
  if TrimSpace name = [] then .error "asset name cannot be empty".toList
  else
    match assets.lookup name with
    | none => .error ("asset ".toList ++ lib.quote name ++ " not found in manifest".toList)
    | some path => .ok path

/-- `build.resolveIncludePath`. -/
def resolveIncludePath (lib : GoLib) (fs : FS) (srcRoot currentTemplate includePath : Str) :
    Except Str Str :=
  if includePath = [] then .error "include path cannot be empty".toList
  else
    let cleanInclude := Clean includePath
    let resolved := Join [Dir currentTemplate, cleanInclude]
    match Abs fs resolved with
    | .error e =>
      .error ("resolve include path ".toList ++ lib.quote includePath ++ ": ".toList ++ e)
    | .ok resolvedAbs =>
      match IsWithinRoot fs srcRoot resolvedAbs with
      | .error e => .error e
      | .ok ok =>
        if !ok then
          .error ("include path ".toList ++ lib.quote includePath ++
            " resolves outside source root".toList)
        else
          match fs.stat resolvedAbs with
          | .failed e =>
            .error ("stat include ".toList ++ lib.quote includePath ++ ": ".toList ++ e)
          | .info isDir _ =>
            if isDir then
              .error ("include path ".toList ++ lib.quote includePath ++
                " resolves to a directory".toList)
            else
              match EnsureNoSymlinkTraversal lib fs srcRoot resolvedAbs with
              | .error e =>
                .error ("include path ".toList ++ lib.quote includePath ++
                  " is invalid: ".toList ++ e)
              | .ok () => .ok resolvedAbs

/-- `Template.Execute` on a parsed template: the nodes are written to the
buffer in order; an action calls its function, and the first error ends the
execution.  `incl` is the `render` function of the function map; its result
is `none` when the rendering it starts has no more fuel. -/
def execNodes (lib : GoLib) (assets : Manifest) (name : Str)
    (incl : Str → Option (Except Str Str)) : List Node → Str → Option (Except Str Str)
  | [], buf => some (.ok buf)
  | .text s :: rest, buf => execNodes lib assets name incl rest (buf ++ s)
  | .render arg :: rest, buf =>
    match incl arg with
    | none => none
    | some (.error e) =>
      some (.error (lib.execContext name (Node.source (.render arg)) ++
        "error calling render: ".toList ++ e))
    | some (.ok out) => execNodes lib assets name incl rest (buf ++ out)
  | .asset arg :: rest, buf =>
    match assetFunc lib assets arg with
    | .error e =>
      some (.error (lib.execContext name (Node.source (.asset arg)) ++
        "error calling asset: ".toList ++ e))
    | .ok out => execNodes lib assets name incl rest (buf ++ out)

/-- `build.templateRenderer`. -/
structure templateRenderer where
  srcRoot : Str
  assets : Manifest

/-- `templateRenderer.render`, with the depth of include calls it may make in
`fuel`. The result is `none` when that depth is not enough, and when a template
that is read is outside the fragment of `parseTemplate`: for such a template
the model does not say whether `render` returns `parse template …`, another
error, or text. -/
def templateRenderer.render (lib : GoLib) (fs : FS) (r : templateRenderer) :
    Nat → Str → List Str → Option (Except Str Str)
  | 0, _, _ => none
  | fuel + 1, templatePath, stack =>
    match Abs fs templatePath with
    | .error e =>
      some (.error ("resolve template path ".toList ++ lib.quote templatePath ++
        ": ".toList ++ e))
    | .ok templateAbs =>
      match IsWithinRoot fs r.srcRoot templateAbs with
      | .error e => some (.error e)
      | .ok ok =>
        if !ok then
          some (.error ("template path ".toList ++ lib.quote templateAbs ++
            " is outside source root".toList))
        else if stack.any (fun parent => parent = templateAbs) then
          some (.error ("render include cycle detected: ".toList ++
            joinWith " -> ".toList (stack ++ [templateAbs])))
        else
          match fs.readFile templateAbs with
          | .error e =>
            some (.error ("read template ".toList ++ lib.quote templateAbs ++
              ": ".toList ++ e))
          | .ok content =>
            let nextStack := stack ++ [templateAbs]
            match parseTemplate content with
            | none => none
            | some nodes =>
              let incl := fun includePath =>
                match resolveIncludePath lib fs r.srcRoot templateAbs includePath with
                | .error e => some (.error e)
                | .ok resolved => templateRenderer.render lib fs r fuel resolved nextStack
              match execNodes lib r.assets (ToSlash templateAbs) incl nodes [] with
              | none => none
              | some (.error e) =>
                some (.error ("execute template ".toList ++ lib.quote templateAbs ++
                  ": ".toList ++ e))
              | some (.ok out) => some (.ok out)

/-- `Template.Execute` as in `execNodes`, together with the calls of
`templateRenderer.render` that the execution makes, in the order in which it
makes them. `incl` is the `render` function of the function map, returning its
result and the calls made for it. -/
def execNodesLog (lib : GoLib) (assets : Manifest) (name : Str)
    (incl : Str → Option (Except Str Str) × List (Str × List Str)) :
    List Node → Str → Option (Except Str Str) × List (Str × List Str)
  | [], buf => (some (.ok buf), [])
  | .text s :: rest, buf => execNodesLog lib assets name incl rest (buf ++ s)
  | .render arg :: rest, buf =>
    match incl arg with
    | (none, calls) => (none, calls)
    | (some (.error e), calls) =>
      (some (.error (lib.execContext name (Node.source (.render arg)) ++
        "error calling render: ".toList ++ e)), calls)
    | (some (.ok out), calls) =>
      match execNodesLog lib assets name incl rest (buf ++ out) with
      | (res, calls2) => (res, calls ++ calls2)
  | .asset arg :: rest, buf =>
    match assetFunc lib assets arg with
    | .error e =>
      (some (.error (lib.execContext name (Node.source (.asset arg)) ++
        "error calling asset: ".toList ++ e)), [])
    | .ok out => execNodesLog lib assets name incl rest (buf ++ out)

/-- `templateRenderer.render` as above, together with every call of `render`
that is made, the call itself first: each call is recorded with its two
arguments, the template path and the active stack. -/
def templateRenderer.renderLog (lib : GoLib) (fs : FS) (r : templateRenderer) :
    Nat → Str → List Str → Option (Except Str Str) × List (Str × List Str)
  | 0, templatePath, stack => (none, [(templatePath, stack)])
  | fuel + 1, templatePath, stack =>
    match Abs fs templatePath with
    | .error e =>
      (some (.error ("resolve template path ".toList ++ lib.quote templatePath ++
        ": ".toList ++ e)), [(templatePath, stack)])
    | .ok templateAbs =>
      match IsWithinRoot fs r.srcRoot templateAbs with
      | .error e => (some (.error e), [(templatePath, stack)])
      | .ok ok =>
        if !ok then
          (some (.error ("template path ".toList ++ lib.quote templateAbs ++
            " is outside source root".toList)), [(templatePath, stack)])
        else if stack.any (fun parent => parent = templateAbs) then
          (some (.error ("render include cycle detected: ".toList ++
            joinWith " -> ".toList (stack ++ [templateAbs]))), [(templatePath, stack)])
        else
          match fs.readFile templateAbs with
          | .error e =>
            (some (.error ("read template ".toList ++ lib.quote templateAbs ++
              ": ".toList ++ e)), [(templatePath, stack)])
          | .ok content =>
            let nextStack := stack ++ [templateAbs]
            match parseTemplate content with
            | none => (none, [(templatePath, stack)])
            | some nodes =>
              let incl := fun includePath =>
                match resolveIncludePath lib fs r.srcRoot templateAbs includePath with
                | .error e => (some (.error e), [])
                | .ok resolved => templateRenderer.renderLog lib fs r fuel resolved nextStack
              match execNodesLog lib r.assets (ToSlash templateAbs) incl nodes [] with
              | (none, calls) => (none, (templatePath, stack) :: calls)
              | (some (.error e), calls) =>
                (some (.error ("execute template ".toList ++ lib.quote templateAbs ++
                  ": ".toList ++ e)), (templatePath, stack) :: calls)
              | (some (.ok out), calls) => (some (.ok out), (templatePath, stack) :: calls)

/-- `build.writeFileWithMode`. -/
def writeFileWithMode (fs : FS) (dst content : Str) (mode : Nat) :
    List Write × Except Str Unit :=
  match fs.mkdirAll (Dir dst) with
  | some e => ([.mkdirAll (Dir dst) 0o755],
      .error ("create output parent directory: ".toList ++ e))
  | none =>
    let mode := if mode = 0 then 0o644 else mode
    match fs.writeFile dst content with
    | some e => ([.mkdirAll (Dir dst) 0o755, .writeFile dst content mode],
        .error ("write output file: ".toList ++ e))
    | none => ([.mkdirAll (Dir dst) 0o755, .writeFile dst content mode], .ok ())

/-- `build.renderFile`: the calls that change the file system, and the
outcome; `none` when the rendering has not enough fuel. -/
def renderFile (lib : GoLib) (fs : FS) (fuel : Nat) (srcRoot src dst : Str)
    (manifest : Manifest) : Option (List Write × Except Str Unit) :=
  match fs.stat src with
  | .failed e => some ([], .error ("stat source template: ".toList ++ e))
  | .info _ perm =>
    match templateRenderer.render lib fs ⟨srcRoot, manifest⟩ fuel src [] with
    | none => none
    | some (.error e) => some ([], .error e)
    | some (.ok rendered) => some (writeFileWithMode fs dst rendered perm)

/-! ## `assets.Build` -/

/-- `assets.BundleConfig`. -/
structure BundleConfig where
  CSSBundles : List Bundle
  JSBundles : List Bundle

/-- The functions of `encoding/json` that `assets` calls, whose output is not
modelled: the strict decoder of the bundle configuration (unknown fields are
an error) and `json.MarshalIndent` of the manifest. -/
structure JsonLib where
  decodeConfig : Str → Except Str BundleConfig
  marshalManifest : Manifest → Except Str Str

/-- A directory entry, as `filepath.WalkDir` hands it to its callback: the
name, whether it is a directory, and whether its type is a symbolic link. -/
structure DirEntry where
  Name : Str
  IsDir : Bool
  IsSymlink : Bool
deriving DecidableEq, Repr

/-- The operating system with the calls of `assets.Build` and `build.Run` that
`FS` does not have: `os.RemoveAll`, `os.ReadDir`, and whether the error of
`os.ReadFile` on a path is `os.ErrNotExist`. The fields of `FS` are the file
system as a function finds it when it starts; `after ws` is the file system as
it answers once `assets.Build` has made the calls `ws`, so that a bundle sees
what the bundles before it have written; before any call it is the file
system of the start. -/
structure Host extends FS where
  removeAll : Str → Option Str
  readDir : Str → Except Str (List DirEntry)
  readNotExist : Str → Bool
  after : List Write → FS
  after_nil : after [] = toFS

/-- `assets.ConfigPath`. -/
def ConfigPath : Str := "_assets/bundles.json".toList

/-- `assets.ManifestFilename`. -/
def ManifestFilename : Str := "assets-manifest.json".toList

/-- Go `filepath.FromSlash`: the identity on Unix. -/
def FromSlash (p : Str) : Str := p

/-- `assets.loadConfig`: no configuration when the file does not exist. -/
def loadConfig (lib : GoLib) (json : JsonLib) (h : Host) (srcRoot : Str) :
    Except Str (Option BundleConfig) :=
  let configPath := Join [srcRoot, FromSlash ConfigPath]
  match h.readFile configPath with
  | .error e =>
    if h.readNotExist configPath then .ok none
    else .error ("read asset config ".toList ++ lib.quote ConfigPath ++ ": ".toList ++ e)
  | .ok data =>
    match json.decodeConfig data with
    | .error e =>
      .error ("decode asset config ".toList ++ lib.quote ConfigPath ++ ": ".toList ++ e)
    | .ok cfg => .ok (some cfg)

/-- `assets.writeManifest`: the call that changes the file system, if it is
reached, and the error. -/
def writeManifest (json : JsonLib) (fs : FS) (outRoot : Str) (manifest : Manifest) :
    List Write × Option Str :=
  let path := Join [outRoot, ManifestFilename]
  match json.marshalManifest manifest with
  | .error e => ([], some ("marshal manifest: ".toList ++ e))
  | .ok data =>
    match fs.writeFile path (data ++ ['\n']) with
    | some e => ([.writeFile path (data ++ ['\n']) 0o644],
        some ("write asset manifest: ".toList ++ e))
    | none => ([.writeFile path (data ++ ['\n']) 0o644], none)

/-- One of the two loops of `assets.Build` over the bundles of a kind (`css` or
`js`): the calls that change the file system, the manifest as the loop leaves
it, and the error that ended it. `done` are the calls made before the loop;
every bundle is built on the file system as the calls before it have left it. -/
def buildBundles (lib : GoLib) (world : List Write → FS) (kind srcRoot outRoot : Str) :
    List Write → List Bundle → Manifest → List Write × Manifest × Option Str
  | _, [], manifest => ([], manifest, none)
  | done, bundle :: rest, manifest =>
    match buildBundle lib (world done) srcRoot outRoot bundle manifest with
    | (ws, .error e) =>
      (ws, manifest, some ("build ".toList ++ kind ++ " bundle ".toList ++
        lib.quote bundle.Name ++ ": ".toList ++ e))
    | (ws, .ok manifest1) =>
      match buildBundles lib world kind srcRoot outRoot (done ++ ws) rest manifest1 with
      | (ws2, manifest2, err) => (ws ++ ws2, manifest2, err)

/-- `assets.Build`, without the lines it prints when verbose: the calls that
change the file system, the manifest it returns, and the error it returns. -/
def Build (lib : GoLib) (json : JsonLib) (h : Host) (srcRoot outRoot : Str) :
    List Write × Manifest × Option Str :=
  match loadConfig lib json h srcRoot with
  | .error e => ([], [], some e)
  | .ok none =>
    match writeManifest json (h.after []) outRoot [] with
    | (ws, err) => (ws, [], err)
  | .ok (some config) =>
    match buildBundles lib h.after "css".toList srcRoot outRoot [] config.CSSBundles [] with
    | (ws1, manifest1, some e) => (ws1, manifest1, some e)
    | (ws1, manifest1, none) =>
      match buildBundles lib h.after "js".toList srcRoot outRoot ws1 config.JSBundles
        manifest1 with
      | (ws2, manifest2, some e) => (ws1 ++ ws2, manifest2, some e)
      | (ws2, manifest2, none) =>
        match writeManifest json (h.after (ws1 ++ ws2)) outRoot manifest2 with
        | (ws3, err) => (ws1 ++ ws2 ++ ws3, manifest2, err)

/-! ## `build.Run` -/

/-- `build.Config`. -/
structure Config where
  InDir : Str
  OutDir : Str
  Clean : Bool
  Verbose : Bool

/-- Go `filepath.Base` on Unix: the last element of the path, trailing
separators removed; `.` for the empty path and `/` for a path of separators. -/
def Base (path : Str) : Str :=
  if path = [] then dot
  else
    let p := (path.reverse.dropWhile (fun c => c == '/')).reverse
    let last := (p.reverse.takeWhile (fun c => c != '/')).reverse
    if last = [] then ['/'] else last

/-- Go `filepath.Ext`: the suffix of the last element from its final dot on,
empty when that element has no dot. -/
def Ext (path : Str) : Str :=
  let last := path.reverse.takeWhile (fun c => c != '/')
  if last.contains '.' then '.' :: (last.takeWhile (fun c => c != '.')).reverse else []

/-- Go `strings.ToLower`, on the letters of ASCII. -/
def ToLower (s : Str) : Str := s.map Char.toLower

/-- `build.isTemplateFile`. -/
def isTemplateFile (path : Str) : Bool := ToLower (Ext path) = ".html".toList

/-- `build.pipelineSourcePrefixes`. -/
def pipelineSourcePrefixes : List Str := ["_assets".toList, "_css".toList, "_js".toList]

/-- `build.isPipelineSource`. -/
def isPipelineSource (relPath : Str) : Bool :=
  let relPath := ToSlash relPath
  if relPath = [] then false
  else pipelineSourcePrefixes.any (fun pre => relPath = pre || HasPrefix relPath (pre ++ ['/']))

/-- `build.isIgnored`. -/
def isIgnored (name : Str) (isDir : Bool) : Bool :=
  if name = [] then false
  else if !isDir then
    if name = ".DS_Store".toList || name = "Thumbs.db".toList || HasPrefix name "._".toList
    then true else false
  else false

/-- `build.copyFile`: the calls that change the file system, and the error.
Opening and reading the source is one call of the model, creating and writing
the destination another. -/
def copyFile (fs : FS) (src dst : Str) : List Write × Option Str :=
  match fs.stat src with
  | .failed e => ([], some ("stat source file: ".toList ++ e))
  | .info _ perm =>
    match fs.mkdirAll (Dir dst) with
    | some e => ([.mkdirAll (Dir dst) 0o755],
        some ("create output parent directory: ".toList ++ e))
    | none =>
      match fs.readFile src with
      | .error e => ([.mkdirAll (Dir dst) 0o755], some ("open source file: ".toList ++ e))
      | .ok data =>
        let mode := if perm = 0 then 0o644 else perm
        match fs.writeFile dst data with
        | some e => ([.mkdirAll (Dir dst) 0o755, .writeFile dst data mode],
            some ("create output file: ".toList ++ e))
        | none => ([.mkdirAll (Dir dst) 0o755, .writeFile dst data mode], none)

/-- What a callback of `filepath.WalkDir` returns: `nil`, `filepath.SkipDir`,
or an error. -/
inductive WalkStep where
  | next
  | skipDir
  | fail (err : Str)
deriving DecidableEq, Repr

/-- The callback that `build.Run` gives to `filepath.WalkDir`, for an entry
that was read without error, and without the lines it prints when verbose: the
calls that change the file system and what it returns; `none` when a rendering
has not enough fuel. -/
def walkFn (lib : GoLib) (h : Host) (fuel : Nat) (inAbs outAbs : Str) (manifest : Manifest)
    (path : Str) (d : DirEntry) : Option (List Write × WalkStep) :=
  if isIgnored d.Name d.IsDir then some ([], if d.IsDir then .skipDir else .next)
  else
    match Rel inAbs path with
    | .error e =>
      some ([], .fail ("compute relative path for ".toList ++ path ++ ": ".toList ++ e))
    | .ok rel =>
      if rel = dot then some ([], .next)
      else if isPipelineSource rel then some ([], if d.IsDir then .skipDir else .next)
      else if (manifest.lookup (ToSlash rel)).isSome then some ([], .next)
      else
        let outPath := Join [outAbs, rel]
        if d.IsDir then
          match h.mkdirAll outPath with
          | some e => some ([.mkdirAll outPath 0o755], .fail e)
          | none => some ([.mkdirAll outPath 0o755], .next)
        else if d.IsSymlink then
          some ([], .fail ("symlink is not supported: ".toList ++ path))
        else if isTemplateFile path then
          match renderFile lib h.toFS fuel inAbs path outPath manifest with
          | none => none
          | some (ws, .error e) => some (ws, .fail e)
          | some (ws, .ok _) => some (ws, .next)
        else
          match copyFile h.toFS path outPath with
          | (ws, some e) => some (ws, .fail e)
          | (ws, none) => some (ws, .next)

/-- The loop of `filepath.WalkDir` over the entries of the directory `path`,
`walk` being the walk of one entry: `SkipDir` from an entry ends the loop
without error, an error ends it with the error. -/
def walkList (walk : Str → DirEntry → Option (List Write × WalkStep)) (path : Str) :
    List DirEntry → Option (List Write × WalkStep)
  | [] => some ([], .next)
  | d1 :: rest =>
    match walk (Join [path, d1.Name]) d1 with
    | none => none
    | some (ws, .next) =>
      match walkList walk path rest with
      | none => none
      | some (ws2, r) => some (ws ++ ws2, r)
    | some (ws, .skipDir) => some (ws, .next)
    | some (ws, .fail e) => some (ws, .fail e)

/-- The recursive walk of `filepath.WalkDir`, `fuel` directories deep, with a
callback `visit` that returns the error of a directory that cannot be read:
the callback is called on the entry; a directory is then read and its entries
walked, unless the callback returned `SkipDir` or an error. -/
def walkDir (visit : Str → DirEntry → Option (List Write × WalkStep)) (h : Host) :
    Nat → Str → DirEntry → Option (List Write × WalkStep)
  | 0, _, _ => none
  | fuel + 1, path, d =>
    match visit path d with
    | none => none
    | some (ws, .next) =>
      if !d.IsDir then some (ws, .next)
      else
        match h.readDir path with
        | .error e => some (ws, .fail e)
        | .ok dirs =>
          match walkList (walkDir visit h fuel) path dirs with
          | none => none
          | some (ws2, r) => some (ws ++ ws2, r)
    | some (ws, .skipDir) => some (ws, if d.IsDir then .next else .skipDir)
    | some (ws, .fail e) => some (ws, .fail e)

/-- Go `filepath.WalkDir`, with such a callback: the calls that change the
file system, and the error. -/
def WalkDir (visit : Str → DirEntry → Option (List Write × WalkStep)) (h : Host) (fuel : Nat)
    (root : Str) : Option (List Write × Option Str) :=
  match h.lstat root with
  | .notExist e => some ([], some e)
  | .failed e => some ([], some e)
  | .info isSymlink isDir =>
    match walkDir visit h fuel root ⟨Base root, isDir, isSymlink⟩ with
    | none => none
    | some (ws, .fail e) => some (ws, some e)
    | some (ws, _) => some (ws, none)

/-- `build.Run`, without the lines it prints when verbose: the trees removed
with `os.RemoveAll`, the calls that change the file system after that, and the
error; `none` when the walk or a rendering has not enough fuel. -/
def Run (lib : GoLib) (json : JsonLib) (h : Host) (fuel : Nat) (cfg : Config) :
    Option (List Str × List Write × Option Str) :=
  if cfg.InDir = [] then some ([], [], some "input directory is required".toList)
  else if cfg.OutDir = [] then some ([], [], some "output directory is required".toList)
  else
    match Abs h.toFS cfg.InDir with
    | .error e => some ([], [], some ("resolve input directory: ".toList ++ e))
    | .ok inAbs =>
      match Abs h.toFS cfg.OutDir with
      | .error e => some ([], [], some ("resolve output directory: ".toList ++ e))
      | .ok outAbs =>
        if inAbs = outAbs then
          some ([], [], some "input and output directories must differ".toList)
        else
          match h.stat inAbs with
          | .failed e => some ([], [], some ("stat input directory: ".toList ++ e))
          | .info isDir _ =>
            if !isDir then
              some ([], [], some ("input path is not a directory: ".toList ++ cfg.InDir))
            else if HasPrefix (outAbs ++ ['/']) (inAbs ++ ['/']) then
              some ([], [],
                some "output directory cannot be nested inside input directory".toList)
            else
              let removed := if cfg.Clean then [outAbs] else []
              match (if cfg.Clean then h.removeAll outAbs else none) with
              | some e => some (removed, [], some ("clean output directory: ".toList ++ e))
              | none =>
                match h.mkdirAll outAbs with
                | some e =>
                  some (removed, [.mkdirAll outAbs 0o755],
                    some ("create output directory: ".toList ++ e))
                | none =>
                  match Build lib json h inAbs outAbs with
                  | (ws, _, some e) =>
                    some (removed, .mkdirAll outAbs 0o755 :: ws,
                      some ("build assets: ".toList ++ e))
                  | (ws, manifest, none) =>
                    match WalkDir (walkFn lib h fuel inAbs outAbs manifest) h fuel inAbs with
                    | none => none
                    | some (ws2, some e) =>
                      some (removed, .mkdirAll outAbs 0o755 :: ws ++ ws2,
                        some ("walk source: ".toList ++ e))
                    | some (ws2, none) =>
                      some (removed, .mkdirAll outAbs 0o755 :: ws ++ ws2, none)

/-! ## `internal/watch` -/

/-- `watch.fileState`. -/
structure fileState where
  ModTimeUnixNano : Int
  Size : Int
  Mode : Nat
deriving DecidableEq, Repr

/-- A Go `map[string]fileState`: the entries of the map, every path once. -/
structure Snapshot where
  entries : List (Str × fileState)
  nodup : (entries.map Prod.fst).Nodup

/-- The map index `snapshot[path]`. -/
def Snapshot.get (s : Snapshot) (path : Str) : Option fileState := s.entries.lookup path

/-- The built-in `len` of a map. -/
def Snapshot.len (s : Snapshot) : Nat := s.entries.length

/-- `watch.snapshotsDiffer`. -/
def snapshotsDiffer (a b : Snapshot) : Bool :=
  if a.len != b.len then true
  else
    a.entries.any (fun entry =>
      match b.get entry.1 with
      | none => true
      | some stateB => entry.2 != stateB)

/-- `watch.Config`; the durations are in nanoseconds. -/
structure Watch.Config where
  Root : Str
  Interval : Int
  Debounce : Int
  Verbose : Bool

/-- The variables of the loop of `watch.Run`. A time is a reading of the
clock, in nanoseconds; the zero time, which `dueAt` holds until a difference
is found, is 0. -/
structure Watch.State where
  lastSnapshot : Snapshot
  pending : Bool
  dueAt : Int

/-- What the world answers during one poll tick, to the calls the loop may
make, in their order: `collectSnapshot` at the start of the tick, `time.Now`
when a difference is found, `time.Now` at the test of the due time, the
callback, and `collectSnapshot` after the callback. -/
structure Watch.Tick where
  current : Except Str Snapshot
  nowDetect : Int
  nowCheck : Int
  callback : Option Str
  latest : Except Str Snapshot

/-- What one poll tick does: the clock reading at which it found a difference,
the clock reading at which it invoked the callback, the line it printed for a
failed rebuild, and the variables after the tick, or the error with which
`Run` returns. -/
structure Watch.Outcome where
  detected : Option Int
  called : Option Int
  printed : Option Str
  next : Except Str Watch.State

/-- The body of the loop of `watch.Run` for one tick of the ticker, without
the lines it prints when verbose. -/
def Watch.tick (debounce : Int) (s : Watch.State) (t : Watch.Tick) : Watch.Outcome :=
  match t.current with
  | .error e => ⟨none, none, none, .error e⟩
  | .ok currentSnapshot =>
    let differ := snapshotsDiffer s.lastSnapshot currentSnapshot
    let s1 : Watch.State :=
      if differ then ⟨currentSnapshot, true, t.nowDetect + debounce⟩ else s
    let detected := if differ then some t.nowDetect else none
    if s1.pending && !(decide (t.nowCheck < s1.dueAt)) then
      let printed := t.callback.map
        (fun e => "sitegen: rebuild error: ".toList ++ e ++ "\n".toList)
      match t.latest with
      | .error e => ⟨detected, some t.nowCheck, printed, .error e⟩
      | .ok latestSnapshot =>
        ⟨detected, some t.nowCheck, printed, .ok ⟨latestSnapshot, false, s1.dueAt⟩⟩
    else ⟨detected, none, none, .ok s1⟩

/-- What the `select` of the loop receives: the context is done, or the ticker
has ticked. -/
inductive Watch.Event where
  | done
  | tick (t : Watch.Tick)

/-- The loop of `watch.Run` over the events it receives: what every tick did,
and what `Run` returns, `none` while the loop waits for the next event. -/
def Watch.loop (debounce : Int) : Watch.State → List Watch.Event →
    List Watch.Outcome × Option (Option Str)
  | _, [] => ([], none)
  | _, .done :: _ => ([], some none)
  | s, .tick t :: rest =>
    match (Watch.tick debounce s t).next with
    | .error e => ([Watch.tick debounce s t], some (some e))
    | .ok s1 =>
      ((Watch.tick debounce s t) :: (Watch.loop debounce s1 rest).1,
        (Watch.loop debounce s1 rest).2)

/-- `watch.Run`, over the events its loop receives. `hasCallback` says that
the callback is not nil, `initial` is the first `collectSnapshot`. The interval
only sets when the ticker ticks. -/
def Watch.Run (fs : FS) (cfg : Watch.Config) (hasCallback : Bool)
    (initial : Except Str Snapshot) (events : List Watch.Event) :
    List Watch.Outcome × Option (Option Str) :=
  if !hasCallback then ([], some (some "onDebouncedChange callback is required".toList))
  else
    match Abs fs cfg.Root with
    | .error e => ([], some (some ("resolve watch root: ".toList ++ e)))
    | .ok rootAbs =>
      match fs.stat rootAbs with
      | .failed e => ([], some (some ("stat watch root: ".toList ++ e)))
      | .info isDir _ =>
        if !isDir then
          ([], some (some ("watch root is not a directory: ".toList ++ cfg.Root)))
        else
          let debounce := if cfg.Debounce ≤ 0 then 200000000 else cfg.Debounce
          match initial with
          | .error e => ([], some (some e))
          | .ok lastSnapshot => Watch.loop debounce ⟨lastSnapshot, false, 0⟩ events

/-! ## Concrete file systems, for the examples -/

/-- What a path of an example file system holds: a regular file, a directory,
a symbolic link to a regular file with the given contents, or a symbolic link
whose target does not exist. -/
inductive Entry where
  | file (content : Str)
  | dir
  | linkToFile (content : Str)
  | linkDangling
deriving DecidableEq, Repr

/-- Whether a path lies below a regular file of the list (or below a link to
one): the path starts with the path of the file and a separator. -/
def belowFile (entries : List (Str × Entry)) (p : Str) : Bool :=
  entries.any (fun entry =>
    (match entry.2 with
      | .file _ => true
      | .linkToFile _ => true
      | _ => false) && HasPrefix p (entry.1 ++ ['/']))

/-- The error of a call on a path that the list does not hold: below a regular
file the operating system answers `not a directory`, which is not
`os.ErrNotExist`; anywhere else `no such file or directory`. -/
def missingMsg (entries : List (Str × Entry)) (p : Str) : Str :=
  if belowFile entries p then "not a directory".toList
  else "no such file or directory".toList

/-- The file system with working directory `/` that holds the listed paths
and nothing else; every write succeeds. -/
def FS.ofList (entries : List (Str × Entry)) : FS where
  getwd := .ok ['/']
  lstat := fun p =>
    match entries.lookup p with
    | none =>
      if belowFile entries p then .failed (missingMsg entries p)
      else .notExist (missingMsg entries p)
    | some (.file _) => .info false false
    | some .dir => .info false true
    | some (.linkToFile _) => .info true false
    | some .linkDangling => .info true false
  stat := fun p =>
    match entries.lookup p with
    | none => .failed (missingMsg entries p)
    | some (.file _) => .info false 0o644
    | some .dir => .info true 0o755
    | some (.linkToFile _) => .info false 0o644
    | some .linkDangling => .failed "no such file or directory".toList
  readFile := fun p =>
    match entries.lookup p with
    | some (.file c) => .ok c
    | some (.linkToFile c) => .ok c
    | some .dir => .error "is a directory".toList
    | some .linkDangling => .error "no such file or directory".toList
    | none => .error (missingMsg entries p)
  mkdirAll := fun _ => none
  writeFile := fun _ _ => none
  getwd_abs := by
    intro wd h
    cases h
    rfl

/-- A Go library for the examples: `%q` puts the string between double quotes,
and the context of an execution error names the template and the action. -/
def GoLib.plain : GoLib where
  quote := fun s => '"' :: s ++ ['"']
  execContext := fun name action =>
    "template: ".toList ++ name ++ ": executing at <".toList ++ action ++ ">: ".toList

/-- The paths of the small site `siteFS`. -/
def siteEntries : List (Str × Entry) := [
  ("/site".toList, .dir),
  ("/site/src".toList, .dir),
  ("/site/secret.css".toList, .file "secret".toList),
  ("/site/secret.html".toList, .file "secret".toList),
  ("/site/src/_css".toList, .dir),
  ("/site/src/_css/colors.css".toList, .file ":root\x7b--bg:#fff;\x7d".toList),
  ("/site/src/_css/elements.css".toList, .file "body\x7bcolor:#111;\x7d".toList),
  ("/site/src/_css/empty.css".toList, .file []),
  ("/site/src/_css/b.css".toList, .file ['b']),
  ("/site/src/_css/link.css".toList, .linkToFile "secret".toList),
  ("/site/src/_css/link.html".toList, .linkToFile "secret".toList),
  ("/site/src/gone.html".toList, .linkDangling),
  ("/site/src/fragments".toList, .dir),
  ("/site/src/fragments/header.html".toList, .file "<header>Header</header>".toList),
  ("/site/src/index.html".toList,
    .file "<main>\x7b\x7b render \"./fragments/header.html\" \x7d\x7d</main>".toList),
  ("/site/src/a.html".toList, .file "A\x7b\x7b render \"./b.html\" \x7d\x7d".toList),
  ("/site/src/b.html".toList, .file "B\x7b\x7b render \"./a.html\" \x7d\x7d".toList),
  ("/site/src/m.html".toList,
    .file "\x7b\x7b asset \"nope\" \x7d\x7d\x7b\x7b render \"./n.html\" \x7d\x7d".toList),
  ("/site/src/n.html".toList, .file "\x7b\x7b render \"./m.html\" \x7d\x7d".toList),
  ("/site/src/p.html".toList, .file "<p>\x7b\x7b render \"./q.html\" \x7d\x7d</p>".toList),
  ("/site/src/q.html".toList, .file "<q>\x7b\x7b render \"./r.html\" \x7d\x7d</q>".toList),
  ("/site/src/r.html".toList, .file "R".toList),
  ("/site/src/missing.html".toList,
    .file "<link href='\x7b\x7b asset \"missing.css\" \x7d\x7d' />".toList),
  ("/site/src/styled.html".toList,
    .file "<link href='\x7b\x7b asset \"style.css\" \x7d\x7d' />".toList),
  ("/site/src/outside.html".toList, .file "\x7b\x7b render \"../secret.html\" \x7d\x7d".toList),
  ("/site/src/vialink.html".toList,
    .file "\x7b\x7b render \"./_css/link.html\" \x7d\x7d".toList),
  ("/site/src/dangling.html".toList, .file "\x7b\x7b render \"./gone.html\" \x7d\x7d".toList),
  ("/site/src/a".toList, .dir),
  ("/site/src/a/b".toList, .dir),
  ("/site/src/a/b/t.html".toList, .file "\x7b\x7b render \"x.html\" \x7d\x7d".toList),
  ("/site/src/a/b/x.html".toList, .file "X".toList),
  ("/site/src/a/x.html".toList, .file "up".toList)]

/-- A small site: the source tree `/site/src` with style sheets and templates,
and a file outside it. -/
def siteFS : FS := FS.ofList siteEntries

/-- The manifest of the example site. -/
def siteManifest : Manifest := [("style.css".toList, "style.css".toList)]

/-- The source root of the example tree. -/
def siteSrc : Str := "/site/src".toList

/-- A symbolic link inside the example tree. -/
def siteLink : Str := "/site/src/_css/link.css".toList

/-- The renderer of the example site. -/
def siteRenderer : templateRenderer := ⟨siteSrc, siteManifest⟩

/-- Two templates of the example site that include each other. -/
def pageA : Str := "/site/src/a.html".toList

/-- The template `pageA` includes, which includes `pageA`. -/
def pageB : Str := "/site/src/b.html".toList

/-- A template whose asset reference fails before its include is reached. -/
def pageM : Str := "/site/src/m.html".toList

/-- The template `pageM` includes, which includes `pageM`. -/
def pageN : Str := "/site/src/n.html".toList

/-- Three templates of the example site: `p.html` includes `q.html`, which
includes `r.html`. -/
def pageP : Str := "/site/src/p.html".toList

/-- The template `pageP` includes. -/
def pageQ : Str := "/site/src/q.html".toList

/-- The template `pageQ` includes: literal text. -/
def pageR : Str := "/site/src/r.html".toList

/-- The directories that `os.MkdirAll` makes sure of: the cleaned path and
every directory above it. -/
def dirsOf (p : Str) : List Str :=
  let es := cleanElems true (splitSep p)
  (List.range es.length).map (fun n => '/' :: joinSep (es.take (n + 1)))

/-- The paths of a list after a call that changes the file system: a written
file holds the data, and `os.MkdirAll` adds the directories that are not
there. -/
def applyWrite (entries : List (Str × Entry)) : Write → List (Str × Entry)
  | .writeFile p data _ => (p, .file data) :: entries
  | .mkdirAll p _ =>
    ((dirsOf p).filter (fun q => (entries.lookup q).isNone)).map (fun q => (q, Entry.dir)) ++
      entries

/-- The host that starts with the listed paths, answers after some calls as
the list changed by these calls does, lists the given directories, and removes
any tree without error. -/
def Host.ofList (entries : List (Str × Entry)) (dirs : List (Str × List DirEntry)) : Host where
  toFS := FS.ofList entries
  removeAll := fun _ => none
  readDir := fun p =>
    match dirs.lookup p with
    | some listing => .ok listing
    | none => .error "not a directory".toList
  readNotExist := fun p =>
    match (FS.ofList entries).lstat p with
    | .notExist _ => true
    | _ => false
  after := fun ws => FS.ofList (ws.foldl applyWrite entries)
  after_nil := rfl

/-- A JSON library for the examples: every configuration file decodes to the
given configuration, and a manifest is written as its keys and values. -/
def JsonLib.fixed (config : BundleConfig) : JsonLib where
  decodeConfig := fun _ => .ok config
  marshalManifest := fun m =>
    .ok (m.map (fun kv => kv.1 ++ "=".toList ++ kv.2 ++ ";".toList)).flatten

/-- The paths of the source tree `bundleFS`. -/
def bundleEntries : List (Str × Entry) := [
  ("/site".toList, .dir),
  ("/site/src".toList, .dir),
  ("/site/src/_assets".toList, .dir),
  ("/site/src/_assets/bundles.json".toList, .file "config".toList),
  ("/site/src/_css".toList, .dir),
  ("/site/src/_css/colors.css".toList, .file ":root\x7b--bg:#fff;\x7d".toList),
  ("/site/src/_css/elements.css".toList, .file "body\x7bcolor:#111;\x7d".toList)]

/-- A source tree with a bundle configuration file and two style sheets. -/
def bundleFS : FS := FS.ofList bundleEntries

/-- The host of the source tree `bundleFS`. -/
def bundleHost : Host := Host.ofList bundleEntries []

/-- The output root of the examples. -/
def siteOut : Str := "/site/out".toList

/-- A configuration whose only bundle is declared with a space before its
name. -/
def paddedConfig : BundleConfig :=
  ⟨[⟨" style.css".toList, ["_css/colors.css".toList]⟩], []⟩

/-- A configuration with one CSS bundle of two inputs. -/
def styleConfig : BundleConfig :=
  ⟨[⟨"style.css".toList, ["_css/colors.css".toList, "_css/elements.css".toList]⟩], []⟩

/-- A configuration in which two CSS bundles share the name `style.css`. -/
def dupConfig : BundleConfig :=
  ⟨[⟨"style.css".toList, ["_css/colors.css".toList]⟩,
    ⟨"style.css".toList, ["_css/elements.css".toList]⟩], []⟩

/-- A configuration whose second bundle has a name with a `..` segment. -/
def escapingConfig : BundleConfig :=
  ⟨[⟨"style.css".toList, ["_css/colors.css".toList]⟩,
    ⟨"../x.css".toList, ["_css/elements.css".toList]⟩], []⟩

/-- A configuration whose second bundle has a name below the first one's. -/
def belowConfig : BundleConfig :=
  ⟨[⟨"a".toList, ["_css/colors.css".toList]⟩,
    ⟨"a/b".toList, ["_css/elements.css".toList]⟩], []⟩

/-- A bundle whose name is the single dot. -/
def dotBundle : Bundle := ⟨".".toList, ["_css/colors.css".toList]⟩

/-- A tree that holds the bundle `style.css` as `concatInputs` writes it. -/
def normalizedFS : FS := FS.ofList [
  ("/site".toList, .dir),
  ("/site/out".toList, .dir),
  ("/site/out/style.css".toList,
    .file ":root\x7b--bg:#fff;\x7d\nbody\x7bcolor:#111;\x7d\n".toList)]

/-- The paths of the source tree `walkFS`. -/
def walkEntries : List (Str × Entry) := [
  ("/site".toList, .dir),
  ("/site/src".toList, .dir),
  ("/site/src/.DS_Store".toList, .file "metadata".toList),
  ("/site/src/._cache".toList, .dir),
  ("/site/src/._cache/a.txt".toList, .file "a".toList),
  ("/site/src/_css".toList, .dir),
  ("/site/src/_css/colors.css".toList, .file ":root\x7b--bg:#fff;\x7d".toList),
  ("/site/src/_cssx".toList, .file "x".toList),
  ("/site/src/index.html".toList, .file "<h1>Hello</h1>".toList),
  ("/site/src/nested".toList, .dir),
  ("/site/src/nested/Thumbs.db".toList, .file "metadata".toList),
  ("/site/src/nested/_css".toList, .dir),
  ("/site/src/nested/_css/x.css".toList, .file "x".toList),
  ("/site/src/nested/about.txt".toList, .file "about".toList)]

/-- A source tree with metadata entries: the file `.DS_Store`, the directory
`._cache` with a file in it, a style sheet directory, a page, and a directory
`nested` with the file `Thumbs.db` and a directory `_css` of its own. -/
def walkFS : FS := FS.ofList walkEntries

/-- The host of the source tree `walkFS`, with its directories listed in the
order of their names. -/
def walkHost : Host := Host.ofList walkEntries [
  ("/site/src".toList, [
    ⟨".DS_Store".toList, false, false⟩,
    ⟨"._cache".toList, true, false⟩,
    ⟨"_css".toList, true, false⟩,
    ⟨"_cssx".toList, false, false⟩,
    ⟨"index.html".toList, false, false⟩,
    ⟨"nested".toList, true, false⟩]),
  ("/site/src/._cache".toList, [⟨"a.txt".toList, false, false⟩]),
  ("/site/src/_css".toList, [⟨"colors.css".toList, false, false⟩]),
  ("/site/src/nested".toList, [
    ⟨"Thumbs.db".toList, false, false⟩,
    ⟨"_css".toList, true, false⟩,
    ⟨"about.txt".toList, false, false⟩]),
  ("/site/src/nested/_css".toList, [⟨"x.css".toList, false, false⟩])]

/-- A JSON library for a site without bundles. -/
def noBundles : JsonLib := JsonLib.fixed ⟨[], []⟩

/-- The configuration that builds the tree `walkFS` into `/site/out`. -/
def walkConfig : Config := ⟨"/site/src".toList, "/site/out".toList, false, false⟩

/-- The paths of the file system `rootFS`. -/
def rootEntries : List (Str × Entry) := [
  ("/".toList, .dir),
  ("/_css".toList, .dir),
  ("/index.txt".toList, .file "hello".toList)]

/-- A file system whose root directory holds one page and the directory
`_css`. -/
def rootFS : FS := FS.ofList rootEntries

/-- The host of `rootFS`. -/
def rootHost : Host := Host.ofList rootEntries [
  ("/".toList, [⟨"_css".toList, true, false⟩, ⟨"index.txt".toList, false, false⟩])]

/-- The configuration that builds the root directory into `/_css`, cleaning
first. -/
def rootConfig : Config := ⟨"/".toList, "/_css".toList, true, false⟩

/-- The state of a file of 2 bytes, written at time 1. -/
def stateV1 : fileState := ⟨1, 2, 0o644⟩

/-- The state of the same file after it is written again at time 6. -/
def stateV2 : fileState := ⟨6, 2, 0o644⟩

/-- A snapshot of a tree that holds `index.html`. -/
def snap1 : Snapshot := ⟨[("index.html".toList, stateV1)], by decide⟩

/-- The snapshot after `index.html` is written again. -/
def snap2 : Snapshot := ⟨[("index.html".toList, stateV2)], by decide⟩

/-- The snapshot after `new.txt` is added. -/
def snap3 : Snapshot :=
  ⟨[("index.html".toList, stateV2), ("new.txt".toList, ⟨7, 3, 0o644⟩)], by decide⟩

/-- The snapshot after `index.html` is removed. -/
def snap4 : Snapshot := ⟨[("new.txt".toList, ⟨7, 3, 0o644⟩)], by decide⟩

/-- Two poll ticks, 250 milliseconds apart: the first finds `index.html`
written again, the second finds nothing new; the rebuild fails with `boom`. -/
def twoTicks : List Watch.Event := [
  .tick ⟨.ok snap2, 0, 0, some "boom".toList, .ok snap2⟩,
  .tick ⟨.ok snap2, 250000000, 250000000, some "boom".toList, .ok snap2⟩]

/-- The same two ticks, when the snapshot after the rebuild cannot be taken. -/
def failingTicks : List Watch.Event := [
  .tick ⟨.ok snap2, 0, 0, none, .ok snap2⟩,
  .tick ⟨.ok snap2, 250000000, 250000000, none, .error "walk snapshot: stat /site/src/new.txt: no such file or directory".toList⟩]

/-- One poll tick that finds `index.html` written again, with the clock read
at 0 when the difference is found and at 1 when the due time is tested. -/
def quickTick : Watch.Tick := ⟨.ok snap2, 0, 1, none, .ok snap2⟩

/-- The watcher of the example tree with the default intervals. -/
def watchConfig : Watch.Config := ⟨"/site/src".toList, 0, 0, false⟩

/-- The watcher of the example tree with a debounce interval of one
nanosecond. -/
def quickConfig : Watch.Config := ⟨"/site/src".toList, 0, 1, false⟩

/-- A source tree with a chain of three templates without repeat, the first of
which refers to an asset before its include. -/
def chainFS : FS := FS.ofList [
  ("/site".toList, .dir),
  ("/site/src".toList, .dir),
  ("/site/src/a.html".toList,
    .file "\x7b\x7b asset \"nope\" \x7d\x7d<a>\x7b\x7b render \"./b.html\" \x7d\x7d</a>".toList),
  ("/site/src/b.html".toList, .file "<b>\x7b\x7b render \"./c.html\" \x7d\x7d</b>".toList),
  ("/site/src/c.html".toList, .file ['C'])]

/-- A source tree of two templates that include each other. -/
def cycleFS : FS := FS.ofList [
  ("/site".toList, .dir),
  ("/site/src".toList, .dir),
  ("/site/src/a.html".toList, .file "A\x7b\x7b render \"./b.html\" \x7d\x7d".toList),
  ("/site/src/b.html".toList, .file "B\x7b\x7b render \"./a.html\" \x7d\x7d".toList)]

/-- The files of the tree `cycleFS`. -/
def cycleFiles : List Str := ["/site/src/a.html".toList, "/site/src/b.html".toList]

/-- The renderer of the source root `/site/src` with an empty manifest. -/
def noAssets : templateRenderer := ⟨siteSrc, []⟩

/-! ## Auxiliary definitions for the statements -/

/-- An element `Clean` keeps in a rooted path: a file or directory name. -/
def IsName (e : Str) : Prop := e ≠ [] ∧ e ≠ dot ∧ e ≠ dotdot ∧ '/' ∉ e

/-- The elements of the cleaned form of a rooted path. -/
def rootedElems (p : Str) : List Str := cleanElems true (splitSep p)

/-- The relative path `Rel` writes from the elements of two cleaned rooted
paths that differ. -/
def relOfElems (eb et : List Str) : Str :=
  joinSep ((dropCommon eb et).1.map (fun _ => dotdot) ++ (dropCommon eb et).2)

/-- The first element of a slash-separated string. -/
def firstElem (s : Str) : Str := s.takeWhile (fun c => c != '/')

/-- The paths `/e₁/…/eₙ/x₁`, `/e₁/…/eₙ/x₁/x₂`, … reached by going down from
the path with elements `es` through the names `xs`, one name at a time. -/
def pathsBelow (es : List Str) : List Str → List Str
  | [] => []
  | x :: xs => ('/' :: joinSep (es ++ [x])) :: pathsBelow (es ++ [x]) xs

/-- The path components between `root` (exclusive) and `target` (inclusive),
for cleaned absolute paths with `target` inside `root`: the path of every
directory on the way down from the root, and the target itself. -/
def componentPaths (root target : Str) : List Str :=
  pathsBelow (rootedElems root) ((rootedElems target).drop (rootedElems root).length)

/-- What the loop of `EnsureNoSymlinkTraversal` does with the paths it inspects:
it stops without error at the first path that does not exist, with an error at
the first path that cannot be inspected or is a symbolic link, and goes on
otherwise. -/
def checkPaths (lib : GoLib) (fs : FS) : List Str → Except Str Unit
  | [] => .ok ()
  | p :: ps =>
    match fs.lstat p with
    | .notExist _ => .ok ()
    | .failed e => .error ("lstat ".toList ++ lib.quote p ++ ": ".toList ++ e)
    | .info isSymlink _ =>
      if isSymlink then .error ("symlink traversal is not allowed: ".toList ++ p)
      else checkPaths lib fs ps

/-- What one input adds to a bundle: its bytes, and a newline when it is
non-empty and does not end in one. -/
def normInput (data : Str) : Str :=
  if data.length > 0 && !endsInNewline data then data ++ ['\n'] else data

/-- The concatenation as the specification words it: the contents in order, every input
but the last followed by exactly one newline (its own last byte, or an added
one), and the last input followed by a newline when it is non-empty and does not
end in one. -/
def specConcat : List Str → Str
  | [] => []
  | [c] => normInput c
  | c :: d :: rest =>
    (if endsInNewline c then c else c ++ ['\n']) ++ specConcat (d :: rest)

/-- A bundle input that `concatInputs` accepts, with the contents it reads: the
trimmed name is non-empty, resolves inside the source root without a symbolic
link on the way, and names a regular file that can be read. -/
def ReadableInput (lib : GoLib) (fs : FS) (srcRoot input content : Str) : Prop :=
  ToSlash (TrimSpace input) ≠ [] ∧
  ∃ path, ResolveWithinRoot lib fs srcRoot (ToSlash (TrimSpace input)) = .ok path ∧
    EnsureNoSymlinkTraversal lib fs srcRoot path = .ok () ∧
    (∃ perm, fs.stat path = .info false perm) ∧
    fs.readFile path = .ok content

/-- The name `buildBundle` works with: the declared name, trimmed. -/
def bundleName (b : Bundle) : Str := ToSlash (TrimSpace b.Name)

/-- The bundles `buildBundle` rejects: the trimmed name is empty, starts with
`/` or contains two consecutive dots, or there is no input. -/
def bundleRejected (b : Bundle) : Prop :=
  bundleName b = [] ∨ HasPrefix (bundleName b) ['/'] = true ∨
    Contains (bundleName b) dotdot = true ∨ b.Inputs = []

/-- The bundles the specification has rejected: the name is empty, starts with `/` or
has a `..` path segment, or there is no input. -/
def specRejected (b : Bundle) : Prop :=
  b.Name = [] ∨ HasPrefix b.Name ['/'] = true ∨ dotdot ∈ splitSep b.Name ∨ b.Inputs = []

/-- A bundle whose name has two consecutive dots inside a file name. -/
def dottedBundle : Bundle := ⟨"a..b.css".toList, ["_css/colors.css".toList]⟩

/-- A bundle of the example tree that passes validation. -/
def styleBundle : Bundle := ⟨"style.css".toList, ["_css/colors.css".toList]⟩

/-- The `render` function that `templateRenderer.render` puts in the function
map of the template at `templateAbs`, when it may go `fuel` includes deep. -/
def templateRenderer.includeFn (lib : GoLib) (fs : FS) (r : templateRenderer) (fuel : Nat)
    (templateAbs : Str) (nextStack : List Str) : Str → Option (Except Str Str) :=
  fun includePath =>
    match resolveIncludePath lib fs r.srcRoot templateAbs includePath with
    | .error e => some (.error e)
    | .ok resolved => r.render lib fs fuel resolved nextStack

/-- The `render` function of the function map with the calls it makes, as
`templateRenderer.renderLog` builds it for the template at `templateAbs`. -/
def templateRenderer.includeLog (lib : GoLib) (fs : FS) (r : templateRenderer) (fuel : Nat)
    (templateAbs : Str) (nextStack : List Str) :
    Str → Option (Except Str Str) × List (Str × List Str) :=
  fun includePath =>
    match resolveIncludePath lib fs r.srcRoot templateAbs includePath with
    | .error e => (some (.error e), [])
    | .ok resolved => r.renderLog lib fs fuel resolved nextStack

/-- A finite source tree: the list `files` holds every file of the tree, that
is every rooted path in cleaned form inside the source root that is reached
without crossing a symbolic link and that can be read. -/
def FiniteTree (lib : GoLib) (fs : FS) (srcRoot : Str) (files : List Str) : Prop :=
  ∀ p content, IsAbs p = true → Clean p = p → IsWithinRoot fs srcRoot p = .ok true →
    EnsureNoSymlinkTraversal lib fs srcRoot p = .ok () → fs.readFile p = .ok content →
    p ∈ files

/-- The listed files that can be read are templates of the fragment of
`parseTemplate`: literal text and actions `render "…"` and `asset "…"`. -/
def FragmentFiles (fs : FS) (files : List Str) : Prop :=
  ∀ p ∈ files, ∀ content, fs.readFile p = .ok content →
    ∃ nodes, parseTemplate content = some nodes

/-- The template path resolves to a listed file whenever it resolves to a path
that can be read. -/
def ListedTemplate (fs : FS) (files : List Str) (templatePath : Str) : Prop :=
  ∀ templateAbs content, Abs fs templatePath = .ok templateAbs →
    fs.readFile templateAbs = .ok content → templateAbs ∈ files

/-- A node that executes without calling `render` and without error: literal
text, or an `asset` action whose name the manifest holds. -/
def PlainNode (lib : GoLib) (assets : Manifest) (n : Node) : Prop :=
  (∃ t, n = .text t) ∨ ∃ a v, n = .asset a ∧ assetFunc lib assets a = .ok v

/-- The literal text of a list of nodes: the text nodes, in order. -/
def textOf : List Node → Str
  | [] => []
  | .text t :: rest => t ++ textOf rest
  | _ :: rest => textOf rest

/-- Nodes that are all literal text. -/
def AllText (nodes : List Node) : Prop := ∀ n ∈ nodes, ∃ t, n = Node.text t

/-- An element `Clean` keeps in some path: not empty and not `.`. -/
def Kept (e : Str) : Prop := e ≠ [] ∧ e ≠ dot

/-- A template two directories below the source root of the example site. -/
def pageT : Str := "/site/src/a/b/t.html".toList

/-- A manifest whose keys are exactly the given names, each once, and each
mapped to itself. -/
def IdentityManifest (names : List Str) (m : Manifest) : Prop :=
  (∀ k v, (k, v) ∈ m ↔ v = k ∧ k ∈ names) ∧ (m.map Prod.fst).Nodup

/-- The names under which the bundles of a configuration are built: the
declared names of the CSS bundles and then of the JS bundles, each trimmed. -/
def configNames (config : BundleConfig) : List Str :=
  (config.CSSBundles ++ config.JSBundles).map bundleName

/-- The calls that change the file system when a bundle is built. -/
def bundleWrites (lib : GoLib) (fs : FS) (srcRoot outRoot : Str) (b : Bundle) : List Write :=
  (buildBundle lib fs srcRoot outRoot b []).1

/-- A bundle that `buildBundle` builds without error. -/
def Builds (lib : GoLib) (fs : FS) (srcRoot outRoot : Str) (b : Bundle) : Prop :=
  ∃ ws m1, buildBundle lib fs srcRoot outRoot b [] = (ws, .ok m1)

/-- The calls of the bundles of a list that are built one after another, each
on the file system as the calls before it have left it; `done` are the calls
made before the first bundle. -/
def turnWrites (lib : GoLib) (world : List Write → FS) (srcRoot outRoot : Str) :
    List Write → List Bundle → List Write
  | _, [] => []
  | done, b :: rest =>
    bundleWrites lib (world done) srcRoot outRoot b ++
      turnWrites lib world srcRoot outRoot
        (done ++ bundleWrites lib (world done) srcRoot outRoot b) rest

/-- Every bundle of a list builds at its turn: on the file system as the calls
`done` and the calls of the bundles before it have left it. -/
def BuildInTurn (lib : GoLib) (world : List Write → FS) (srcRoot outRoot : Str) :
    List Write → List Bundle → Prop
  | _, [] => True
  | done, b :: rest =>
    Builds lib (world done) srcRoot outRoot b ∧
      BuildInTurn lib world srcRoot outRoot
        (done ++ bundleWrites lib (world done) srcRoot outRoot b) rest

/-- The manifest after the names of the bundles are recorded in it, in order. -/
def recordAll (m : Manifest) (bs : List Bundle) : Manifest :=
  bs.foldl (fun m b => m.set (bundleName b) (bundleName b)) m

/-- A declared bundle name that starts with `/` or has a `..` path segment. -/
def EscapingName (b : Bundle) : Prop :=
  HasPrefix b.Name ['/'] = true ∨ dotdot ∈ splitSep b.Name

/-- A name of operating-system metadata: `.DS_Store`, `Thumbs.db`, or a name
that starts with `._`. -/
def MetadataName (name : Str) : Prop :=
  name = ".DS_Store".toList ∨ name = "Thumbs.db".toList ∨ HasPrefix name "._".toList = true

/-- The cleaned rooted path `outAbs` lies below the cleaned rooted path `inAbs`,
at any depth: its elements are those of `inAbs` followed by at least one more. -/
def NestedIn (inAbs outAbs : Str) : Prop :=
  ∃ names, names ≠ [] ∧ rootedElems outAbs = rootedElems inAbs ++ names

/-- The callback is debounced in a trace of poll ticks: whenever tick `i`
invoked the callback, at the clock reading `now`, some tick `j ≤ i` found a
difference, at a clock reading `t0` with `t0 + debounce ≤ now`; no tick after
`j` up to `i` found a difference, and no tick from `j` on before `i` invoked
the callback. -/
def Debounced (debounce : Int) (outcomes : List Watch.Outcome) : Prop :=
  ∀ (i : Nat) (o : Watch.Outcome) (now : Int), outcomes[i]? = some o → o.called = some now →
    ∃ (j : Nat) (oj : Watch.Outcome) (t0 : Int),
      j ≤ i ∧ outcomes[j]? = some oj ∧ oj.detected = some t0 ∧ t0 + debounce ≤ now ∧
      (∀ (k : Nat) (ok : Watch.Outcome),
        j < k → k ≤ i → outcomes[k]? = some ok → ok.detected = none) ∧
      (∀ (k : Nat) (ok : Watch.Outcome),
        j ≤ k → k < i → outcomes[k]? = some ok → ok.called = none)

/-- Every snapshot of the events can be taken. -/
def SnapshotsOk (events : List Watch.Event) : Prop :=
  ∀ t, Watch.Event.tick t ∈ events → (∃ c, t.current = .ok c) ∧ ∃ l, t.latest = .ok l

/-- The debounce interval `watch.Run` works with: 200 milliseconds when the
configured one is not positive. -/
def Watch.debounceOf (cfg : Watch.Config) : Int :=
  if cfg.Debounce ≤ 0 then 200000000 else cfg.Debounce

/-- The first half of the body of the loop of `concatInputs`: one input is
trimmed, resolved inside the source root, checked and read. -/
def readInput (lib : GoLib) (fs : FS) (srcRoot input : Str) : Except Str Str :=
  let rel := ToSlash (TrimSpace input)
  if rel = [] then .error "bundle input cannot be empty".toList
  else
    match ResolveWithinRoot lib fs srcRoot rel with
    | .error e => .error ("resolve input ".toList ++ lib.quote rel ++ ": ".toList ++ e)
    | .ok inputPath =>
      match EnsureNoSymlinkTraversal lib fs srcRoot inputPath with
      | .error e =>
        .error ("reject symlink input ".toList ++ lib.quote rel ++ ": ".toList ++ e)
      | .ok () =>
        match fs.stat inputPath with
        | .failed e => .error ("stat input ".toList ++ lib.quote rel ++ ": ".toList ++ e)
        | .info isDir _ =>
          if isDir then .error ("input ".toList ++ lib.quote rel ++ " is a directory".toList)
          else
            match fs.readFile inputPath with
            | .error e => .error ("read input ".toList ++ lib.quote rel ++ ": ".toList ++ e)
            | .ok data => .ok data

/-- The test of the branch of `concatInputs` that writes a separator before
an input: `i > 0 && out.Len() > 0 && out.Bytes()[out.Len()-1] != '\n'`. -/
def separatorDue (i : Nat) (out : Str) : Bool :=
  decide (i > 0) && decide (out.length > 0) && !endsInNewline out

/-- The second half of the body of the loop of `concatInputs`: the buffer
after the data of input number `i` is written. -/
def addInput (i : Nat) (out data : Str) : Str :=
  let out := if separatorDue i out then out ++ ['\n'] else out
  let out := out ++ data
  if data.length > 0 && !endsInNewline data then out ++ ['\n'] else out

/-! # Theorems -/

/-! ## Lemmas on splitting and joining -/

theorem splitSep_ne_nil (s : Str) : splitSep s ≠ [] := by
  cases s with
  | nil => simp [splitSep]
  | cons c cs =>
    simp only [splitSep]
    split
    · simp
    · split <;> simp

theorem splitSep_cons_sep (cs : Str) : splitSep ('/' :: cs) = [] :: splitSep cs := by
  simp [splitSep]

theorem splitSep_cons_other (c : Char) (cs : Str) (h : c ≠ '/') :
    ∃ w ws, splitSep cs = w :: ws ∧ splitSep (c :: cs) = (c :: w) :: ws := by
  cases hs : splitSep cs with
  | nil => exact absurd hs (splitSep_ne_nil cs)
  | cons w ws => exact ⟨w, ws, rfl, by simp [splitSep, h, hs]⟩

theorem splitSep_append_sep (a b : Str) :
    splitSep (a ++ '/' :: b) = splitSep a ++ splitSep b := by
  induction a with
  | nil => simp [splitSep]
  | cons c cs ih =>
    by_cases h : c = '/'
    · subst h
      simp [splitSep_cons_sep, ih]
    · obtain ⟨w, ws, hs, h2⟩ := splitSep_cons_other c cs h
      obtain ⟨w1, ws1, hs1, h1⟩ := splitSep_cons_other c (cs ++ '/' :: b) h
      rw [List.cons_append, h1, h2]
      rw [ih, hs] at hs1
      simp only [List.cons_append, List.cons.injEq] at hs1
      simp [hs1.1, hs1.2]

theorem splitSep_of_noSep (w : Str) (h : '/' ∉ w) : splitSep w = [w] := by
  induction w with
  | nil => rfl
  | cons c cs ih =>
    have hc : c ≠ '/' := fun e => h (by simp [e])
    have hcs : '/' ∉ cs := fun e => h (List.mem_cons_of_mem _ e)
    simp [splitSep, hc, ih hcs]

theorem splitSep_joinSep (es : List Str) (hne : es ≠ []) (h : ∀ e ∈ es, '/' ∉ e) :
    splitSep (joinSep es) = es := by
  induction es with
  | nil => exact absurd rfl hne
  | cons w ws ih =>
    cases ws with
    | nil => simpa [joinSep] using splitSep_of_noSep w (h w (by simp))
    | cons v vs =>
      have hw := splitSep_of_noSep w (h w (by simp))
      have ht := ih (by simp) (fun e he => h e (List.mem_cons_of_mem _ he))
      simp only [joinSep]
      rw [splitSep_append_sep, hw, ht]
      rfl

theorem noSep_of_mem_splitSep (s e : Str) (he : e ∈ splitSep s) : '/' ∉ e := by
  induction s generalizing e with
  | nil =>
    simp [splitSep] at he
    subst he
    simp
  | cons c cs ih =>
    by_cases h : c = '/'
    · subst h
      rw [splitSep_cons_sep] at he
      rcases List.mem_cons.mp he with rfl | he
      · simp
      · exact ih e he
    · obtain ⟨w, ws, hs, h2⟩ := splitSep_cons_other c cs h
      rw [h2] at he
      rcases List.mem_cons.mp he with rfl | he
      · intro hm
        rcases List.mem_cons.mp hm with e1 | e1
        · exact h e1.symm
        · exact ih w (by simp [hs]) e1
      · exact ih e (by simp [hs, he])

/-! ## Lemmas on `Clean` -/

theorem cleanStep_name (r : Bool) (out : List Str) (e : Str) (h : IsName e) :
    cleanStep r out e = e :: out := by
  obtain ⟨h1, h2, h3, _⟩ := h
  simp [cleanStep, h1, h2, h3]

theorem foldl_cleanStep_names (r : Bool) (es out : List Str) (h : ∀ e ∈ es, IsName e) :
    es.foldl (cleanStep r) out = es.reverse ++ out := by
  induction es generalizing out with
  | nil => rfl
  | cons e es ih =>
    rw [List.foldl_cons, cleanStep_name r out e (h e (by simp)),
      ih _ (fun x hx => h x (List.mem_cons_of_mem _ hx))]
    simp

theorem cleanStep_rooted_names (out : List Str) (e : Str) (hout : ∀ x ∈ out, IsName x)
    (he : '/' ∉ e) : ∀ x ∈ cleanStep true out e, IsName x := by
  unfold cleanStep
  by_cases h1 : e = [] ∨ e = dot
  · rw [if_pos h1]; exact hout
  · rw [if_neg h1]
    by_cases h2 : e = dotdot
    · rw [if_pos h2]
      cases out with
      | nil => simp
      | cons top rest =>
        have htop : top ≠ dotdot := (hout top (by simp)).2.2.1
        simp only [if_neg htop]
        exact fun x hx => hout x (List.mem_cons_of_mem _ hx)
    · rw [if_neg h2]
      intro x hx
      rcases List.mem_cons.mp hx with rfl | hx
      · exact ⟨fun e0 => h1 (Or.inl e0), fun e0 => h1 (Or.inr e0), h2, he⟩
      · exact hout x hx

theorem foldl_cleanStep_rooted_names (es out : List Str) (hout : ∀ x ∈ out, IsName x)
    (hes : ∀ e ∈ es, '/' ∉ e) : ∀ x ∈ es.foldl (cleanStep true) out, IsName x := by
  induction es generalizing out with
  | nil => exact hout
  | cons e es ih =>
    rw [List.foldl_cons]
    exact ih _ (cleanStep_rooted_names out e hout (hes e (by simp)))
      (fun x hx => hes x (List.mem_cons_of_mem _ hx))

theorem rootedElems_names (p : Str) : ∀ x ∈ rootedElems p, IsName x := by
  intro x hx
  unfold rootedElems cleanElems at hx
  rw [List.mem_reverse] at hx
  exact foldl_cleanStep_rooted_names (splitSep p) [] (by simp)
    (fun e he => noSep_of_mem_splitSep p e he) x hx

theorem cleanElems_names (r : Bool) (es : List Str) (h : ∀ e ∈ es, IsName e) :
    cleanElems r es = es := by
  unfold cleanElems
  rw [foldl_cleanStep_names r es [] h]
  simp

theorem IsAbs_cons (cs : Str) : IsAbs ('/' :: cs) = true := by
  simp [IsAbs, HasPrefix]

theorem IsAbs_iff (p : Str) : IsAbs p = true ↔ ∃ cs, p = '/' :: cs := by
  cases p with
  | nil => simp [IsAbs, HasPrefix]
  | cons c cs =>
    simp only [IsAbs, HasPrefix, List.isPrefixOf, Bool.and_true, beq_iff_eq, List.cons.injEq]
    constructor
    · intro h; exact ⟨cs, h.symm, rfl⟩
    · rintro ⟨_, h, _⟩; exact h.symm

theorem Clean_rooted (p : Str) (h : IsAbs p = true) :
    Clean p = '/' :: joinSep (rootedElems p) := by
  obtain ⟨cs, rfl⟩ := (IsAbs_iff p).mp h
  simp [Clean, IsAbs_cons, rootedElems]

theorem IsAbs_Clean (p : Str) (h : IsAbs p = true) : IsAbs (Clean p) = true := by
  rw [Clean_rooted p h]
  exact IsAbs_cons _

theorem joinSep_ne_nil (es : List Str) (hne : es ≠ []) (h : ∀ e ∈ es, e ≠ []) :
    joinSep es ≠ [] := by
  cases es with
  | nil => exact absurd rfl hne
  | cons w ws =>
    have hw : w ≠ [] := h w (by simp)
    cases ws with
    | nil => simpa [joinSep] using hw
    | cons v vs => simp [joinSep, hw]

theorem rootedElems_root_join (es : List Str) (h : ∀ e ∈ es, IsName e) :
    rootedElems ('/' :: joinSep es) = es := by
  unfold rootedElems
  rw [splitSep_cons_sep]
  cases es with
  | nil => simp [joinSep, splitSep, cleanElems, cleanStep]
  | cons w ws =>
    rw [splitSep_joinSep (w :: ws) (by simp) (fun e he => (h e he).2.2.2)]
    have : cleanElems true ([] :: w :: ws) = cleanElems true (w :: ws) := by
      simp [cleanElems, cleanStep]
    rw [this, cleanElems_names true (w :: ws) h]

theorem rootedElems_Clean (p : Str) (h : IsAbs p = true) :
    rootedElems (Clean p) = rootedElems p := by
  rw [Clean_rooted p h]
  exact rootedElems_root_join _ (rootedElems_names p)

theorem Clean_idem (p : Str) (h : IsAbs p = true) : Clean (Clean p) = Clean p := by
  rw [Clean_rooted (Clean p) (IsAbs_Clean p h), rootedElems_Clean p h, Clean_rooted p h]

theorem pathElems_Clean (p : Str) (h : IsAbs p = true) :
    pathElems (Clean p) = rootedElems p := by
  rw [Clean_rooted p h]
  unfold pathElems
  simp only [IsAbs_cons, if_true, List.drop_succ_cons, List.drop_zero]
  by_cases he : rootedElems p = []
  · simp [he, joinSep]
  · rw [if_neg (joinSep_ne_nil _ he (fun e hx => (rootedElems_names p e hx).1))]
    exact splitSep_joinSep _ he (fun e hx => (rootedElems_names p e hx).2.2.2)

/-! ## Lemmas on `Rel` and the containment test -/

theorem dropCommon_split (bs ts : List Str) :
    ∃ c, bs = c ++ (dropCommon bs ts).1 ∧ ts = c ++ (dropCommon bs ts).2 := by
  induction bs generalizing ts with
  | nil => exact ⟨[], by simp [dropCommon]⟩
  | cons b bs ih =>
    cases ts with
    | nil => exact ⟨[], by simp [dropCommon]⟩
    | cons t ts =>
      by_cases h : b = t
      · subst h
        obtain ⟨c, h1, h2⟩ := ih ts
        refine ⟨b :: c, ?_, ?_⟩
        · simp only [dropCommon, if_true, List.cons_append]; rw [← h1]
        · simp only [dropCommon, if_true, List.cons_append]; rw [← h2]
      · exact ⟨[], by simp [dropCommon, h]⟩

theorem dropCommon_fst_nil_iff (bs ts : List Str) :
    (dropCommon bs ts).1 = [] ↔ bs <+: ts := by
  induction bs generalizing ts with
  | nil => simp [dropCommon]
  | cons b bs ih =>
    cases ts with
    | nil => simp [dropCommon]
    | cons t ts =>
      by_cases h : b = t
      · subst h
        simp only [dropCommon, if_true]
        rw [ih ts]
        constructor
        · rintro ⟨r, hr⟩; exact ⟨r, by simp [hr]⟩
        · rintro ⟨r, hr⟩
          refine ⟨r, ?_⟩
          simpa using hr
      · simp only [dropCommon, if_neg h]
        constructor
        · intro h0; exact absurd h0 (by simp)
        · rintro ⟨r, hr⟩
          simp only [List.cons_append, List.cons.injEq] at hr
          exact absurd hr.1 h

theorem dropCommon_fst_suffix (bs ts : List Str) : (dropCommon bs ts).1 <:+ bs := by
  obtain ⟨c, h1, _⟩ := dropCommon_split bs ts
  exact ⟨c, h1.symm⟩

theorem dropCommon_snd_suffix (bs ts : List Str) : (dropCommon bs ts).2 <:+ ts := by
  obtain ⟨c, _, h2⟩ := dropCommon_split bs ts
  exact ⟨c, h2.symm⟩

theorem Rel_rooted (b t : Str) (hb : IsAbs b = true) (ht : IsAbs t = true) :
    Rel b t = .ok (if Clean t = Clean b then dot
      else relOfElems (rootedElems b) (rootedElems t)) := by
  unfold Rel
  by_cases heq : Clean t = Clean b
  · simp [heq]
  · have hbd : Clean b ≠ dot := by
      rw [Clean_rooted b hb]; simp [dot]
    have hhead : (dropCommon (rootedElems b) (rootedElems t)).1.head? ≠ some dotdot := by
      intro hh
      have hmem : dotdot ∈ (dropCommon (rootedElems b) (rootedElems t)).1 :=
        List.mem_of_mem_head? hh
      have := rootedElems_names b dotdot ((dropCommon_fst_suffix _ _).subset hmem)
      exact this.2.2.1 rfl
    simp only [heq, if_false, hbd, IsAbs_Clean b hb, IsAbs_Clean t ht, bne_self_eq_false,
      Bool.false_eq_true, pathElems_Clean b hb, pathElems_Clean t ht]
    simp only [hhead, if_false, relOfElems]

theorem firstElem_nil : firstElem [] = [] := rfl

theorem firstElem_sep (cs : Str) : firstElem ('/' :: cs) = [] := by
  simp [firstElem, List.takeWhile]

theorem firstElem_other (c : Char) (cs : Str) (h : c ≠ '/') :
    firstElem (c :: cs) = c :: firstElem cs := by
  have : (c != '/') = true := by simpa using h
  simp [firstElem, List.takeWhile, this]

theorem head?_splitSep (s : Str) : (splitSep s).head? = some (firstElem s) := by
  induction s with
  | nil => rfl
  | cons c cs ih =>
    by_cases h : c = '/'
    · subst h
      simp [splitSep_cons_sep, firstElem_sep]
    · obtain ⟨w, ws, hs, h2⟩ := splitSep_cons_other c cs h
      rw [hs] at ih
      simp only [List.head?_cons, Option.some.injEq] at ih
      rw [h2, firstElem_other c cs h, ← ih]
      rfl

theorem escapes_cons_sep (cs : Str) : escapes ('/' :: cs) = false := by
  simp [escapes, HasPrefix, dotdot, List.isPrefixOf]

/-- The test in the source (`rel == ".."` or `rel` has the prefix `../`) holds
exactly when the first element of `rel` is `..`. -/
theorem escapes_iff (rel : Str) :
    escapes rel = true ↔ (splitSep rel).head? = some dotdot := by
  rw [head?_splitSep, Option.some.injEq]
  rcases rel with _ | ⟨a, r1⟩
  · simp [escapes, HasPrefix, dotdot, firstElem_nil, List.isPrefixOf]
  by_cases ha : a = '/'
  · subst ha
    rw [escapes_cons_sep, firstElem_sep]; simp [dotdot]
  rw [firstElem_other a r1 ha]
  rcases r1 with _ | ⟨b, r2⟩
  · simp [escapes, HasPrefix, dotdot, firstElem_nil, List.isPrefixOf]
  by_cases hb : b = '/'
  · subst hb
    rw [firstElem_sep]
    simp [escapes, HasPrefix, dotdot, List.isPrefixOf]
  rw [firstElem_other b r2 hb]
  rcases r2 with _ | ⟨c, r3⟩
  · simp only [escapes, HasPrefix, dotdot, firstElem_nil, List.isPrefixOf, List.cons_append,
      List.nil_append, Bool.and_false, Bool.false_or, decide_eq_true_eq]
  by_cases hc : c = '/'
  · subst hc
    rw [firstElem_sep]
    simp only [escapes, HasPrefix, dotdot, List.isPrefixOf, List.cons_append, List.nil_append,
      Bool.and_true, Bool.or_eq_true, Bool.and_eq_true, beq_iff_eq, decide_eq_true_eq,
      List.cons.injEq, and_true, beq_self_eq_true]
    constructor
    · rintro (⟨h1, h2⟩ | ⟨h1, h2, h3⟩)
      · exact ⟨h1.symm, h2.symm⟩
      · exact absurd h3 (by simp)
    · rintro ⟨h1, h2⟩
      exact Or.inl ⟨h1.symm, h2.symm⟩
  · rw [firstElem_other c r3 hc]
    simp only [escapes, HasPrefix, dotdot, List.isPrefixOf, List.cons_append, List.nil_append,
      Bool.and_true, Bool.or_eq_true, Bool.and_eq_true, beq_iff_eq, decide_eq_true_eq,
      List.cons.injEq, and_true]
    constructor
    · rintro (⟨_, _, h3⟩ | ⟨_, _, h3⟩)
      · exact absurd h3.symm hc
      · exact absurd h3 (by simp)
    · rintro ⟨_, _, h3⟩
      exact absurd h3 (by simp)

theorem escapes_joinSep (es : List Str) (h : ∀ e ∈ es, '/' ∉ e) :
    escapes (joinSep es) = true ↔ es.head? = some dotdot := by
  rw [escapes_iff]
  cases es with
  | nil => simp [joinSep, splitSep, dotdot]
  | cons w ws => rw [splitSep_joinSep (w :: ws) (by simp) h]

theorem joinSep_eq_noSep (es : List Str) (w : Str) (hes : ∀ e ∈ es, '/' ∉ e) (hw : '/' ∉ w)
    (hne : es ≠ []) (h : joinSep es = w) : es = [w] := by
  have h1 := splitSep_joinSep es hne hes
  rw [h, splitSep_of_noSep w hw] at h1
  exact h1.symm

theorem noSep_dotdot : '/' ∉ dotdot := by decide

theorem relOfElems_noSep (eb et : List Str) (het : ∀ e ∈ et, IsName e) :
    ∀ e ∈ (dropCommon eb et).1.map (fun _ => dotdot) ++ (dropCommon eb et).2, '/' ∉ e := by
  intro e he
  rcases List.mem_append.mp he with he | he
  · obtain ⟨_, _, rfl⟩ := List.mem_map.mp he
    exact noSep_dotdot
  · exact (het e ((dropCommon_snd_suffix eb et).subset he)).2.2.2

theorem escapes_relOfElems (eb et : List Str) (het : ∀ e ∈ et, IsName e) :
    escapes (relOfElems eb et) = true ↔ ¬ eb <+: et := by
  unfold relOfElems
  rw [escapes_joinSep _ (relOfElems_noSep eb et het), ← dropCommon_fst_nil_iff]
  cases hb : (dropCommon eb et).1 with
  | nil =>
    simp only [List.map_nil, List.nil_append, not_true_eq_false, iff_false]
    intro hh
    have hmem : dotdot ∈ (dropCommon eb et).2 := List.mem_of_mem_head? hh
    exact (het dotdot ((dropCommon_snd_suffix eb et).subset hmem)).2.2.1 rfl
  | cons x xs => simp

theorem relOfElems_ne_dot (eb et : List Str) (het : ∀ e ∈ et, IsName e) :
    relOfElems eb et ≠ dot := by
  intro h
  by_cases hne : (dropCommon eb et).1.map (fun _ => dotdot) ++ (dropCommon eb et).2 = []
  · unfold relOfElems at h
    rw [hne] at h
    exact absurd h (by decide)
  · have h1 := joinSep_eq_noSep _ dot (relOfElems_noSep eb et het) (by decide) hne h
    have hmem : dot ∈ (dropCommon eb et).1.map (fun _ => dotdot) ++ (dropCommon eb et).2 := by
      rw [h1]; simp
    rcases List.mem_append.mp hmem with he | he
    · obtain ⟨_, _, hx⟩ := List.mem_map.mp he
      exact absurd hx (by decide)
    · exact (het dot ((dropCommon_snd_suffix eb et).subset he)).2.1 rfl

theorem joinSep_injective_names (xs ys : List Str) (hx : ∀ e ∈ xs, IsName e)
    (hy : ∀ e ∈ ys, IsName e) (h : joinSep xs = joinSep ys) : xs = ys := by
  by_cases hxe : xs = []
  · subst hxe
    by_cases hye : ys = []
    · exact hye.symm
    · exact absurd h.symm (joinSep_ne_nil ys hye (fun e he => (hy e he).1))
  · by_cases hye : ys = []
    · subst hye
      exact absurd h (joinSep_ne_nil xs hxe (fun e he => (hx e he).1))
    · rw [← splitSep_joinSep xs hxe (fun e he => (hx e he).2.2.2), h,
        splitSep_joinSep ys hye (fun e he => (hy e he).2.2.2)]

theorem Clean_eq_iff (b t : Str) (hb : IsAbs b = true) (ht : IsAbs t = true) :
    Clean t = Clean b ↔ rootedElems t = rootedElems b := by
  rw [Clean_rooted b hb, Clean_rooted t ht]
  constructor
  · intro h
    exact joinSep_injective_names _ _ (rootedElems_names t) (rootedElems_names b)
      (List.cons.inj h).2
  · intro h; rw [h]

/-- For absolute paths `IsWithinRoot` never fails, and answers whether the
elements of the cleaned root are a prefix of the elements of the cleaned
target. -/
theorem IsWithinRoot_abs (fs : FS) (root target : Str) (hr : IsAbs root = true)
    (ht : IsAbs target = true) :
    IsWithinRoot fs root target = .ok (decide (rootedElems root <+: rootedElems target)) := by
  unfold IsWithinRoot Abs
  simp only [hr, ht, if_true]
  rw [Rel_rooted _ _ (IsAbs_Clean root hr) (IsAbs_Clean target ht), Clean_idem root hr,
    Clean_idem target ht, rootedElems_Clean root hr, rootedElems_Clean target ht]
  by_cases heq : Clean target = Clean root
  · have := (Clean_eq_iff root target hr ht).mp heq
    simp [heq, this]
  · simp only [heq, if_false, relOfElems_ne_dot _ _ (rootedElems_names target)]
    by_cases hp : rootedElems root <+: rootedElems target
    · have : ¬ escapes (relOfElems (rootedElems root) (rootedElems target)) = true := by
        rw [escapes_relOfElems _ _ (rootedElems_names target)]; exact not_not.mpr hp
      simp [this, hp]
    · have : escapes (relOfElems (rootedElems root) (rootedElems target)) = true := by
        rw [escapes_relOfElems _ _ (rootedElems_names target)]; exact hp
      simp [this, hp]

theorem within_test (rel : Str) :
    (if rel = dot then (Except.ok true : Except Str Bool)
      else if escapes rel then .ok false else .ok true) =
    .ok (!decide ((splitSep rel).head? = some dotdot)) := by
  by_cases h : rel = dot
  · subst h
    simp only [if_true]
    rfl
  · simp only [if_neg h]
    by_cases he : escapes rel = true
    · simp [he, (escapes_iff rel).mp he]
    · have hn : ¬ (splitSep rel).head? = some dotdot := fun hh => he ((escapes_iff rel).mpr hh)
      simp [he, hn]

theorem Rel_Clean (b t : Str) (hb : IsAbs b = true) (ht : IsAbs t = true) :
    Rel (Clean b) (Clean t) = Rel b t := by
  rw [Rel_rooted _ _ (IsAbs_Clean b hb) (IsAbs_Clean t ht), Rel_rooted b t hb ht,
    Clean_idem b hb, Clean_idem t ht, rootedElems_Clean b hb, rootedElems_Clean t ht]

theorem rootedElems_append_name (root x : Str) (hx : IsName x) :
    rootedElems (root ++ '/' :: x) = rootedElems root ++ [x] := by
  unfold rootedElems cleanElems
  rw [splitSep_append_sep, splitSep_of_noSep x hx.2.2.2, List.foldl_append]
  simp [cleanStep_name true _ x hx]

/-- C1. For absolute paths `root` and `p`, `IsWithinRoot(root, p)` returns
without error; it returns false exactly when the first segment of the lexical
relative path from `root` to `p` is `..` (the path is `..` or starts with `../`);
it returns true for `p = root`; and `root/..x` counts as within `root`. -/
theorem C1_IsWithinRoot (fs : FS) (root p : Str) (hr : IsAbs root = true)
    (hp : IsAbs p = true) :
    (∃ rel, Rel root p = .ok rel ∧
      IsWithinRoot fs root p = .ok (!decide ((splitSep rel).head? = some dotdot))) ∧
    IsWithinRoot fs root root = .ok true ∧
    IsWithinRoot fs root (root ++ "/..x".toList) = .ok true := by
  refine ⟨?_, ?_, ?_⟩
  · refine ⟨_, Rel_rooted root p hr hp, ?_⟩
    unfold IsWithinRoot Abs
    simp only [hr, hp, if_true]
    rw [Rel_Clean root p hr hp, Rel_rooted root p hr hp]
    exact within_test _
  · rw [IsWithinRoot_abs fs root root hr hr]
    simp
  · have hx : IsName "..x".toList := by
      refine ⟨by decide, by decide, by decide, by decide⟩
    have hp2 : IsAbs (root ++ "/..x".toList) = true := by
      obtain ⟨cs, rfl⟩ := (IsAbs_iff root).mp hr
      exact IsAbs_cons _
    rw [IsWithinRoot_abs fs root _ hr hp2]
    have : root ++ "/..x".toList = root ++ '/' :: "..x".toList := rfl
    rw [this, rootedElems_append_name root _ hx]
    simp

/-- C1, at the root `/site/src` and the sibling path `/site/secret.css`. -/
theorem C1_IsWithinRoot_witness :
    IsAbs "/site/src".toList = true ∧ IsAbs "/site/secret.css".toList = true ∧
    ((∃ rel, Rel "/site/src".toList "/site/secret.css".toList = .ok rel ∧
      IsWithinRoot siteFS "/site/src".toList "/site/secret.css".toList =
        .ok (!decide ((splitSep rel).head? = some dotdot))) ∧
    IsWithinRoot siteFS "/site/src".toList "/site/src".toList = .ok true ∧
    IsWithinRoot siteFS "/site/src".toList ("/site/src".toList ++ "/..x".toList) = .ok true) :=
  ⟨rfl, rfl, C1_IsWithinRoot siteFS "/site/src".toList "/site/secret.css".toList rfl rfl⟩

/-! ## `ResolveWithinRoot` -/

theorem IsAbs_append (a b : Str) (h : IsAbs a = true) : IsAbs (a ++ b) = true := by
  obtain ⟨cs, rfl⟩ := (IsAbs_iff a).mp h
  exact IsAbs_cons _

theorem Join_rooted (a b : Str) (h : IsAbs a = true) :
    Join [a, b] = Clean (a ++ '/' :: b) := by
  obtain ⟨cs, rfl⟩ := (IsAbs_iff a).mp h
  simp [Join, joinSep]

/-- What `Abs` returns is rooted and already clean. -/
theorem Abs_ok (fs : FS) (p q : Str) (h : Abs fs p = .ok q) :
    IsAbs q = true ∧ Clean q = q := by
  unfold Abs at h
  by_cases hp : IsAbs p = true
  · simp only [hp, if_true, Except.ok.injEq] at h
    subst h
    exact ⟨IsAbs_Clean p hp, Clean_idem p hp⟩
  · simp only [hp] at h
    cases hwd : fs.getwd with
    | error e => simp [hwd] at h
    | ok wd =>
      have hw := fs.getwd_abs wd hwd
      simp only [hwd, Bool.false_eq_true, if_false, Except.ok.injEq] at h
      subst h
      rw [Join_rooted wd p hw]
      exact ⟨IsAbs_Clean _ (IsAbs_append wd _ hw), Clean_idem _ (IsAbs_append wd _ hw)⟩

theorem Abs_of_clean (fs : FS) (q : Str) (h1 : IsAbs q = true) (h2 : Clean q = q) :
    Abs fs q = .ok q := by
  simp [Abs, h1, h2]

theorem IsWithinRoot_of_Abs (fs : FS) (root rootAbs t : Str) (h : Abs fs root = .ok rootAbs) :
    IsWithinRoot fs root t = IsWithinRoot fs rootAbs t := by
  obtain ⟨h1, h2⟩ := Abs_ok fs root rootAbs h
  unfold IsWithinRoot
  rw [h, Abs_of_clean fs rootAbs h1 h2]

/-- `ResolveWithinRoot` in closed form, for a root that resolves to `rootAbs`. -/
theorem ResolveWithinRoot_eq (lib : GoLib) (fs : FS) (root rel rootAbs : Str)
    (h : Abs fs root = .ok rootAbs) :
    ResolveWithinRoot lib fs root rel =
      if rootedElems rootAbs <+: rootedElems (Clean (rootAbs ++ '/' :: rel)) then
        .ok (Clean (rootAbs ++ '/' :: rel))
      else .error ("path resolves outside root: ".toList ++ lib.quote rel) := by
  obtain ⟨h1, h2⟩ := Abs_ok fs root rootAbs h
  have h3 : IsAbs (rootAbs ++ '/' :: rel) = true := IsAbs_append _ _ h1
  have h4 : IsAbs (Clean (rootAbs ++ '/' :: rel)) = true := IsAbs_Clean _ h3
  unfold ResolveWithinRoot
  simp only [h, ToSlash]
  rw [Join_rooted rootAbs rel h1, Abs_of_clean fs _ h4 (Clean_idem _ h3)]
  simp only [IsWithinRoot_abs fs rootAbs _ h1 h4]
  by_cases hp : rootedElems rootAbs <+: rootedElems (Clean (rootAbs ++ '/' :: rel))
  · simp [hp]
  · simp [hp]

theorem infix_outside_root (q : Str) :
    "outside root".toList <:+: "path resolves outside root: ".toList ++ q :=
  ⟨"path resolves ".toList, ": ".toList ++ q, rfl⟩

/-- C2. For a root that resolves to the absolute path `rootAbs`,
`ResolveWithinRoot(root, relativePath)` fails with an error containing
`outside root` exactly when the elements of the cleaned join of `relativePath`
onto `rootAbs` do not start with the elements of `rootAbs` (the join is neither
the root nor a descendant of it); otherwise it returns that cleaned absolute
path, for which `IsWithinRoot(root, result)` is true. -/
theorem C2_ResolveWithinRoot (lib : GoLib) (fs : FS) (root relativePath rootAbs : Str)
    (hroot : Abs fs root = .ok rootAbs) :
    ((∃ msg, ResolveWithinRoot lib fs root relativePath = .error msg ∧
        "outside root".toList <:+: msg) ↔
      ¬ rootedElems rootAbs <+: rootedElems (Clean (rootAbs ++ '/' :: relativePath))) ∧
    (rootedElems rootAbs <+: rootedElems (Clean (rootAbs ++ '/' :: relativePath)) →
      ResolveWithinRoot lib fs root relativePath =
          .ok (Clean (rootAbs ++ '/' :: relativePath)) ∧
        IsAbs (Clean (rootAbs ++ '/' :: relativePath)) = true ∧
        IsWithinRoot fs root (Clean (rootAbs ++ '/' :: relativePath)) = .ok true) := by
  obtain ⟨h1, h2⟩ := Abs_ok fs root rootAbs hroot
  have h3 : IsAbs (rootAbs ++ '/' :: relativePath) = true := IsAbs_append _ _ h1
  have h4 : IsAbs (Clean (rootAbs ++ '/' :: relativePath)) = true := IsAbs_Clean _ h3
  rw [ResolveWithinRoot_eq lib fs root relativePath rootAbs hroot]
  constructor
  · constructor
    · rintro ⟨msg, hm, _⟩ hp
      simp [hp] at hm
    · intro hp
      exact ⟨_, if_neg hp, infix_outside_root _⟩
  · intro hp
    refine ⟨by simp [hp], h4, ?_⟩
    rw [IsWithinRoot_of_Abs fs root rootAbs _ hroot, IsWithinRoot_abs fs rootAbs _ h1 h4]
    simp [hp]

/-- C2, at the root `/site/src` and the relative path `../secret.css`, which
is rejected. -/
theorem C2_ResolveWithinRoot_witness :
    Abs siteFS "/site/src".toList = .ok "/site/src".toList ∧
    (((∃ msg, ResolveWithinRoot GoLib.plain siteFS "/site/src".toList "../secret.css".toList =
          .error msg ∧ "outside root".toList <:+: msg) ↔
      ¬ rootedElems "/site/src".toList <+:
        rootedElems (Clean ("/site/src".toList ++ '/' :: "../secret.css".toList))) ∧
    (rootedElems "/site/src".toList <+:
        rootedElems (Clean ("/site/src".toList ++ '/' :: "../secret.css".toList)) →
      ResolveWithinRoot GoLib.plain siteFS "/site/src".toList "../secret.css".toList =
          .ok (Clean ("/site/src".toList ++ '/' :: "../secret.css".toList)) ∧
        IsAbs (Clean ("/site/src".toList ++ '/' :: "../secret.css".toList)) = true ∧
        IsWithinRoot siteFS "/site/src".toList
          (Clean ("/site/src".toList ++ '/' :: "../secret.css".toList)) = .ok true)) ∧
    ResolveWithinRoot GoLib.plain siteFS "/site/src".toList "../secret.css".toList =
      .error "path resolves outside root: \"../secret.css\"".toList ∧
    ResolveWithinRoot GoLib.plain siteFS "/site/src".toList "_css/colors.css".toList =
      .ok "/site/src/_css/colors.css".toList :=
  ⟨rfl, C2_ResolveWithinRoot GoLib.plain siteFS "/site/src".toList "../secret.css".toList
    "/site/src".toList rfl, rfl, rfl⟩

/-! ## `EnsureNoSymlinkTraversal` -/

theorem walkParts_eq_checkPaths (lib : GoLib) (fs : FS) (es parts : List Str)
    (hes : ∀ e ∈ es, IsName e) (hp : ∀ e ∈ parts, IsName e) :
    walkParts lib fs ('/' :: joinSep es) parts = checkPaths lib fs (pathsBelow es parts) := by
  induction parts generalizing es with
  | nil => rfl
  | cons x xs ih =>
    have hx : IsName x := hp x (by simp)
    have hes2 : ∀ e ∈ es ++ [x], IsName e := by
      intro e he
      rcases List.mem_append.mp he with he | he
      · exact hes e he
      · rw [List.mem_singleton.mp he]; exact hx
    have hj : Join ['/' :: joinSep es, x] = '/' :: joinSep (es ++ [x]) := by
      rw [Join_rooted _ _ (IsAbs_cons _), Clean_rooted _ (IsAbs_append _ _ (IsAbs_cons _)),
        rootedElems_append_name _ x hx, rootedElems_root_join es hes]
    simp only [walkParts, pathsBelow, checkPaths, hj]
    rw [ih (es ++ [x]) hes2 (fun e he => hp e (List.mem_cons_of_mem _ he))]

theorem lstat_msg_ne (a p e : Str) :
    "lstat ".toList ++ a ++ ": ".toList ++ e ≠ "symlink traversal is not allowed: ".toList ++ p := by
  intro h
  have h2 : ('l' :: (("stat ".toList ++ a) ++ ": ".toList ++ e)) =
      's' :: ("ymlink traversal is not allowed: ".toList ++ p) := h
  exact absurd (List.cons.inj h2).1 (by decide)

/-- A symbolic-link error ends the inspection exactly when some inspected path
is a symbolic link and every path before it could be inspected. -/
theorem checkPaths_symlink_iff (lib : GoLib) (fs : FS) (ps : List Str) :
    (∃ p, checkPaths lib fs ps = .error ("symlink traversal is not allowed: ".toList ++ p)) ↔
    ∃ pre p post, ps = pre ++ p :: post ∧ (∃ d, fs.lstat p = .info true d) ∧
      ∀ q ∈ pre, ∃ s d, fs.lstat q = .info s d := by
  induction ps with
  | nil =>
    constructor
    · rintro ⟨p, hp⟩; simp [checkPaths] at hp
    · rintro ⟨pre, p, post, h, _⟩; simp at h
  | cons q qs ih =>
    have key : ∀ (pre : List Str) (p : Str) (post : List Str), q :: qs = pre ++ p :: post →
        (∃ d, fs.lstat p = .info true d) → (∀ x ∈ pre, ∃ s d, fs.lstat x = .info s d) →
        ∃ s d, fs.lstat q = .info s d := by
      intro pre p post h hs hpre
      cases pre with
      | nil =>
        simp only [List.nil_append, List.cons.injEq] at h
        obtain ⟨d, hd⟩ := hs
        exact ⟨true, d, by rw [h.1]; exact hd⟩
      | cons x pre' =>
        simp only [List.cons_append, List.cons.injEq] at h
        rw [h.1]; exact hpre x (by simp)
    cases hq : fs.lstat q with
    | notExist m =>
      constructor
      · rintro ⟨p, hp⟩; simp [checkPaths, hq] at hp
      · rintro ⟨pre, p, post, h, hs, hpre⟩
        obtain ⟨s, d, hsd⟩ := key pre p post h hs hpre
        rw [hq] at hsd; cases hsd
    | failed e =>
      constructor
      · rintro ⟨p, hp⟩
        simp only [checkPaths, hq, Except.error.injEq] at hp
        exact absurd hp (lstat_msg_ne _ _ _)
      · rintro ⟨pre, p, post, h, hs, hpre⟩
        obtain ⟨s, d, hsd⟩ := key pre p post h hs hpre
        rw [hq] at hsd; cases hsd
    | info isSymlink d =>
      cases isSymlink with
      | true =>
        constructor
        · intro _
          exact ⟨[], q, qs, rfl, ⟨d, hq⟩, by simp⟩
        · intro _
          exact ⟨q, by simp [checkPaths, hq]⟩
      | false =>
        have hstep : checkPaths lib fs (q :: qs) = checkPaths lib fs qs := by
          simp [checkPaths, hq]
        rw [hstep, ih]
        constructor
        · rintro ⟨pre, p, post, h, hs, hpre⟩
          refine ⟨q :: pre, p, post, by simp [h], hs, ?_⟩
          intro x hx
          rcases List.mem_cons.mp hx with rfl | hx
          · exact ⟨false, d, hq⟩
          · exact hpre x hx
        · rintro ⟨pre, p, post, h, hs, hpre⟩
          cases pre with
          | nil =>
            simp only [List.nil_append, List.cons.injEq] at h
            obtain ⟨d2, hd2⟩ := hs
            rw [← h.1, hq] at hd2; cases hd2
          | cons x pre' =>
            simp only [List.cons_append, List.cons.injEq] at h
            exact ⟨pre', p, post, h.2, hs, fun y hy => hpre y (List.mem_cons_of_mem _ hy)⟩

theorem checkPaths_notExist (lib : GoLib) (fs : FS) (pre : List Str) (p : Str)
    (post : List Str) (m : Str) (hp : fs.lstat p = .notExist m)
    (hpre : ∀ q ∈ pre, ∃ d, fs.lstat q = .info false d) :
    checkPaths lib fs (pre ++ p :: post) = .ok () := by
  induction pre with
  | nil => simp [checkPaths, hp]
  | cons x xs ih =>
    obtain ⟨d, hd⟩ := hpre x (by simp)
    simp only [List.cons_append, checkPaths, hd]
    exact ih (fun q hq => hpre q (List.mem_cons_of_mem _ hq))

theorem checkPaths_all (lib : GoLib) (fs : FS) (ps : List Str)
    (h : ∀ q ∈ ps, ∃ d, fs.lstat q = .info false d) : checkPaths lib fs ps = .ok () := by
  induction ps with
  | nil => rfl
  | cons x xs ih =>
    obtain ⟨d, hd⟩ := h x (by simp)
    simp only [checkPaths, hd]
    exact ih (fun q hq => h q (List.mem_cons_of_mem _ hq))

theorem checkPaths_failed (lib : GoLib) (fs : FS) (pre : List Str) (p : Str)
    (post : List Str) (e : Str) (hp : fs.lstat p = .failed e)
    (hpre : ∀ q ∈ pre, ∃ d, fs.lstat q = .info false d) :
    checkPaths lib fs (pre ++ p :: post) =
      .error ("lstat ".toList ++ lib.quote p ++ ": ".toList ++ e) := by
  induction pre with
  | nil => simp [checkPaths, hp]
  | cons x xs ih =>
    obtain ⟨d, hd⟩ := hpre x (by simp)
    simp only [List.cons_append, checkPaths, hd]
    exact ih (fun q hq => hpre q (List.mem_cons_of_mem _ hq))

theorem dropCommon_of_prefix (bs ts : List Str) (h : bs <+: ts) :
    dropCommon bs ts = ([], ts.drop bs.length) := by
  have h1 := (dropCommon_fst_nil_iff bs ts).mpr h
  obtain ⟨c, hb, ht⟩ := dropCommon_split bs ts
  rw [h1, List.append_nil] at hb
  subst hb
  have h2 : (dropCommon bs ts).2 = ts.drop bs.length := by
    conv_rhs => rw [ht]
    simp
  exact Prod.ext h1 h2

/-- For a target inside the root, `EnsureNoSymlinkTraversal` inspects the
component paths from the root down to the target, in order. -/
theorem EnsureNoSymlinkTraversal_eq (lib : GoLib) (fs : FS) (root target rootAbs targetAbs : Str)
    (hr : Abs fs root = .ok rootAbs) (ht : Abs fs target = .ok targetAbs)
    (hin : rootedElems rootAbs <+: rootedElems targetAbs) :
    EnsureNoSymlinkTraversal lib fs root target =
      checkPaths lib fs (componentPaths rootAbs targetAbs) := by
  obtain ⟨hr1, hr2⟩ := Abs_ok fs root rootAbs hr
  obtain ⟨ht1, ht2⟩ := Abs_ok fs target targetAbs ht
  have hnt := rootedElems_names targetAbs
  have hdc := dropCommon_of_prefix _ _ hin
  unfold EnsureNoSymlinkTraversal componentPaths
  simp only [hr, ht]
  rw [Rel_rooted rootAbs targetAbs hr1 ht1]
  by_cases heq : Clean targetAbs = Clean rootAbs
  · have he := (Clean_eq_iff rootAbs targetAbs hr1 ht1).mp heq
    have hd : escapes dot = false := by decide
    simp [heq, he, hd, pathsBelow, checkPaths]
  · have hne : List.drop (rootedElems rootAbs).length (rootedElems targetAbs) ≠ [] := by
      intro h0
      obtain ⟨r, hrr⟩ := hin
      rw [← hrr] at h0
      simp only [List.drop_left] at h0
      subst h0
      rw [List.append_nil] at hrr
      exact heq ((Clean_eq_iff rootAbs targetAbs hr1 ht1).mpr hrr.symm)
    have hesc : escapes (relOfElems (rootedElems rootAbs) (rootedElems targetAbs)) = false := by
      have := (escapes_relOfElems (rootedElems rootAbs) (rootedElems targetAbs) hnt).not
      simp only [not_not] at this
      exact Bool.eq_false_iff.mpr (this.mpr hin)
    have hdrop : ∀ e ∈ List.drop (rootedElems rootAbs).length (rootedElems targetAbs),
        IsName e := fun e he => hnt e (List.mem_of_mem_drop he)
    simp only [heq, if_false, hesc, Bool.false_eq_true,
      relOfElems_ne_dot _ _ hnt]
    have hrel : relOfElems (rootedElems rootAbs) (rootedElems targetAbs) =
        joinSep (List.drop (rootedElems rootAbs).length (rootedElems targetAbs)) := by
      simp [relOfElems, hdc]
    rw [hrel, splitSep_joinSep _ hne (fun e he => (hdrop e he).2.2.2)]
    have hroot : rootAbs = '/' :: joinSep (rootedElems rootAbs) := by
      conv_lhs => rw [← hr2, Clean_rooted rootAbs hr1]
    have hw := walkParts_eq_checkPaths lib fs _ _ (rootedElems_names rootAbs) hdrop
    rw [← hroot] at hw
    exact hw

theorem pathsBelow_getLast (es xs : List Str) (hne : xs ≠ []) :
    (pathsBelow es xs).getLast? = some ('/' :: joinSep (es ++ xs)) := by
  induction xs generalizing es with
  | nil => exact absurd rfl hne
  | cons x xs ih =>
    cases xs with
    | nil => simp [pathsBelow]
    | cons y ys =>
      have := ih (es ++ [x]) (by simp)
      simp only [pathsBelow] at this ⊢
      rw [List.getLast?_cons_cons, this]
      simp

/-- C3 (amended). For a root and a target that resolve to absolute paths with
the target lexically within the root, and any file system:
`EnsureNoSymlinkTraversal` returns the `symlink traversal` error exactly when
some path component between the root (exclusive) and the target (inclusive) is
a symbolic link and `os.Lstat` succeeds on every component before it; it
succeeds when `os.Lstat` reports that a component does not exist
(`os.ErrNotExist`) and the components before it exist and are not symbolic
links, and when every component exists and none is a symbolic link. When
`os.Lstat` fails on a component in another way, as it does below a regular
file, the function returns that `lstat` error and not success.  Unless the
target is the root, the last component inspected is the target itself. -/
theorem C3_EnsureNoSymlinkTraversal (lib : GoLib) (fs : FS)
    (root target rootAbs targetAbs : Str)
    (hr : Abs fs root = .ok rootAbs) (ht : Abs fs target = .ok targetAbs)
    (hin : rootedElems rootAbs <+: rootedElems targetAbs) :
    ((∃ p, EnsureNoSymlinkTraversal lib fs root target =
        .error ("symlink traversal is not allowed: ".toList ++ p)) ↔
      ∃ pre p post, componentPaths rootAbs targetAbs = pre ++ p :: post ∧
        (∃ d, fs.lstat p = .info true d) ∧ ∀ q ∈ pre, ∃ s d, fs.lstat q = .info s d) ∧
    (∀ pre p post m, componentPaths rootAbs targetAbs = pre ++ p :: post →
      fs.lstat p = .notExist m → (∀ q ∈ pre, ∃ d, fs.lstat q = .info false d) →
      EnsureNoSymlinkTraversal lib fs root target = .ok ()) ∧
    ((∀ q ∈ componentPaths rootAbs targetAbs, ∃ d, fs.lstat q = .info false d) →
      EnsureNoSymlinkTraversal lib fs root target = .ok ()) ∧
    (∀ pre p post e, componentPaths rootAbs targetAbs = pre ++ p :: post →
      fs.lstat p = .failed e → (∀ q ∈ pre, ∃ d, fs.lstat q = .info false d) →
      EnsureNoSymlinkTraversal lib fs root target =
        .error ("lstat ".toList ++ lib.quote p ++ ": ".toList ++ e)) ∧
    (targetAbs ≠ rootAbs → (componentPaths rootAbs targetAbs).getLast? = some targetAbs) := by
  rw [EnsureNoSymlinkTraversal_eq lib fs root target rootAbs targetAbs hr ht hin]
  refine ⟨checkPaths_symlink_iff lib fs _, ?_, checkPaths_all lib fs _, ?_, ?_⟩
  · intro pre p post m h hp hpre
    rw [h]
    exact checkPaths_notExist lib fs pre p post m hp hpre
  · intro pre p post e h hp hpre
    rw [h]
    exact checkPaths_failed lib fs pre p post e hp hpre
  · intro hne
    obtain ⟨hr1, hr2⟩ := Abs_ok fs root rootAbs hr
    obtain ⟨ht1, ht2⟩ := Abs_ok fs target targetAbs ht
    have hd : List.drop (rootedElems rootAbs).length (rootedElems targetAbs) ≠ [] := by
      intro h0
      obtain ⟨r, hrr⟩ := hin
      rw [← hrr] at h0
      simp only [List.drop_left] at h0
      subst h0
      rw [List.append_nil] at hrr
      have := (Clean_eq_iff rootAbs targetAbs hr1 ht1).mpr hrr.symm
      rw [hr2, ht2] at this
      exact hne this
    unfold componentPaths
    rw [pathsBelow_getLast _ _ hd]
    obtain ⟨r, hrr⟩ := hin
    have : rootedElems rootAbs ++ List.drop (rootedElems rootAbs).length (rootedElems targetAbs)
        = rootedElems targetAbs := by
      conv_lhs => rw [← hrr]
      simp only [List.drop_left]
      exact hrr
    rw [this, ← Clean_rooted targetAbs ht1, ht2]

/-- C3 (amended), at the example tree: the link `/site/src/_css/link.css` is
inside the root, and is rejected. -/
theorem C3_EnsureNoSymlinkTraversal_witness :
    Abs siteFS siteSrc = .ok siteSrc ∧ Abs siteFS siteLink = .ok siteLink ∧
    rootedElems siteSrc <+: rootedElems siteLink ∧
    (((∃ p, EnsureNoSymlinkTraversal GoLib.plain siteFS siteSrc siteLink =
        .error ("symlink traversal is not allowed: ".toList ++ p)) ↔
      ∃ pre p post, componentPaths siteSrc siteLink = pre ++ p :: post ∧
        (∃ d, siteFS.lstat p = .info true d) ∧
        ∀ q ∈ pre, ∃ s d, siteFS.lstat q = .info s d) ∧
    (∀ pre p post m, componentPaths siteSrc siteLink = pre ++ p :: post →
      siteFS.lstat p = .notExist m → (∀ q ∈ pre, ∃ d, siteFS.lstat q = .info false d) →
      EnsureNoSymlinkTraversal GoLib.plain siteFS siteSrc siteLink = .ok ()) ∧
    ((∀ q ∈ componentPaths siteSrc siteLink, ∃ d, siteFS.lstat q = .info false d) →
      EnsureNoSymlinkTraversal GoLib.plain siteFS siteSrc siteLink = .ok ()) ∧
    (∀ pre p post e, componentPaths siteSrc siteLink = pre ++ p :: post →
      siteFS.lstat p = .failed e → (∀ q ∈ pre, ∃ d, siteFS.lstat q = .info false d) →
      EnsureNoSymlinkTraversal GoLib.plain siteFS siteSrc siteLink =
        .error ("lstat ".toList ++ GoLib.plain.quote p ++ ": ".toList ++ e)) ∧
    (siteLink ≠ siteSrc → (componentPaths siteSrc siteLink).getLast? = some siteLink)) ∧
    componentPaths siteSrc siteLink = ["/site/src/_css".toList, siteLink] ∧
    EnsureNoSymlinkTraversal GoLib.plain siteFS siteSrc siteLink =
      .error "symlink traversal is not allowed: /site/src/_css/link.css".toList :=
  ⟨rfl, rfl, ⟨["_css".toList, "link.css".toList], rfl⟩,
    C3_EnsureNoSymlinkTraversal GoLib.plain siteFS siteSrc siteLink siteSrc siteLink rfl rfl
      ⟨["_css".toList, "link.css".toList], rfl⟩, rfl, rfl⟩

/-- C3 as stated fails below a regular file. In the example tree `r.html` is a
regular file, so the component `/site/src/r.html/below` does not exist; no
component is a symbolic link. `os.Lstat` fails on it with `not a directory`,
which is not `os.ErrNotExist`, and the function returns that error instead of
success. -/
theorem C3_counterexample :
    Abs siteFS siteSrc = .ok siteSrc ∧
    Abs siteFS "/site/src/r.html/below".toList = .ok "/site/src/r.html/below".toList ∧
    rootedElems siteSrc <+: rootedElems "/site/src/r.html/below".toList ∧
    componentPaths siteSrc "/site/src/r.html/below".toList =
      ["/site/src/r.html".toList, "/site/src/r.html/below".toList] ∧
    siteFS.lstat "/site/src/r.html".toList = .info false false ∧
    siteFS.lstat "/site/src/r.html/below".toList = .failed "not a directory".toList ∧
    siteFS.stat "/site/src/r.html/below".toList = .failed "not a directory".toList ∧
    EnsureNoSymlinkTraversal GoLib.plain siteFS siteSrc "/site/src/r.html/below".toList =
      .error "lstat \"/site/src/r.html/below\": not a directory".toList :=
  ⟨rfl, rfl, ⟨["r.html".toList, "below".toList], rfl⟩, rfl, rfl, rfl, rfl, rfl⟩

/-! ## `concatInputs` -/

theorem endsInNewline_append (a b : Str) (hb : b ≠ []) :
    endsInNewline (a ++ b) = endsInNewline b := by
  unfold endsInNewline
  rw [List.getLast?_append_of_ne_nil a hb]

theorem endsInNewline_normInput (data : Str) (h : data ≠ []) :
    endsInNewline (normInput data) = true := by
  unfold normInput
  have hl : data.length > 0 := List.length_pos.mpr h
  by_cases he : endsInNewline data = true
  · simp [he]
  · simp only [hl, he, decide_True, Bool.not_false, Bool.and_self, if_true,
      Bool.not_eq_true] at *
    rw [endsInNewline_append data ['\n'] (by simp)]
    rfl

theorem normInput_nil : normInput [] = [] := rfl

/-- After every input the buffer is empty or ends in a newline, so the loop
appends to it what each input adds by itself. -/
theorem concatLoop_eq (lib : GoLib) (fs : FS) (srcRoot : Str) (inputs contents : List Str)
    (h : List.Forall₂ (ReadableInput lib fs srcRoot) inputs contents) (i : Nat) (out : Str)
    (hout : out = [] ∨ endsInNewline out = true) :
    concatLoop lib fs srcRoot i out inputs = .ok (out ++ (contents.map normInput).flatten) := by
  induction h generalizing i out with
  | nil => simp [concatLoop]
  | @cons input content inputs contents hd _ ih =>
    obtain ⟨hne, path, h1, h2, ⟨perm, h3⟩, h4⟩ := hd
    have hsep : (if (decide (i > 0) && decide (out.length > 0) && !endsInNewline out) = true
        then out ++ ['\n'] else out) = out := by
      rcases hout with h0 | h0
      · simp [h0]
      · simp [h0]
    have hnext : out ++ content ++ (if (decide (content.length > 0) && !endsInNewline content)
        = true then ['\n'] else []) = out ++ normInput content := by
      unfold normInput
      by_cases hc : (decide (content.length > 0) && !endsInNewline content) = true
      · simp [hc]
      · simp [hc]
    have hinv : out ++ normInput content = [] ∨ endsInNewline (out ++ normInput content) = true := by
      by_cases hc : content = []
      · subst hc
        simpa [normInput_nil] using hout
      · right
        have hn : normInput content ≠ [] := by
          unfold normInput
          split <;> simp [hc]
        rw [endsInNewline_append _ _ hn]
        exact endsInNewline_normInput content hc
    unfold concatLoop
    simp only [hne, if_false, h1, h2, h3, h4, Bool.false_eq_true, hsep]
    have hrew : (if (decide (content.length > 0) && !endsInNewline content) = true
        then out ++ content ++ ['\n'] else out ++ content) = out ++ normInput content := by
      rw [← hnext]
      by_cases hc : (decide (content.length > 0) && !endsInNewline content) = true
      · simp [hc]
      · simp [hc]
    rw [hrew, ih (i + 1) (out ++ normInput content) hinv]
    simp [List.append_assoc]

theorem concatInputs_eq (lib : GoLib) (fs : FS) (srcRoot : Str) (inputs contents : List Str)
    (h : List.Forall₂ (ReadableInput lib fs srcRoot) inputs contents) :
    concatInputs lib fs srcRoot inputs = .ok (contents.map normInput).flatten := by
  unfold concatInputs
  rw [concatLoop_eq lib fs srcRoot inputs contents h 0 [] (Or.inl rfl)]
  simp

theorem specConcat_eq (contents : List Str) (h : ∀ c ∈ contents.dropLast, c ≠ []) :
    specConcat contents = (contents.map normInput).flatten := by
  induction contents with
  | nil => rfl
  | cons c rest ih =>
    cases rest with
    | nil => simp [specConcat]
    | cons d rest =>
      have hc : c ≠ [] := h c (by simp [List.dropLast])
      have hl : c.length > 0 := List.length_pos.mpr hc
      have hrest := ih (fun x hx => h x (by simp [List.dropLast, hx]))
      simp only [specConcat, hrest, List.map_cons, List.flatten_cons]
      congr 1
      unfold normInput
      by_cases he : endsInNewline c = true
      · simp [he]
      · simp [he, hl]

theorem endsInNewline_flatten (contents : List Str) (c : Str)
    (hlast : contents.getLast? = some c) (hc : c ≠ []) :
    endsInNewline (contents.map normInput).flatten = true := by
  induction contents with
  | nil => simp at hlast
  | cons x rest ih =>
    cases rest with
    | nil =>
      simp only [List.getLast?_singleton, Option.some.injEq] at hlast
      subst hlast
      simpa using endsInNewline_normInput x hc
    | cons d rest =>
      rw [List.getLast?_cons_cons] at hlast
      have h1 := ih hlast
      have hne : (List.map normInput (d :: rest)).flatten ≠ [] := by
        intro h0
        rw [h0] at h1
        exact absurd h1 (by decide)
      rw [List.map_cons, List.flatten_cons, endsInNewline_append _ _ hne]
      exact h1

/-- C4 (amended). For every list of bundle inputs, each a readable file with
any contents, `concatInputs` returns the contents in declaration order, every
non-empty input followed by one added newline unless it already ends in one, and
an empty input adding nothing.  Hence, when no input before the last is empty,
exactly one newline separates any two adjacent inputs; and the result ends in a
newline whenever the last input is non-empty. -/
theorem C4_concatInputs (lib : GoLib) (fs : FS) (srcRoot : Str) (inputs contents : List Str)
    (h : List.Forall₂ (ReadableInput lib fs srcRoot) inputs contents) :
    concatInputs lib fs srcRoot inputs = .ok (contents.map normInput).flatten ∧
    ((∀ c ∈ contents.dropLast, c ≠ []) →
      concatInputs lib fs srcRoot inputs = .ok (specConcat contents)) ∧
    (∀ c, contents.getLast? = some c → c ≠ [] →
      ∃ out, concatInputs lib fs srcRoot inputs = .ok out ∧ endsInNewline out = true) := by
  have h0 := concatInputs_eq lib fs srcRoot inputs contents h
  refine ⟨h0, ?_, ?_⟩
  · intro hne
    rw [h0, specConcat_eq contents hne]
  · intro c hlast hc
    exact ⟨_, h0, endsInNewline_flatten contents c hlast hc⟩

/-- C4 (amended), at the two style sheets of the example tree. -/
theorem C4_concatInputs_witness :
    List.Forall₂ (ReadableInput GoLib.plain siteFS siteSrc)
      ["_css/colors.css".toList, "_css/elements.css".toList]
      [":root\x7b--bg:#fff;\x7d".toList, "body\x7bcolor:#111;\x7d".toList] ∧
    (concatInputs GoLib.plain siteFS siteSrc
        ["_css/colors.css".toList, "_css/elements.css".toList] =
      .ok ([":root\x7b--bg:#fff;\x7d".toList, "body\x7bcolor:#111;\x7d".toList].map
        normInput).flatten ∧
    ((∀ c ∈ [":root\x7b--bg:#fff;\x7d".toList, "body\x7bcolor:#111;\x7d".toList].dropLast,
        c ≠ []) →
      concatInputs GoLib.plain siteFS siteSrc
          ["_css/colors.css".toList, "_css/elements.css".toList] =
        .ok (specConcat [":root\x7b--bg:#fff;\x7d".toList,
          "body\x7bcolor:#111;\x7d".toList])) ∧
    (∀ c, [":root\x7b--bg:#fff;\x7d".toList, "body\x7bcolor:#111;\x7d".toList].getLast? =
        some c → c ≠ [] →
      ∃ out, concatInputs GoLib.plain siteFS siteSrc
          ["_css/colors.css".toList, "_css/elements.css".toList] = .ok out ∧
        endsInNewline out = true)) ∧
    concatInputs GoLib.plain siteFS siteSrc
        ["_css/colors.css".toList, "_css/elements.css".toList] =
      .ok ":root\x7b--bg:#fff;\x7d\nbody\x7bcolor:#111;\x7d\n".toList :=
  have hr : List.Forall₂ (ReadableInput GoLib.plain siteFS siteSrc)
      ["_css/colors.css".toList, "_css/elements.css".toList]
      [":root\x7b--bg:#fff;\x7d".toList, "body\x7bcolor:#111;\x7d".toList] :=
    .cons ⟨by decide, "/site/src/_css/colors.css".toList, rfl, rfl, ⟨0o644, rfl⟩, rfl⟩
      (.cons ⟨by decide, "/site/src/_css/elements.css".toList, rfl, rfl, ⟨0o644, rfl⟩, rfl⟩
        .nil)
  ⟨hr, C4_concatInputs GoLib.plain siteFS siteSrc _ _ hr, rfl⟩

/-- C4 as stated fails when an empty input comes first: the empty file
`_css/empty.css` followed by `_css/b.css` (contents `b`) gives `b\n`, with no
newline between the two inputs, where the statement has `\nb\n`. -/
theorem C4_counterexample :
    List.Forall₂ (ReadableInput GoLib.plain siteFS siteSrc)
      ["_css/empty.css".toList, "_css/b.css".toList] [[], ['b']] ∧
    concatInputs GoLib.plain siteFS siteSrc ["_css/empty.css".toList, "_css/b.css".toList] =
      .ok ['b', '\n'] ∧
    specConcat [[], ['b']] = ['\n', 'b', '\n'] ∧
    concatInputs GoLib.plain siteFS siteSrc ["_css/empty.css".toList, "_css/b.css".toList] ≠
      .ok (specConcat [[], ['b']]) :=
  ⟨.cons ⟨by decide, "/site/src/_css/empty.css".toList, rfl, rfl, ⟨0o644, rfl⟩, rfl⟩
      (.cons ⟨by decide, "/site/src/_css/b.css".toList, rfl, rfl, ⟨0o644, rfl⟩, rfl⟩ .nil),
    rfl, rfl, by
      intro h
      have h2 : (Except.ok ['b', '\n'] : Except Str Str) = .ok ['\n', 'b', '\n'] := h
      exact absurd (List.cons.inj (Except.ok.inj h2)).1 (by decide)⟩

/-! ## `buildBundle` -/

/-- C5 (amended). `buildBundle` rejects a bundle exactly when its name, trimmed
of white space, is empty, starts with `/` or contains two consecutive dots
anywhere, or when it has no inputs: it then returns an error that does not
depend on the file system, and has made no call that changes it.  Every other
bundle passes validation: `buildBundle` goes on to read the inputs. -/
theorem C5_buildBundle (lib : GoLib) (b : Bundle) :
    (bundleRejected b →
      ∃ msg, ∀ fs srcRoot outRoot manifest,
        buildBundle lib fs srcRoot outRoot b manifest = ([], .error msg)) ∧
    (¬ bundleRejected b →
      ∀ fs srcRoot outRoot manifest,
        buildBundle lib fs srcRoot outRoot b manifest =
          match concatInputs lib fs srcRoot b.Inputs with
          | .error e => ([], .error ("concat bundle inputs: ".toList ++ e))
          | .ok content => writeBundle lib fs outRoot (bundleName b) content manifest) := by
  unfold bundleRejected bundleName
  constructor
  · intro h
    by_cases h1 : ToSlash (TrimSpace b.Name) = []
    · exact ⟨"bundle name is required".toList,
        fun fs srcRoot outRoot manifest => by simp only [buildBundle, h1, if_true]⟩
    by_cases h2 : HasPrefix (ToSlash (TrimSpace b.Name)) ['/'] = true
    · exact ⟨"bundle name must be relative: ".toList ++ lib.quote (ToSlash (TrimSpace b.Name)),
        fun fs srcRoot outRoot manifest => by simp only [buildBundle, h1, h2, if_true, if_false]⟩
    by_cases h3 : Contains (ToSlash (TrimSpace b.Name)) dotdot = true
    · exact ⟨"bundle name cannot contain '..': ".toList ++
          lib.quote (ToSlash (TrimSpace b.Name)),
        fun fs srcRoot outRoot manifest => by
          simp only [buildBundle, h1, h2, h3, if_true, if_false, Bool.false_eq_true]⟩
    have h4 : b.Inputs = [] := by
      rcases h with h | h | h | h
      · exact absurd h h1
      · exact absurd h h2
      · exact absurd h h3
      · exact h
    exact ⟨"bundle ".toList ++ lib.quote (ToSlash (TrimSpace b.Name)) ++
        " must include at least one input".toList,
      fun fs srcRoot outRoot manifest => by
        simp only [buildBundle, h1, h2, h3, h4, List.length_nil, if_true, if_false,
          Bool.false_eq_true]⟩
  · intro h fs srcRoot outRoot manifest
    simp only [not_or] at h
    obtain ⟨h1, h2, h3, h4⟩ := h
    have h5 : ¬ b.Inputs.length = 0 := fun h0 => h4 (List.length_eq_zero.mp h0)
    simp only [buildBundle, h1, h2, h3, h5, if_false, Bool.false_eq_true]

/-- C5 as stated fails for the bundle `a..b.css` with one input: its name is
non-empty, relative and has no `..` path segment, so the statement has it pass
validation, yet it is rejected for containing `..`. -/
theorem C5_counterexample :
    ¬ specRejected dottedBundle ∧
    ∀ fs srcRoot outRoot manifest,
      buildBundle GoLib.plain fs srcRoot outRoot dottedBundle manifest =
        ([], .error "bundle name cannot contain '..': \"a..b.css\"".toList) :=
  ⟨by unfold specRejected; decide, fun _ _ _ _ => rfl⟩

/-- C5 (amended), at the bundle `style.css` of the example tree, which passes
validation and is written. -/
theorem C5_buildBundle_witness :
    ¬ bundleRejected styleBundle ∧
    buildBundle GoLib.plain siteFS siteSrc "/site/out".toList styleBundle [] =
      ([.mkdirAll "/site/out".toList 0o755,
        .writeFile "/site/out/style.css".toList ":root\x7b--bg:#fff;\x7d\n".toList 0o644],
       .ok [("style.css".toList, "style.css".toList)]) :=
  have h : ¬ bundleRejected styleBundle := by unfold bundleRejected; decide
  ⟨h, ((C5_buildBundle GoLib.plain styleBundle).2 h siteFS siteSrc "/site/out".toList []).trans
    rfl⟩

/-! ## Executing a template -/

theorem execNodes_append (lib : GoLib) (assets : Manifest) (name : Str)
    (incl : Str → Option (Except Str Str)) (pre rest : List Node) (buf : Str) :
    execNodes lib assets name incl (pre ++ rest) buf =
      match execNodes lib assets name incl pre buf with
      | some (.ok b) => execNodes lib assets name incl rest b
      | other => other := by
  induction pre generalizing buf with
  | nil => simp [execNodes]
  | cons n ns ih =>
    rw [List.cons_append]
    cases n with
    | text t =>
      simp only [execNodes]
      exact ih _
    | render arg =>
      simp only [execNodes]
      cases incl arg with
      | none => rfl
      | some res =>
        cases res with
        | error e => rfl
        | ok out => exact ih _
    | asset arg =>
      simp only [execNodes]
      cases assetFunc lib assets arg with
      | error e => rfl
      | ok out => exact ih _

theorem execNodes_plain (lib : GoLib) (assets : Manifest) (name : Str)
    (incl : Str → Option (Except Str Str)) (pre : List Node) (buf : Str)
    (h : ∀ n ∈ pre, PlainNode lib assets n) :
    ∃ out, execNodes lib assets name incl pre buf = some (.ok out) := by
  induction pre generalizing buf with
  | nil => exact ⟨buf, rfl⟩
  | cons n ns ih =>
    have hns : ∀ m ∈ ns, PlainNode lib assets m := fun m hm => h m (List.mem_cons_of_mem _ hm)
    rcases h n (by simp) with ⟨t, rfl⟩ | ⟨a, v, rfl, hv⟩
    · simp only [execNodes]
      exact ih _ hns
    · simp only [execNodes, hv]
      exact ih _ hns

theorem execNodes_asset_error (lib : GoLib) (assets : Manifest) (name : Str)
    (incl : Str → Option (Except Str Str)) (nodes : List Node) (arg e : Str)
    (hmem : Node.asset arg ∈ nodes) (hfail : assetFunc lib assets arg = .error e)
    (buf out : Str) : execNodes lib assets name incl nodes buf ≠ some (.ok out) := by
  induction nodes generalizing buf with
  | nil => simp at hmem
  | cons n ns ih =>
    cases n with
    | text t =>
      simp only [execNodes]
      exact ih (by simpa using hmem) _
    | render a =>
      simp only [execNodes]
      cases incl a with
      | none => simp
      | some res =>
        cases res with
        | error e2 => simp
        | ok o => exact ih (by simpa using hmem) _
    | asset a =>
      simp only [execNodes]
      by_cases ha : a = arg
      · subst ha
        simp [hfail]
      · cases assetFunc lib assets a with
        | error e2 => simp
        | ok o =>
          have : Node.asset arg ∈ ns := by
            rcases List.mem_cons.mp hmem with h1 | h1
            · exact absurd (Node.asset.inj h1).symm ha
            · exact h1
          exact ih this _

/-- One call of `render` on a template that resolves inside the source root,
is not on the stack, and is read and parsed: the nodes are executed with the
stack extended by the template. -/
theorem render_succ (lib : GoLib) (fs : FS) (r : templateRenderer) (fuel : Nat)
    (templatePath templateAbs content : Str) (stack : List Str) (nodes : List Node)
    (habs : Abs fs templatePath = .ok templateAbs)
    (hin : IsWithinRoot fs r.srcRoot templateAbs = .ok true)
    (hstack : templateAbs ∉ stack)
    (hread : fs.readFile templateAbs = .ok content)
    (hparse : parseTemplate content = some nodes) :
    r.render lib fs (fuel + 1) templatePath stack =
      match execNodes lib r.assets (ToSlash templateAbs)
        (r.includeFn lib fs fuel templateAbs (stack ++ [templateAbs])) nodes [] with
      | none => none
      | some (.error e) =>
        some (.error ("execute template ".toList ++ lib.quote templateAbs ++ ": ".toList ++ e))
      | some (.ok out) => some (.ok out) := by
  have hany : stack.any (fun parent => decide (parent = templateAbs)) = false := by
    rw [List.any_eq_false]
    intro x hx
    simp only [decide_eq_true_eq]
    rintro rfl
    exact hstack hx
  simp only [templateRenderer.render, habs, hin, hany, hread, hparse, Bool.not_true,
    Bool.false_eq_true, if_false]
  rfl

theorem infix_append_left (p l s : Str) (h : s <:+: l) : s <:+: p ++ l := by
  obtain ⟨a, b, hab⟩ := h
  exact ⟨p ++ a, b, by rw [← hab]; simp [List.append_assoc]⟩

theorem infix_append_right (l t s : Str) (h : s <:+: l) : s <:+: l ++ t := by
  obtain ⟨a, b, hab⟩ := h
  exact ⟨a, b ++ t, by rw [← hab]; simp [List.append_assoc]⟩

/-! ## The `asset` directive -/

theorem render_asset_never_ok (lib : GoLib) (fs : FS) (r : templateRenderer)
    (src templateAbs content : Str) (nodes : List Node) (name e : Str)
    (habs : Abs fs src = .ok templateAbs) (hread : fs.readFile templateAbs = .ok content)
    (hparse : parseTemplate content = some nodes) (hmem : Node.asset name ∈ nodes)
    (hfail : assetFunc lib r.assets name = .error e) (fuel : Nat) (stack : List Str) (out : Str) :
    r.render lib fs fuel src stack ≠ some (.ok out) := by
  cases fuel with
  | zero => simp [templateRenderer.render]
  | succ fuel =>
    cases hin : IsWithinRoot fs r.srcRoot templateAbs with
    | error e2 => simp [templateRenderer.render, habs, hin]
    | ok b =>
      cases b with
      | false => simp [templateRenderer.render, habs, hin]
      | true =>
        by_cases hstack : templateAbs ∈ stack
        · have hany : stack.any (fun parent => decide (parent = templateAbs)) = true := by
            rw [List.any_eq_true]
            exact ⟨templateAbs, hstack, by simp⟩
          simp [templateRenderer.render, habs, hin, hany]
        · rw [render_succ lib fs r fuel src templateAbs content stack nodes habs hin hstack
            hread hparse]
          have hne := execNodes_asset_error lib r.assets (ToSlash templateAbs)
            (r.includeFn lib fs fuel templateAbs (stack ++ [templateAbs])) nodes name e hmem
            hfail []
          cases hx : execNodes lib r.assets (ToSlash templateAbs)
            (r.includeFn lib fs fuel templateAbs (stack ++ [templateAbs])) nodes [] with
          | none => simp
          | some res =>
            cases res with
            | error e3 => simp
            | ok o => exact absurd hx (hne o)

theorem assetFunc_blank (lib : GoLib) (assets : Manifest) (name : Str)
    (h : TrimSpace name = []) :
    assetFunc lib assets name = .error "asset name cannot be empty".toList := by
  simp [assetFunc, h]

theorem assetFunc_missing (lib : GoLib) (assets : Manifest) (name : Str)
    (h : TrimSpace name ≠ []) (hl : assets.lookup name = none) :
    assetFunc lib assets name =
      .error ("asset ".toList ++ lib.quote name ++ " not found in manifest".toList) := by
  simp [assetFunc, h, hl]

theorem infix_not_found (a : Str) :
    "not found in manifest".toList <:+: a ++ " not found in manifest".toList :=
  infix_append_left a _ _ ⟨[' '], [], rfl⟩

/-- C8. The `asset` directive fails when its argument is blank (empty or only
white space) and, for an argument that is not blank, when it is not a key of the
manifest, then with an error containing `not found in manifest`; otherwise it
puts exactly the manifest's value for that key into the output.  A template
with a failing asset reference is never rendered: `renderFile` makes no call
that changes the file system and never returns success; and when the directives
before the reference execute without error, `renderFile` returns the error,
which contains `not found in manifest` for a name that is not a key. -/
theorem C8_asset (lib : GoLib) (fs : FS) (assets : Manifest) (name : Str) :
    (TrimSpace name = [] → ∃ msg, assetFunc lib assets name = .error msg) ∧
    (TrimSpace name ≠ [] → assets.lookup name = none →
      ∃ msg, assetFunc lib assets name = .error msg ∧
        "not found in manifest".toList <:+: msg) ∧
    (∀ v, TrimSpace name ≠ [] → assets.lookup name = some v →
      assetFunc lib assets name = .ok v ∧
      ∀ nm incl rest buf, execNodes lib assets nm incl (.asset name :: rest) buf =
        execNodes lib assets nm incl rest (buf ++ v)) ∧
    (∀ srcRoot src dst templateAbs content nodes,
      Abs fs src = .ok templateAbs → fs.readFile templateAbs = .ok content →
      parseTemplate content = some nodes → Node.asset name ∈ nodes →
      (TrimSpace name = [] ∨ assets.lookup name = none) →
      (∀ fuel ws res, renderFile lib fs fuel srcRoot src dst assets = some (ws, res) →
        ws = [] ∧ ∃ e, res = .error e) ∧
      (∀ fuel pre post isDir perm, nodes = pre ++ .asset name :: post →
        (∀ n ∈ pre, PlainNode lib assets n) →
        IsWithinRoot fs srcRoot templateAbs = .ok true → fs.stat src = .info isDir perm →
        ∃ msg, renderFile lib fs (fuel + 1) srcRoot src dst assets = some ([], .error msg) ∧
          (TrimSpace name ≠ [] → "not found in manifest".toList <:+: msg))) := by
  refine ⟨fun h => ⟨_, assetFunc_blank lib assets name h⟩,
    fun h hl => ⟨_, assetFunc_missing lib assets name h hl, infix_not_found _⟩, ?_, ?_⟩
  · intro v h hl
    have hv : assetFunc lib assets name = .ok v := by simp [assetFunc, h, hl]
    exact ⟨hv, fun nm incl rest buf => by simp only [execNodes, hv]⟩
  · intro srcRoot src dst templateAbs content nodes habs hread hparse hmem hbad
    have hfail : ∃ e, assetFunc lib assets name = .error e ∧
        (TrimSpace name ≠ [] → "not found in manifest".toList <:+: e) := by
      by_cases hb : TrimSpace name = []
      · exact ⟨_, assetFunc_blank lib assets name hb, fun h => absurd hb h⟩
      · rcases hbad with h | h
        · exact absurd h hb
        · exact ⟨_, assetFunc_missing lib assets name hb h, fun _ => infix_not_found _⟩
    obtain ⟨e, he, hinf⟩ := hfail
    constructor
    · intro fuel ws res hres
      unfold renderFile at hres
      cases hst : fs.stat src with
      | failed e2 =>
        simp only [hst, Option.some.injEq, Prod.mk.injEq] at hres
        exact ⟨hres.1.symm, _, hres.2.symm⟩
      | info isDir perm =>
        simp only [hst] at hres
        cases hr : templateRenderer.render lib fs ⟨srcRoot, assets⟩ fuel src [] with
        | none => simp [hr] at hres
        | some x =>
          cases x with
          | error e2 =>
            simp only [hr, Option.some.injEq, Prod.mk.injEq] at hres
            exact ⟨hres.1.symm, _, hres.2.symm⟩
          | ok o =>
            exact absurd hr (render_asset_never_ok lib fs ⟨srcRoot, assets⟩ src templateAbs
              content nodes name e habs hread hparse hmem he fuel [] o)
    · intro fuel pre post isDir perm hnodes hpre hin hst
      have hrender := render_succ lib fs ⟨srcRoot, assets⟩ fuel src templateAbs content []
        nodes habs hin (by simp) hread hparse
      obtain ⟨b, hb⟩ := execNodes_plain lib assets (ToSlash templateAbs)
        (templateRenderer.includeFn lib fs ⟨srcRoot, assets⟩ fuel templateAbs
          ([] ++ [templateAbs])) pre [] hpre
      rw [hnodes, execNodes_append] at hrender
      simp only [hb, execNodes, he] at hrender
      have hrf : renderFile lib fs (fuel + 1) srcRoot src dst assets =
          some ([], .error ("execute template ".toList ++ lib.quote templateAbs ++ ": ".toList ++
            (lib.execContext (ToSlash templateAbs) (Node.asset name).source ++
              "error calling asset: ".toList ++ e))) := by
        simp only [renderFile, hst, hrender]
      exact ⟨_, hrf, fun hne =>
        infix_append_left _ _ _ (infix_append_left _ _ _ (hinf hne))⟩

/-- C8, at the example site: the template `missing.html` refers to the asset
`missing.css`, which the manifest does not hold, and nothing is written; the
template `styled.html` refers to `style.css` and is rendered with its value. -/
theorem C8_asset_witness :
    (∃ msg, renderFile GoLib.plain siteFS (0 + 1) siteSrc "/site/src/missing.html".toList
        "/site/out/missing.html".toList siteManifest = some ([], .error msg) ∧
      (TrimSpace "missing.css".toList ≠ [] → "not found in manifest".toList <:+: msg)) ∧
    renderFile GoLib.plain siteFS 1 siteSrc "/site/src/missing.html".toList
        "/site/out/missing.html".toList siteManifest =
      some ([], .error ("execute template \"/site/src/missing.html\": template: " ++
        "/site/src/missing.html: executing at <asset \"missing.css\">: error calling asset: " ++
        "asset \"missing.css\" not found in manifest").toList) ∧
    renderFile GoLib.plain siteFS 1 siteSrc "/site/src/styled.html".toList
        "/site/out/styled.html".toList siteManifest =
      some ([.mkdirAll "/site/out".toList 0o755,
        .writeFile "/site/out/styled.html".toList "<link href='style.css' />".toList 0o644],
        .ok ()) :=
  ⟨((C8_asset GoLib.plain siteFS siteManifest "missing.css".toList).2.2.2 siteSrc
      "/site/src/missing.html".toList "/site/out/missing.html".toList
      "/site/src/missing.html".toList
      "<link href='\x7b\x7b asset \"missing.css\" \x7d\x7d' />".toList
      [.text "<link href='".toList, .asset "missing.css".toList, .text "' />".toList]
      rfl rfl rfl (by simp) (Or.inr rfl)).2 0 [.text "<link href='".toList]
      [.text "' />".toList] false 0o644 rfl
      (by intro n hn; rw [List.mem_singleton.mp hn]; exact Or.inl ⟨_, rfl⟩) rfl rfl,
    rfl, rfl⟩

/-! ## Includes -/

/-- What `resolveIncludePath` returns is the absolute form of itself and lies
within the source root. -/
theorem resolveIncludePath_ok (lib : GoLib) (fs : FS) (srcRoot T p r : Str)
    (h : resolveIncludePath lib fs srcRoot T p = .ok r) :
    p ≠ [] ∧ Abs fs (Join [Dir T, Clean p]) = .ok r ∧ Abs fs r = .ok r ∧
      IsWithinRoot fs srcRoot r = .ok true := by
  unfold resolveIncludePath at h
  by_cases hp : p = []
  · simp [hp] at h
  · simp only [hp, if_false] at h
    cases habs : Abs fs (Join [Dir T, Clean p]) with
    | error e => simp [habs] at h
    | ok resolvedAbs =>
      simp only [habs] at h
      cases hin : IsWithinRoot fs srcRoot resolvedAbs with
      | error e => simp [hin] at h
      | ok b =>
        cases b with
        | false => simp [hin] at h
        | true =>
          simp only [hin, Bool.not_true, Bool.false_eq_true, if_false] at h
          cases hst : fs.stat resolvedAbs with
          | failed e => simp [hst] at h
          | info isDir perm =>
            cases isDir with
            | true => simp [hst] at h
            | false =>
              simp only [hst, Bool.false_eq_true, if_false] at h
              cases hens : EnsureNoSymlinkTraversal lib fs srcRoot resolvedAbs with
              | error e => simp [hens] at h
              | ok u =>
                simp only [hens, Except.ok.injEq] at h
                subst h
                obtain ⟨h1, h2⟩ := Abs_ok fs _ _ habs
                exact ⟨hp, rfl, Abs_of_clean fs _ h1 h2, hin⟩

/-- A template that is already on the stack is refused with the chain. -/
theorem render_cycle (lib : GoLib) (fs : FS) (r : templateRenderer) (fuel : Nat)
    (p A : Str) (stack : List Str) (habs : Abs fs p = .ok A)
    (hin : IsWithinRoot fs r.srcRoot A = .ok true) (hmem : A ∈ stack) :
    r.render lib fs (fuel + 1) p stack =
      some (.error ("render include cycle detected: ".toList ++
        joinWith " -> ".toList (stack ++ [A]))) := by
  have hany : stack.any (fun parent => decide (parent = A)) = true := by
    rw [List.any_eq_true]
    exact ⟨A, hmem, by simp⟩
  simp only [templateRenderer.render, habs, hin, hany, Bool.not_true, Bool.false_eq_true,
    if_false, if_true]

theorem execNodes_ok_render (lib : GoLib) (assets : Manifest) (name : Str)
    (incl : Str → Option (Except Str Str)) (nodes : List Node) (arg : Str)
    (hmem : Node.render arg ∈ nodes) (buf out : Str)
    (h : execNodes lib assets name incl nodes buf = some (.ok out)) :
    ∃ o, incl arg = some (.ok o) := by
  induction nodes generalizing buf with
  | nil => simp at hmem
  | cons n ns ih =>
    cases n with
    | text t =>
      simp only [execNodes] at h
      exact ih (by simpa using hmem) _ h
    | asset a =>
      simp only [execNodes] at h
      cases ha : assetFunc lib assets a with
      | error e => simp [ha] at h
      | ok o =>
        simp only [ha] at h
        exact ih (by simpa using hmem) _ h
    | render a =>
      simp only [execNodes] at h
      cases hi : incl a with
      | none => simp [hi] at h
      | some res =>
        cases res with
        | error e => simp [hi] at h
        | ok o =>
          simp only [hi] at h
          rcases List.mem_cons.mp hmem with h1 | h1
          · rw [Node.render.inj h1]
            exact ⟨o, hi⟩
          · exact ih h1 _ h

theorem render_ok_exec (lib : GoLib) (fs : FS) (r : templateRenderer) (fuel : Nat)
    (templatePath templateAbs content : Str) (stack : List Str) (nodes : List Node)
    (habs : Abs fs templatePath = .ok templateAbs)
    (hin : IsWithinRoot fs r.srcRoot templateAbs = .ok true)
    (hstack : templateAbs ∉ stack)
    (hread : fs.readFile templateAbs = .ok content)
    (hparse : parseTemplate content = some nodes) (out : Str)
    (h : r.render lib fs (fuel + 1) templatePath stack = some (.ok out)) :
    execNodes lib r.assets (ToSlash templateAbs)
      (r.includeFn lib fs fuel templateAbs (stack ++ [templateAbs])) nodes [] =
        some (.ok out) := by
  rw [render_succ lib fs r fuel templatePath templateAbs content stack nodes habs hin hstack
    hread hparse] at h
  cases hx : execNodes lib r.assets (ToSlash templateAbs)
    (r.includeFn lib fs fuel templateAbs (stack ++ [templateAbs])) nodes [] with
  | none => simp [hx] at h
  | some res =>
    cases res with
    | error e => simp [hx] at h
    | ok o =>
      simp only [hx, Option.some.injEq, Except.ok.injEq] at h
      rw [h]

theorem includeFn_ok (lib : GoLib) (fs : FS) (r : templateRenderer) (fuel : Nat)
    (T p B : Str) (stack : List Str) (h : resolveIncludePath lib fs r.srcRoot T p = .ok B) :
    r.includeFn lib fs fuel T stack p = r.render lib fs fuel B stack := by
  simp only [templateRenderer.includeFn, h]

theorem render_zero (lib : GoLib) (fs : FS) (r : templateRenderer) (p : Str)
    (stack : List Str) : r.render lib fs 0 p stack = none := by
  simp [templateRenderer.render]

/-- With an include from `A` to `B` and one from `B` back to `A`, no amount of
fuel lets the rendering of `A` succeed. -/
theorem render_cycle_never_ok (lib : GoLib) (fs : FS) (r : templateRenderer)
    (a A B cA cB pB pA : Str) (nodesA nodesB : List Node)
    (habs : Abs fs a = .ok A) (hin : IsWithinRoot fs r.srcRoot A = .ok true)
    (hreadA : fs.readFile A = .ok cA) (hparseA : parseTemplate cA = some nodesA)
    (hmemA : Node.render pB ∈ nodesA)
    (hAB : resolveIncludePath lib fs r.srcRoot A pB = .ok B)
    (hreadB : fs.readFile B = .ok cB) (hparseB : parseTemplate cB = some nodesB)
    (hmemB : Node.render pA ∈ nodesB)
    (hBA : resolveIncludePath lib fs r.srcRoot B pA = .ok A) (fuel : Nat) (out : Str) :
    r.render lib fs fuel a [] ≠ some (.ok out) := by
  intro h
  obtain ⟨_, _, hBabs, hBin⟩ := resolveIncludePath_ok lib fs r.srcRoot A pB B hAB
  obtain ⟨_, _, hAabs, _⟩ := resolveIncludePath_ok lib fs r.srcRoot B pA A hBA
  cases fuel with
  | zero => simp [render_zero] at h
  | succ f =>
    have h1 := render_ok_exec lib fs r f a A cA [] nodesA habs hin (by simp) hreadA hparseA
      out h
    obtain ⟨o, ho⟩ := execNodes_ok_render _ _ _ _ nodesA pB hmemA [] out h1
    rw [includeFn_ok lib fs r f A pB B _ hAB] at ho
    by_cases hAB2 : B = A
    · subst hAB2
      cases f with
      | zero => simp [render_zero] at ho
      | succ f2 =>
        rw [render_cycle lib fs r f2 B B _ hBabs hBin (by simp)] at ho
        simp at ho
    · cases f with
      | zero => simp [render_zero] at ho
      | succ f2 =>
        have h2 := render_ok_exec lib fs r f2 B B cB ([] ++ [A]) nodesB hBabs hBin
          (by simpa using hAB2) hreadB hparseB o ho
        obtain ⟨o2, ho2⟩ := execNodes_ok_render _ _ _ _ nodesB pA hmemB [] o h2
        rw [includeFn_ok lib fs r f2 B pA A _ hBA] at ho2
        cases f2 with
        | zero => simp [render_zero] at ho2
        | succ f3 =>
          rw [render_cycle lib fs r f3 A A _ hAabs hin (by simp)] at ho2
          simp at ho2

theorem execNodes_render_at (lib : GoLib) (assets : Manifest) (name : Str)
    (incl : Str → Option (Except Str Str)) (pre post : List Node) (arg b e : Str)
    (hpre : execNodes lib assets name incl pre [] = some (.ok b))
    (hincl : incl arg = some (.error e)) :
    execNodes lib assets name incl (pre ++ .render arg :: post) [] =
      some (.error (lib.execContext name (Node.source (.render arg)) ++
        "error calling render: ".toList ++ e)) := by
  rw [execNodes_append, hpre]
  simp only [execNodes, hincl]

theorem infix_self_append (s t : Str) : s <:+: s ++ t := ⟨[], t, rfl⟩

/-- C6 (amended). Let `A` and `B` be templates that consist of literal text
and of the actions `{{ render "path" }}` and `{{ asset "name" }}`, written
without trim markers and outside any control structure, so that every action
of a template is executed in order until one fails; let `A` hold an include of
`B` and `B` an include of `A`, both includes resolving.  Then rendering `A`
from an empty stack never succeeds; and when the actions before the include
execute without error, in `A` and in `B`, the rendering fails with the cycle
error, whose message holds the full chain (the active stack `A`, `B` followed
by the repeated path `A`, joined by ` -> `) and therefore names both `A` and
`B`. -/
theorem C6_include_cycle (lib : GoLib) (fs : FS) (r : templateRenderer)
    (a A B cA cB pB pA : Str) (preA postA preB postB : List Node)
    (habs : Abs fs a = .ok A) (hin : IsWithinRoot fs r.srcRoot A = .ok true)
    (hne : A ≠ B)
    (hreadA : fs.readFile A = .ok cA)
    (hparseA : parseTemplate cA = some (preA ++ .render pB :: postA))
    (hAB : resolveIncludePath lib fs r.srcRoot A pB = .ok B)
    (hreadB : fs.readFile B = .ok cB)
    (hparseB : parseTemplate cB = some (preB ++ .render pA :: postB))
    (hBA : resolveIncludePath lib fs r.srcRoot B pA = .ok A) :
    (∀ fuel out, r.render lib fs fuel a [] ≠ some (.ok out)) ∧
    (∀ fuel,
      (∃ b, execNodes lib r.assets (ToSlash A) (r.includeFn lib fs (fuel + 2) A [A]) preA [] =
        some (.ok b)) →
      (∃ b, execNodes lib r.assets (ToSlash B) (r.includeFn lib fs (fuel + 1) B [A, B]) preB [] =
        some (.ok b)) →
      ∃ msg, r.render lib fs (fuel + 3) a [] = some (.error msg) ∧
        ("render include cycle detected: ".toList ++
          joinWith " -> ".toList ([A, B] ++ [A])) <:+: msg ∧
        A <:+: msg ∧ B <:+: msg) := by
  constructor
  · intro fuel out
    exact render_cycle_never_ok lib fs r a A B cA cB pB pA _ _ habs hin hreadA hparseA
      (by simp) hAB hreadB hparseB (by simp) hBA fuel out
  · rintro fuel ⟨bA, hpreA⟩ ⟨bB, hpreB⟩
    obtain ⟨_, _, hBabs, hBin⟩ := resolveIncludePath_ok lib fs r.srcRoot A pB B hAB
    obtain ⟨_, _, hAabs, _⟩ := resolveIncludePath_ok lib fs r.srcRoot B pA A hBA
    -- the innermost call: `A` is on the stack
    have h3 : r.includeFn lib fs (fuel + 1) B [A, B] pA =
        some (.error ("render include cycle detected: ".toList ++
          joinWith " -> ".toList ([A, B] ++ [A]))) := by
      rw [includeFn_ok lib fs r (fuel + 1) B pA A _ hBA]
      exact render_cycle lib fs r fuel A A [A, B] hAabs hin (by simp)
    -- the call on `B`
    have h2 : r.render lib fs (fuel + 2) B [A] =
        some (.error ("execute template ".toList ++ lib.quote B ++ ": ".toList ++
          (lib.execContext (ToSlash B) (Node.source (.render pA)) ++
            "error calling render: ".toList ++
            ("render include cycle detected: ".toList ++
              joinWith " -> ".toList ([A, B] ++ [A]))))) := by
      rw [render_succ lib fs r (fuel + 1) B B cB [A] _ hBabs hBin (by simpa using hne.symm)
        hreadB hparseB]
      have : [A] ++ [B] = [A, B] := rfl
      rw [this, execNodes_render_at lib r.assets (ToSlash B) _ preB postB pA bB _ hpreB h3]
    have h2' : r.includeFn lib fs (fuel + 2) A [A] pB = _ :=
      (includeFn_ok lib fs r (fuel + 2) A pB B _ hAB).trans h2
    -- the call on `A`
    have h1 : r.render lib fs (fuel + 3) a [] =
        some (.error ("execute template ".toList ++ lib.quote A ++ ": ".toList ++
          (lib.execContext (ToSlash A) (Node.source (.render pB)) ++
            "error calling render: ".toList ++
            ("execute template ".toList ++ lib.quote B ++ ": ".toList ++
              (lib.execContext (ToSlash B) (Node.source (.render pA)) ++
                "error calling render: ".toList ++
                ("render include cycle detected: ".toList ++
                  joinWith " -> ".toList ([A, B] ++ [A]))))))) := by
      rw [render_succ lib fs r (fuel + 2) a A cA [] _ habs hin (by simp) hreadA hparseA]
      have : ([] : List Str) ++ [A] = [A] := rfl
      rw [this, execNodes_render_at lib r.assets (ToSlash A) _ preA postA pB bA _ hpreA h2']
    have hc : ("render include cycle detected: ".toList ++
        joinWith " -> ".toList ([A, B] ++ [A])) <:+:
        ("execute template ".toList ++ lib.quote A ++ ": ".toList ++
          (lib.execContext (ToSlash A) (Node.source (.render pB)) ++
            "error calling render: ".toList ++
            ("execute template ".toList ++ lib.quote B ++ ": ".toList ++
              (lib.execContext (ToSlash B) (Node.source (.render pA)) ++
                "error calling render: ".toList ++
                ("render include cycle detected: ".toList ++
                  joinWith " -> ".toList ([A, B] ++ [A])))))) :=
      infix_append_left _ _ _ (infix_append_left _ _ _ (infix_append_left _ _ _
        (infix_append_left _ _ _ (List.infix_refl _))))
    have hAi : A <:+: "render include cycle detected: ".toList ++
        joinWith " -> ".toList ([A, B] ++ [A]) :=
      infix_append_left _ _ _ (by
        show A <:+: A ++ " -> ".toList ++ joinWith " -> ".toList [B, A]
        rw [List.append_assoc]
        exact infix_self_append _ _)
    have hBi : B <:+: "render include cycle detected: ".toList ++
        joinWith " -> ".toList ([A, B] ++ [A]) :=
      infix_append_left _ _ _ (by
        show B <:+: A ++ " -> ".toList ++ (B ++ " -> ".toList ++ A)
        exact infix_append_left _ _ _ (by
          rw [List.append_assoc]
          exact infix_self_append _ _))
    exact ⟨_, h1, hc, hAi.trans hc, hBi.trans hc⟩

set_option maxRecDepth 100000 in
/-- C6 (amended), at the templates `a.html` and `b.html` of the example site,
which include each other. -/
theorem C6_include_cycle_witness :
    Abs siteFS pageA = .ok pageA ∧ IsWithinRoot siteFS siteRenderer.srcRoot pageA = .ok true ∧
    pageA ≠ pageB ∧
    siteFS.readFile pageA = .ok "A\x7b\x7b render \"./b.html\" \x7d\x7d".toList ∧
    parseTemplate "A\x7b\x7b render \"./b.html\" \x7d\x7d".toList =
      some ([.text ['A']] ++ .render "./b.html".toList :: []) ∧
    resolveIncludePath GoLib.plain siteFS siteRenderer.srcRoot pageA "./b.html".toList =
      .ok pageB ∧
    siteFS.readFile pageB = .ok "B\x7b\x7b render \"./a.html\" \x7d\x7d".toList ∧
    parseTemplate "B\x7b\x7b render \"./a.html\" \x7d\x7d".toList =
      some ([.text ['B']] ++ .render "./a.html".toList :: []) ∧
    resolveIncludePath GoLib.plain siteFS siteRenderer.srcRoot pageB "./a.html".toList =
      .ok pageA ∧
    ((∀ fuel out, siteRenderer.render GoLib.plain siteFS fuel pageA [] ≠ some (.ok out)) ∧
    (∀ fuel,
      (∃ b, execNodes GoLib.plain siteRenderer.assets (ToSlash pageA)
        (siteRenderer.includeFn GoLib.plain siteFS (fuel + 2) pageA [pageA]) [.text ['A']] [] =
        some (.ok b)) →
      (∃ b, execNodes GoLib.plain siteRenderer.assets (ToSlash pageB)
        (siteRenderer.includeFn GoLib.plain siteFS (fuel + 1) pageB [pageA, pageB])
        [.text ['B']] [] = some (.ok b)) →
      ∃ msg, siteRenderer.render GoLib.plain siteFS (fuel + 3) pageA [] = some (.error msg) ∧
        ("render include cycle detected: ".toList ++
          joinWith " -> ".toList ([pageA, pageB] ++ [pageA])) <:+: msg ∧
        pageA <:+: msg ∧ pageB <:+: msg)) ∧
    siteRenderer.render GoLib.plain siteFS 3 pageA [] =
      some (.error ("execute template \"/site/src/a.html\": template: /site/src/a.html: " ++
        "executing at <render \"./b.html\">: error calling render: execute template " ++
        "\"/site/src/b.html\": template: /site/src/b.html: executing at " ++
        "<render \"./a.html\">: error calling render: render include cycle detected: " ++
        "/site/src/a.html -> /site/src/b.html -> /site/src/a.html").toList) :=
  ⟨rfl, rfl, by decide, rfl, rfl, rfl, rfl, rfl, rfl,
    C6_include_cycle GoLib.plain siteFS siteRenderer pageA pageA pageB
      "A\x7b\x7b render \"./b.html\" \x7d\x7d".toList
      "B\x7b\x7b render \"./a.html\" \x7d\x7d".toList "./b.html".toList "./a.html".toList
      [.text ['A']] [] [.text ['B']] [] rfl rfl (by decide) rfl rfl rfl rfl rfl rfl,
    rfl⟩

set_option maxRecDepth 100000 in
/-- C6 as stated fails when a directive before the include fails: `m.html`
includes `n.html` and `n.html` includes `m.html`, but `m.html` first refers to
an asset the manifest does not hold, and rendering it fails with that error,
which does not mention a cycle. -/
theorem C6_counterexample :
    siteFS.readFile pageM =
      .ok "\x7b\x7b asset \"nope\" \x7d\x7d\x7b\x7b render \"./n.html\" \x7d\x7d".toList ∧
    parseTemplate
        "\x7b\x7b asset \"nope\" \x7d\x7d\x7b\x7b render \"./n.html\" \x7d\x7d".toList =
      some [.asset "nope".toList, .render "./n.html".toList] ∧
    resolveIncludePath GoLib.plain siteFS siteSrc pageM "./n.html".toList = .ok pageN ∧
    siteFS.readFile pageN = .ok "\x7b\x7b render \"./m.html\" \x7d\x7d".toList ∧
    parseTemplate "\x7b\x7b render \"./m.html\" \x7d\x7d".toList =
      some [.render "./m.html".toList] ∧
    resolveIncludePath GoLib.plain siteFS siteSrc pageN "./m.html".toList = .ok pageM ∧
    siteRenderer.render GoLib.plain siteFS 3 pageM [] =
      some (.error ("execute template \"/site/src/m.html\": template: /site/src/m.html: " ++
        "executing at <asset \"nope\">: error calling asset: " ++
        "asset \"nope\" not found in manifest").toList) ∧
    Contains ("execute template \"/site/src/m.html\": template: /site/src/m.html: " ++
        "executing at <asset \"nope\">: error calling asset: " ++
        "asset \"nope\" not found in manifest").toList "cycle".toList = false :=
  ⟨rfl, rfl, rfl, rfl, rfl, rfl, rfl, rfl⟩

/-! ## Nested includes -/

theorem execNodes_text (lib : GoLib) (assets : Manifest) (name : Str)
    (incl : Str → Option (Except Str Str)) (nodes : List Node) (buf : Str)
    (h : AllText nodes) :
    execNodes lib assets name incl nodes buf = some (.ok (buf ++ textOf nodes)) := by
  induction nodes generalizing buf with
  | nil => simp [execNodes, textOf]
  | cons n ns ih =>
    obtain ⟨t, rfl⟩ := h n (by simp)
    simp only [execNodes, textOf]
    rw [ih _ (fun m hm => h m (List.mem_cons_of_mem _ hm)), List.append_assoc]

theorem execNodes_include_ok (lib : GoLib) (assets : Manifest) (name : Str)
    (incl : Str → Option (Except Str Str)) (pre post : List Node) (arg out : Str)
    (hpre : AllText pre) (hpost : AllText post) (hincl : incl arg = some (.ok out)) :
    execNodes lib assets name incl (pre ++ .render arg :: post) [] =
      some (.ok (textOf pre ++ out ++ textOf post)) := by
  rw [execNodes_append, execNodes_text lib assets name incl pre [] hpre]
  simp only [execNodes, hincl, List.nil_append]
  rw [execNodes_text lib assets name incl post _ hpost]

theorem parseTemplate_literal (c : Str) (h : cutAt ['\x7b', '\x7b'] c = none) :
    parseTemplate c = some (if c = [] then [] else [.text c]) := by
  simp only [parseTemplate, parseNodes, h]

theorem render_literal (lib : GoLib) (fs : FS) (r : templateRenderer) (fuel : Nat)
    (p C cC : Str) (stack : List Str) (habs : Abs fs p = .ok C)
    (hin : IsWithinRoot fs r.srcRoot C = .ok true) (hstack : C ∉ stack)
    (hread : fs.readFile C = .ok cC) (hlit : cutAt ['\x7b', '\x7b'] cC = none) :
    r.render lib fs (fuel + 1) p stack = some (.ok cC) := by
  rw [render_succ lib fs r fuel p C cC stack _ habs hin hstack hread
    (parseTemplate_literal cC hlit)]
  by_cases hc : cC = []
  · simp [hc, execNodes]
  · simp [hc, execNodes]

/-- C9 (amended). Let `A` be literal text around one action
`{{ render "path" }}` that includes `B`, `B` literal text around one such
action that includes `C`, and `C` literal text without any action, the actions
written without trim markers, the three templates distinct and both includes
resolving.  Then rendering `A` from an empty stack succeeds: `B` renders to its
text with the content of `C` in place of its include, and `A` renders to its
text with that output of `B` in place of its include. -/
theorem C9_nested_includes (lib : GoLib) (fs : FS) (r : templateRenderer)
    (a A B C cA cB cC pB pC : Str) (preA postA preB postB : List Node)
    (habs : Abs fs a = .ok A) (hin : IsWithinRoot fs r.srcRoot A = .ok true)
    (hAB : A ≠ B) (hAC : A ≠ C) (hBC : B ≠ C)
    (hreadA : fs.readFile A = .ok cA)
    (hparseA : parseTemplate cA = some (preA ++ .render pB :: postA))
    (hpreA : AllText preA) (hpostA : AllText postA)
    (hresB : resolveIncludePath lib fs r.srcRoot A pB = .ok B)
    (hreadB : fs.readFile B = .ok cB)
    (hparseB : parseTemplate cB = some (preB ++ .render pC :: postB))
    (hpreB : AllText preB) (hpostB : AllText postB)
    (hresC : resolveIncludePath lib fs r.srcRoot B pC = .ok C)
    (hreadC : fs.readFile C = .ok cC) (hlitC : cutAt ['\x7b', '\x7b'] cC = none)
    (fuel : Nat) :
    r.render lib fs (fuel + 2) B [A] = some (.ok (textOf preB ++ cC ++ textOf postB)) ∧
    r.render lib fs (fuel + 3) a [] =
      some (.ok (textOf preA ++ (textOf preB ++ cC ++ textOf postB) ++ textOf postA)) := by
  obtain ⟨_, _, hBabs, hBin⟩ := resolveIncludePath_ok lib fs r.srcRoot A pB B hresB
  obtain ⟨_, _, hCabs, hCin⟩ := resolveIncludePath_ok lib fs r.srcRoot B pC C hresC
  have hC : r.includeFn lib fs (fuel + 1) B [A, B] pC = some (.ok cC) := by
    rw [includeFn_ok lib fs r (fuel + 1) B pC C _ hresC]
    exact render_literal lib fs r fuel C C cC [A, B] hCabs hCin
      (by simp [hAC.symm, hBC.symm]) hreadC hlitC
  have hB : r.render lib fs (fuel + 2) B [A] =
      some (.ok (textOf preB ++ cC ++ textOf postB)) := by
    rw [render_succ lib fs r (fuel + 1) B B cB [A] _ hBabs hBin (by simpa using hAB.symm)
      hreadB hparseB]
    have : [A] ++ [B] = [A, B] := rfl
    rw [this, execNodes_include_ok lib r.assets (ToSlash B) _ preB postB pC cC hpreB hpostB hC]
  refine ⟨hB, ?_⟩
  have hB' : r.includeFn lib fs (fuel + 2) A [A] pB = _ :=
    (includeFn_ok lib fs r (fuel + 2) A pB B _ hresB).trans hB
  rw [render_succ lib fs r (fuel + 2) a A cA [] _ habs hin (by simp) hreadA hparseA]
  have : ([] : List Str) ++ [A] = [A] := rfl
  rw [this, execNodes_include_ok lib r.assets (ToSlash A) _ preA postA pB _ hpreA hpostA hB']

set_option maxRecDepth 100000 in
/-- C9 (amended), at the chain `p.html`, `q.html`, `r.html` of the example
site, and at the index page with its header fragment. -/
theorem C9_nested_includes_witness :
    Abs siteFS pageP = .ok pageP ∧ IsWithinRoot siteFS siteRenderer.srcRoot pageP = .ok true ∧
    pageP ≠ pageQ ∧ pageP ≠ pageR ∧ pageQ ≠ pageR ∧
    siteFS.readFile pageP = .ok "<p>\x7b\x7b render \"./q.html\" \x7d\x7d</p>".toList ∧
    parseTemplate "<p>\x7b\x7b render \"./q.html\" \x7d\x7d</p>".toList =
      some ([.text "<p>".toList] ++ .render "./q.html".toList :: [.text "</p>".toList]) ∧
    AllText [.text "<p>".toList] ∧ AllText [.text "</p>".toList] ∧
    resolveIncludePath GoLib.plain siteFS siteRenderer.srcRoot pageP "./q.html".toList =
      .ok pageQ ∧
    siteFS.readFile pageQ = .ok "<q>\x7b\x7b render \"./r.html\" \x7d\x7d</q>".toList ∧
    parseTemplate "<q>\x7b\x7b render \"./r.html\" \x7d\x7d</q>".toList =
      some ([.text "<q>".toList] ++ .render "./r.html".toList :: [.text "</q>".toList]) ∧
    AllText [.text "<q>".toList] ∧ AllText [.text "</q>".toList] ∧
    resolveIncludePath GoLib.plain siteFS siteRenderer.srcRoot pageQ "./r.html".toList =
      .ok pageR ∧
    siteFS.readFile pageR = .ok ['R'] ∧ cutAt ['\x7b', '\x7b'] ['R'] = none ∧
    (siteRenderer.render GoLib.plain siteFS (0 + 2) pageQ [pageP] =
        some (.ok (textOf [.text "<q>".toList] ++ ['R'] ++ textOf [.text "</q>".toList])) ∧
      siteRenderer.render GoLib.plain siteFS (0 + 3) pageP [] =
        some (.ok (textOf [.text "<p>".toList] ++
          (textOf [.text "<q>".toList] ++ ['R'] ++ textOf [.text "</q>".toList]) ++
          textOf [.text "</p>".toList]))) ∧
    siteRenderer.render GoLib.plain siteFS 3 pageP [] = some (.ok "<p><q>R</q></p>".toList) ∧
    siteRenderer.render GoLib.plain siteFS 2 "/site/src/index.html".toList [] =
      some (.ok "<main><header>Header</header></main>".toList) :=
  have t1 : AllText [.text "<p>".toList] := fun n hn => ⟨_, List.mem_singleton.mp hn⟩
  have t2 : AllText [.text "</p>".toList] := fun n hn => ⟨_, List.mem_singleton.mp hn⟩
  have t3 : AllText [.text "<q>".toList] := fun n hn => ⟨_, List.mem_singleton.mp hn⟩
  have t4 : AllText [.text "</q>".toList] := fun n hn => ⟨_, List.mem_singleton.mp hn⟩
  ⟨rfl, rfl, by decide, by decide, by decide, rfl, rfl, t1, t2, rfl, rfl, rfl, t3, t4, rfl, rfl,
    rfl,
    C9_nested_includes GoLib.plain siteFS siteRenderer pageP pageP pageQ pageR
      "<p>\x7b\x7b render \"./q.html\" \x7d\x7d</p>".toList
      "<q>\x7b\x7b render \"./r.html\" \x7d\x7d</q>".toList ['R']
      "./q.html".toList "./r.html".toList
      [.text "<p>".toList] [.text "</p>".toList] [.text "<q>".toList] [.text "</q>".toList]
      rfl rfl (by decide) (by decide) (by decide) rfl rfl t1 t2 rfl rfl rfl t3 t4 rfl rfl rfl 0,
    rfl, rfl⟩

set_option maxRecDepth 100000 in
/-- C9 as stated fails when an action other than the include fails: `a.html`
includes `b.html`, which includes `c.html`, no template is repeated and both
includes resolve, and `b.html` renders to `<b>C</b>`; but `a.html` first refers
to an asset the manifest does not hold, and at every depth of include calls its
rendering fails with that error. -/
theorem C9_counterexample :
    chainFS.readFile "/site/src/a.html".toList =
      .ok ("\x7b\x7b asset \"nope\" \x7d\x7d<a>" ++
        "\x7b\x7b render \"./b.html\" \x7d\x7d</a>").toList ∧
    resolveIncludePath GoLib.plain chainFS siteSrc "/site/src/a.html".toList
      "./b.html".toList = .ok "/site/src/b.html".toList ∧
    chainFS.readFile "/site/src/b.html".toList =
      .ok "<b>\x7b\x7b render \"./c.html\" \x7d\x7d</b>".toList ∧
    resolveIncludePath GoLib.plain chainFS siteSrc "/site/src/b.html".toList
      "./c.html".toList = .ok "/site/src/c.html".toList ∧
    chainFS.readFile "/site/src/c.html".toList = .ok ['C'] ∧
    noAssets.render GoLib.plain chainFS 2 "/site/src/b.html".toList [] =
      some (.ok "<b>C</b>".toList) ∧
    ∀ fuel, noAssets.render GoLib.plain chainFS (fuel + 1) "/site/src/a.html".toList [] =
      some (.error ("execute template \"/site/src/a.html\": template: /site/src/a.html: " ++
        "executing at <asset \"nope\">: error calling asset: " ++
        "asset \"nope\" not found in manifest").toList) :=
  ⟨rfl, rfl, rfl, rfl, rfl, rfl, fun _ => rfl⟩

/-! ## The include target -/

theorem cleanStep_kept (r : Bool) (out : List Str) (e : Str) (h : Kept e) (hd : e ≠ dotdot) :
    cleanStep r out e = e :: out := by
  simp [cleanStep, h.1, h.2, hd]

theorem cleanStep_false_kept (t : List Str) (e : Str) (ht : ∀ x ∈ t, Kept x) :
    ∀ x ∈ cleanStep false t e, Kept x := by
  unfold cleanStep
  by_cases h1 : e = [] ∨ e = dot
  · rw [if_pos h1]; exact ht
  · rw [if_neg h1]
    have hk : Kept e := ⟨fun h => h1 (Or.inl h), fun h => h1 (Or.inr h)⟩
    by_cases h2 : e = dotdot
    · rw [if_pos h2]
      have hdd : Kept dotdot := ⟨by decide, by decide⟩
      cases t with
      | nil =>
        intro x hx
        simp only [Bool.false_eq_true, if_false, List.mem_singleton] at hx
        rw [hx]; exact hdd
      | cons top rest =>
        by_cases h3 : top = dotdot
        · simp only [if_pos h3]
          intro x hx
          rcases List.mem_cons.mp hx with rfl | hx
          · exact hdd
          · exact ht x hx
        · simp only [if_neg h3]
          exact fun x hx => ht x (List.mem_cons_of_mem _ hx)
    · rw [if_neg h2]
      intro x hx
      rcases List.mem_cons.mp hx with rfl | hx
      · exact hk
      · exact ht x hx

/-- Going through the elements an unrooted cleaning keeps has the same effect
on a rooted path as going through the element that gave them. -/
theorem cleanStep_normalize (s t : List Str) (e : Str) (ht : ∀ x ∈ t, Kept x) :
    ((cleanStep false t e).reverse).foldl (cleanStep true) s =
      cleanStep true (t.reverse.foldl (cleanStep true) s) e := by
  by_cases h1 : e = [] ∨ e = dot
  · have : ∀ (r : Bool) (o : List Str), cleanStep r o e = o := fun r o => by
      simp [cleanStep, h1]
    rw [this, this]
  · have hk : Kept e := ⟨fun h => h1 (Or.inl h), fun h => h1 (Or.inr h)⟩
    by_cases h2 : e = dotdot
    · subst h2
      cases t with
      | nil => simp [cleanStep, dotdot, dot]
      | cons top rest =>
        by_cases h3 : top = dotdot
        · have : cleanStep false (top :: rest) dotdot = dotdot :: top :: rest := by
            simp [cleanStep, h3, dotdot, dot]
          rw [this, List.reverse_cons, List.foldl_append]
          rfl
        · have : cleanStep false (top :: rest) dotdot = rest := by
            simp only [cleanStep, h3, if_false]
            simp [dotdot, dot]
          rw [this, List.reverse_cons, List.foldl_append]
          simp only [List.foldl_cons, List.foldl_nil]
          rw [cleanStep_kept true _ top (ht top (by simp)) h3]
          simp only [cleanStep, h3, if_false]
          simp [dotdot, dot]
    · rw [cleanStep_kept false t e hk h2, List.reverse_cons, List.foldl_append]
      rfl

theorem foldl_normalize (s t es : List Str) (ht : ∀ x ∈ t, Kept x) :
    ((es.foldl (cleanStep false) t).reverse).foldl (cleanStep true) s =
      es.foldl (cleanStep true) (t.reverse.foldl (cleanStep true) s) := by
  induction es generalizing t with
  | nil => rfl
  | cons e es ih =>
    simp only [List.foldl_cons]
    rw [ih (cleanStep false t e) (cleanStep_false_kept t e ht), cleanStep_normalize s t e ht]

theorem cleanStep_noSep (r : Bool) (t : List Str) (e : Str) (ht : ∀ x ∈ t, '/' ∉ x)
    (he : '/' ∉ e) : ∀ x ∈ cleanStep r t e, '/' ∉ x := by
  unfold cleanStep
  split
  · exact ht
  · split
    · cases t with
      | nil =>
        cases r with
        | true => simp
        | false =>
          intro x hx
          simp only [Bool.false_eq_true, if_false, List.mem_singleton] at hx
          rw [hx]; exact noSep_dotdot
      | cons top rest =>
        simp only
        split
        · intro x hx
          rcases List.mem_cons.mp hx with rfl | hx
          · exact noSep_dotdot
          · exact ht x hx
        · exact fun x hx => ht x (List.mem_cons_of_mem _ hx)
    · intro x hx
      rcases List.mem_cons.mp hx with rfl | hx
      · exact he
      · exact ht x hx

theorem foldl_cleanStep_noSep (r : Bool) (es t : List Str) (ht : ∀ x ∈ t, '/' ∉ x)
    (hes : ∀ e ∈ es, '/' ∉ e) : ∀ x ∈ es.foldl (cleanStep r) t, '/' ∉ x := by
  induction es generalizing t with
  | nil => exact ht
  | cons e es ih =>
    rw [List.foldl_cons]
    exact ih _ (cleanStep_noSep r t e ht (hes e (by simp)))
      (fun x hx => hes x (List.mem_cons_of_mem _ hx))

/-- The elements of a cleaned unrooted path act on a rooted path as the
elements of the path itself. -/
theorem foldl_splitSep_Clean (s : List Str) (p : Str) (hp : IsAbs p = false) :
    (splitSep (Clean p)).foldl (cleanStep true) s = (splitSep p).foldl (cleanStep true) s := by
  have hnorm := foldl_normalize s [] (splitSep p) (by simp)
  simp only [List.reverse_nil, List.foldl_nil] at hnorm
  by_cases hp0 : p = []
  · subst hp0
    simp [Clean, splitSep, cleanStep, dot]
  · unfold Clean
    simp only [hp0, if_false, hp, Bool.false_eq_true]
    by_cases hout : cleanElems false (splitSep p) = []
    · simp only [hout, if_true]
      unfold cleanElems at hout
      rw [hout] at hnorm
      rw [← hnorm]
      simp [splitSep, cleanStep, dot]
    · simp only [hout, if_false]
      have hns : ∀ e ∈ cleanElems false (splitSep p), '/' ∉ e := by
        intro e he
        unfold cleanElems at he
        rw [List.mem_reverse] at he
        exact foldl_cleanStep_noSep false (splitSep p) [] (by simp)
          (fun x hx => noSep_of_mem_splitSep p x hx) e he
      rw [splitSep_joinSep _ hout hns]
      exact hnorm

theorem Clean_join_Clean (d p : Str) (hd : IsAbs d = true) (hp : IsAbs p = false) :
    Clean (d ++ '/' :: Clean p) = Clean (d ++ '/' :: p) := by
  rw [Clean_rooted _ (IsAbs_append d _ hd), Clean_rooted _ (IsAbs_append d _ hd)]
  unfold rootedElems cleanElems
  rw [splitSep_append_sep, splitSep_append_sep, List.foldl_append, List.foldl_append,
    foldl_splitSep_Clean _ p hp]

theorem IsAbs_Dir (T : Str) (hT : IsAbs T = true) : IsAbs (Dir T) = true := by
  obtain ⟨cs, rfl⟩ := (IsAbs_iff T).mp hT
  unfold Dir
  apply IsAbs_Clean
  have hsuf := List.dropWhile_suffix (l := ('/' :: cs).reverse) (fun c => c != '/')
  have hpre : (List.dropWhile (fun c => c != '/') ('/' :: cs).reverse).reverse <+: '/' :: cs := by
    have := List.reverse_prefix.mpr hsuf
    rwa [List.reverse_reverse] at this
  have hne : List.dropWhile (fun c => c != '/') ('/' :: cs).reverse ≠ [] := by
    intro h0
    have := List.dropWhile_eq_nil_iff.mp h0 '/' (by simp)
    simp at this
  obtain ⟨t, ht⟩ := hpre
  cases hq : (List.dropWhile (fun c => c != '/') ('/' :: cs).reverse).reverse with
  | nil =>
    rw [List.reverse_eq_nil_iff] at hq
    exact absurd hq hne
  | cons c q =>
    rw [hq] at ht
    simp only [List.cons_append, List.cons.injEq] at ht
    rw [ht.1]
    exact IsAbs_cons _

/-- C10 (amended). For an including template `T` given by its absolute path,
the include target that `resolveIncludePath` computes and returns for an
argument `p` (non-empty, or the call fails) is the cleaned join, onto the
directory containing `T`, of the cleaned argument `Clean(p)`; for every `p`
that does not start with `/` this is the cleaned join of `p` itself onto that
directory.  The source root and the working directory play no part in it. -/
theorem C10_include_target (lib : GoLib) (fs : FS) (srcRoot T p r : Str)
    (hT : IsAbs T = true) (h : resolveIncludePath lib fs srcRoot T p = .ok r) :
    p ≠ [] ∧ r = Join [Dir T, Clean p] ∧ (IsAbs p = false → r = Join [Dir T, p]) := by
  obtain ⟨hp, habs, _, _⟩ := resolveIncludePath_ok lib fs srcRoot T p r h
  have hd := IsAbs_Dir T hT
  have hj : Join [Dir T, Clean p] = Clean (Dir T ++ '/' :: Clean p) := Join_rooted _ _ hd
  have hr : r = Join [Dir T, Clean p] := by
    rw [hj] at habs ⊢
    have h1 : IsAbs (Dir T ++ '/' :: Clean p) = true := IsAbs_append _ _ hd
    rw [Abs_of_clean fs _ (IsAbs_Clean _ h1) (Clean_idem _ h1)] at habs
    exact (Except.ok.inj habs).symm
  refine ⟨hp, hr, fun hrel => ?_⟩
  rw [hr, hj, Join_rooted _ _ hd, Clean_join_Clean _ p hd hrel]

/-- C10 (amended), at the example of the specification: an include of `x.html` from
`/site/src/a/b/t.html` targets `/site/src/a/b/x.html`. -/
theorem C10_include_target_witness :
    IsAbs pageT = true ∧
    resolveIncludePath GoLib.plain siteFS siteSrc pageT "x.html".toList =
      .ok "/site/src/a/b/x.html".toList ∧
    ("x.html".toList ≠ [] ∧
      "/site/src/a/b/x.html".toList = Join [Dir pageT, Clean "x.html".toList] ∧
      (IsAbs "x.html".toList = false →
        "/site/src/a/b/x.html".toList = Join [Dir pageT, "x.html".toList])) :=
  ⟨rfl, rfl, C10_include_target GoLib.plain siteFS siteSrc pageT "x.html".toList
    "/site/src/a/b/x.html".toList rfl rfl⟩

/-- C10 as stated fails for an argument that starts with `/..`: from
`/site/src/a/b/t.html` the include of `/../x.html` targets `/site/src/a/b/x.html`,
while the cleaned join of `/../x.html` onto `/site/src/a/b` is
`/site/src/a/x.html`. -/
theorem C10_counterexample :
    resolveIncludePath GoLib.plain siteFS siteSrc pageT "/../x.html".toList =
      .ok "/site/src/a/b/x.html".toList ∧
    Join [Dir pageT, "/../x.html".toList] = "/site/src/a/x.html".toList ∧
    "/site/src/a/b/x.html".toList ≠ Join [Dir pageT, "/../x.html".toList] :=
  ⟨rfl, rfl, by decide⟩

/-! ## Rejected includes -/

/-- An include whose target lies outside the source root is refused with
`outside source root`; an include of an existing regular file that
`EnsureNoSymlinkTraversal` refuses is refused with that function's message. -/
theorem resolveIncludePath_rejects (lib : GoLib) (fs : FS) (srcRoot T p target : Str)
    (hp : p ≠ []) (habs : Abs fs (Join [Dir T, Clean p]) = .ok target) :
    (IsWithinRoot fs srcRoot target = .ok false →
      ∃ msg, resolveIncludePath lib fs srcRoot T p = .error msg ∧
        "outside source root".toList <:+: msg) ∧
    (∀ perm e, IsWithinRoot fs srcRoot target = .ok true → fs.stat target = .info false perm →
      EnsureNoSymlinkTraversal lib fs srcRoot target = .error e →
      resolveIncludePath lib fs srcRoot T p =
        .error ("include path ".toList ++ lib.quote p ++ " is invalid: ".toList ++ e)) := by
  constructor
  · intro hin
    refine ⟨"include path ".toList ++ lib.quote p ++ " resolves outside source root".toList,
      by simp [resolveIncludePath, hp, habs, hin], ?_⟩
    exact infix_append_left _ _ _ ⟨" resolves ".toList, [], rfl⟩
  · intro perm e hin hst hens
    simp [resolveIncludePath, hp, habs, hin, hst, hens]

set_option maxRecDepth 100000 in
/-- C7, at an include that ends at a symbolic link whose target does not exist:
`resolveIncludePath` asks `os.Stat` before it looks for symbolic links, and the
error is the one of `os.Stat`, without `symlink traversal`; `concatInputs`, which
looks for symbolic links first, reports `symlink traversal` for the same file. -/
theorem C7_dangling_link_include :
    siteFS.lstat "/site/src/gone.html".toList = .info true false ∧
    IsWithinRoot siteFS siteSrc "/site/src/gone.html".toList = .ok true ∧
    resolveIncludePath GoLib.plain siteFS siteSrc "/site/src/dangling.html".toList
        "./gone.html".toList =
      .error "stat include \"./gone.html\": no such file or directory".toList ∧
    Contains "stat include \"./gone.html\": no such file or directory".toList
      "symlink traversal".toList = false ∧
    siteRenderer.render GoLib.plain siteFS 2 "/site/src/dangling.html".toList [] =
      some (.error ("execute template \"/site/src/dangling.html\": template: " ++
        "/site/src/dangling.html: executing at <render \"./gone.html\">: error calling " ++
        "render: stat include \"./gone.html\": no such file or directory").toList) ∧
    Contains ("execute template \"/site/src/dangling.html\": template: " ++
        "/site/src/dangling.html: executing at <render \"./gone.html\">: error calling " ++
        "render: stat include \"./gone.html\": no such file or directory").toList
      "symlink traversal".toList = false ∧
    concatInputs GoLib.plain siteFS siteSrc ["gone.html".toList] =
      .error ("reject symlink input \"gone.html\": symlink traversal is not allowed: " ++
        "/site/src/gone.html").toList :=
  ⟨rfl, rfl, rfl, rfl, rfl, rfl, rfl⟩

/-! ## `assets.Build`: the manifest -/

/-- The two outcomes of the validation in `buildBundle`: a rejected bundle
gives an error and no call that changes the file system, whatever the file
system; any other bundle goes on to read its inputs. -/
theorem buildBundle_validation (lib : GoLib) (b : Bundle) :
    (bundleRejected b →
      ∃ msg, ∀ fs srcRoot outRoot manifest,
        buildBundle lib fs srcRoot outRoot b manifest = ([], .error msg)) ∧
    (¬ bundleRejected b →
      ∀ fs srcRoot outRoot manifest,
        buildBundle lib fs srcRoot outRoot b manifest =
          match concatInputs lib fs srcRoot b.Inputs with
          | .error e => ([], .error ("concat bundle inputs: ".toList ++ e))
          | .ok content => writeBundle lib fs outRoot (bundleName b) content manifest) := by
  unfold bundleRejected bundleName
  constructor
  · intro h
    by_cases h1 : ToSlash (TrimSpace b.Name) = []
    · exact ⟨"bundle name is required".toList,
        fun fs srcRoot outRoot manifest => by simp only [buildBundle, h1, if_true]⟩
    by_cases h2 : HasPrefix (ToSlash (TrimSpace b.Name)) ['/'] = true
    · exact ⟨"bundle name must be relative: ".toList ++ lib.quote (ToSlash (TrimSpace b.Name)),
        fun fs srcRoot outRoot manifest => by simp only [buildBundle, h1, h2, if_true, if_false]⟩
    by_cases h3 : Contains (ToSlash (TrimSpace b.Name)) dotdot = true
    · exact ⟨"bundle name cannot contain '..': ".toList ++
          lib.quote (ToSlash (TrimSpace b.Name)),
        fun fs srcRoot outRoot manifest => by
          simp only [buildBundle, h1, h2, h3, if_true, if_false, Bool.false_eq_true]⟩
    have h4 : b.Inputs = [] := by
      rcases h with h | h | h | h
      · exact absurd h h1
      · exact absurd h h2
      · exact absurd h h3
      · exact h
    exact ⟨"bundle ".toList ++ lib.quote (ToSlash (TrimSpace b.Name)) ++
        " must include at least one input".toList,
      fun fs srcRoot outRoot manifest => by
        simp only [buildBundle, h1, h2, h3, h4, List.length_nil, if_true, if_false,
          Bool.false_eq_true]⟩
  · intro h fs srcRoot outRoot manifest
    simp only [not_or] at h
    obtain ⟨h1, h2, h3, h4⟩ := h
    have h5 : ¬ b.Inputs.length = 0 := fun h0 => h4 (List.length_eq_zero.mp h0)
    simp only [buildBundle, h1, h2, h3, h5, if_false, Bool.false_eq_true]

theorem writeBundle_ok (lib : GoLib) (fs : FS) (outRoot name content : Str) (m m1 : Manifest)
    (ws : List Write) (h : writeBundle lib fs outRoot name content m = (ws, .ok m1)) :
    m1 = m.set name name := by
  unfold writeBundle at h
  cases h1 : ResolveWithinRoot lib fs outRoot name with
  | error e => simp [h1] at h
  | ok outPath =>
    simp only [h1] at h
    cases h2 : EnsureNoSymlinkTraversal lib fs outRoot outPath with
    | error e => simp [h2] at h
    | ok u =>
      simp only [h2] at h
      cases h3 : fs.mkdirAll (Dir outPath) with
      | some e => simp [h3] at h
      | none =>
        simp only [h3] at h
        cases h4 : fs.writeFile outPath content with
        | some e => simp [h4] at h
        | none =>
          simp only [h4, Prod.mk.injEq, Except.ok.injEq] at h
          exact h.2.symm

theorem buildBundle_ok (lib : GoLib) (fs : FS) (srcRoot outRoot : Str) (b : Bundle)
    (m m1 : Manifest) (ws : List Write)
    (h : buildBundle lib fs srcRoot outRoot b m = (ws, .ok m1)) :
    ¬ bundleRejected b ∧ m1 = m.set (bundleName b) (bundleName b) := by
  by_cases hr : bundleRejected b
  · obtain ⟨msg, hmsg⟩ := (buildBundle_validation lib b).1 hr
    rw [hmsg fs srcRoot outRoot m] at h
    simp at h
  · refine ⟨hr, ?_⟩
    rw [(buildBundle_validation lib b).2 hr fs srcRoot outRoot m] at h
    cases hc : concatInputs lib fs srcRoot b.Inputs with
    | error e => simp [hc] at h
    | ok content =>
      simp only [hc] at h
      exact writeBundle_ok lib fs outRoot _ content m m1 ws h

theorem mem_Manifest_set (m : Manifest) (key value k v : Str) :
    (k, v) ∈ m.set key value ↔ (k = key ∧ v = value) ∨ ((k, v) ∈ m ∧ k ≠ key) := by
  unfold Manifest.set
  simp only [List.mem_cons, Prod.mk.injEq, List.mem_filter, bne_iff_ne, ne_eq]

theorem IdentityManifest_set (names : List Str) (m : Manifest) (n : Str)
    (h : IdentityManifest names m) : IdentityManifest (names ++ [n]) (m.set n n) := by
  obtain ⟨h1, h2⟩ := h
  constructor
  · intro k v
    rw [mem_Manifest_set, h1 k v]
    constructor
    · rintro (⟨rfl, rfl⟩ | ⟨⟨rfl, hk⟩, _⟩)
      · exact ⟨rfl, by simp⟩
      · exact ⟨rfl, by simp [hk]⟩
    · rintro ⟨rfl, hk⟩
      by_cases hn : v = n
      · exact Or.inl ⟨hn, hn⟩
      · right
        rcases List.mem_append.mp hk with hk | hk
        · exact ⟨⟨rfl, hk⟩, hn⟩
        · exact absurd (List.mem_singleton.mp hk) hn
  · unfold Manifest.set
    rw [List.map_cons, List.nodup_cons]
    constructor
    · intro hmem
      obtain ⟨kv, hkv, hk⟩ := List.mem_map.mp hmem
      have := (List.mem_filter.mp hkv).2
      simp only [bne_iff_ne, ne_eq] at this
      exact this hk
    · exact h2.sublist ((List.filter_sublist _).map _)

theorem IdentityManifest_nil : IdentityManifest [] [] := by
  constructor
  · intro k v; simp
  · simp

theorem buildBundles_ok (lib : GoLib) (world : List Write → FS) (kind srcRoot outRoot : Str)
    (bs : List Bundle) (done : List Write) (m m1 : Manifest) (ws : List Write)
    (names : List Str)
    (h : buildBundles lib world kind srcRoot outRoot done bs m = (ws, m1, none))
    (hm : IdentityManifest names m) :
    IdentityManifest (names ++ bs.map bundleName) m1 := by
  induction bs generalizing done m ws names with
  | nil =>
    simp only [buildBundles, Prod.mk.injEq] at h
    rw [← h.2.1]
    simpa using hm
  | cons b bs ih =>
    unfold buildBundles at h
    cases hb : buildBundle lib (world done) srcRoot outRoot b m with
    | mk wsb res =>
      cases res with
      | error e => simp [hb] at h
      | ok mb =>
        simp only [hb] at h
        obtain ⟨_, hset⟩ := buildBundle_ok lib (world done) srcRoot outRoot b m mb wsb hb
        cases hrest : buildBundles lib world kind srcRoot outRoot (done ++ wsb) bs mb with
        | mk ws2 r2 =>
          cases r2 with
          | mk m2 err =>
            simp only [hrest, Prod.mk.injEq] at h
            obtain ⟨_, hm2, herr⟩ := h
            subst hm2 herr
            have := ih (done ++ wsb) mb ws2 (names ++ [bundleName b]) hrest
              (hset ▸ IdentityManifest_set names m (bundleName b) hm)
            simpa [List.append_assoc] using this

/-- C11 (amended). Whenever `Build` succeeds: either there is no configuration
and the returned manifest is empty, or the keys of the returned manifest are
exactly the declared names of the configured CSS and JS bundles, each trimmed
of surrounding white space, every key held once and mapped to itself.  When no
configuration file exists the returned manifest is empty. -/
theorem C11_Build_manifest (lib : GoLib) (json : JsonLib) (h : Host) (srcRoot outRoot : Str) :
    (∀ ws m, Build lib json h srcRoot outRoot = (ws, m, none) →
      (loadConfig lib json h srcRoot = .ok none ∧ m = []) ∨
      ∃ config, loadConfig lib json h srcRoot = .ok (some config) ∧
        IdentityManifest (configNames config) m) ∧
    (∀ e, h.readFile (Join [srcRoot, FromSlash ConfigPath]) = .error e →
      h.readNotExist (Join [srcRoot, FromSlash ConfigPath]) = true →
      (Build lib json h srcRoot outRoot).2.1 = []) := by
  constructor
  · intro ws m hB
    unfold Build at hB
    cases hl : loadConfig lib json h srcRoot with
    | error e => simp [hl] at hB
    | ok oc =>
      cases oc with
      | none =>
        simp only [hl, Prod.mk.injEq] at hB
        exact Or.inl ⟨rfl, hB.2.1.symm⟩
      | some config =>
        right
        refine ⟨config, rfl, ?_⟩
        simp only [hl] at hB
        split at hB
        · simp at hB
        · rename_i ws1 m1 h1
          have i1 := buildBundles_ok lib h.after _ srcRoot outRoot _ [] [] m1 ws1 [] h1
            IdentityManifest_nil
          split at hB
          · simp at hB
          · rename_i ws2 m2 h2
            have i2 := buildBundles_ok lib h.after _ srcRoot outRoot _ ws1 m1 m2 ws2 _ h2 i1
            simp only [Prod.mk.injEq] at hB
            rw [← hB.2.1]
            simpa [configNames] using i2
  · intro e hr hn
    have hl : loadConfig lib json h srcRoot = .ok none := by
      simp [loadConfig, hr, hn]
    simp [Build, hl]

/-- C11 (amended), at the example tree with one bundle `style.css`. -/
theorem C11_Build_manifest_witness :
    Build GoLib.plain (JsonLib.fixed styleConfig) bundleHost siteSrc siteOut =
      ([.mkdirAll siteOut 0o755,
        .writeFile "/site/out/style.css".toList
          ":root\x7b--bg:#fff;\x7d\nbody\x7bcolor:#111;\x7d\n".toList 0o644,
        .writeFile "/site/out/assets-manifest.json".toList
          "style.css=style.css;\n".toList 0o644],
       [("style.css".toList, "style.css".toList)], none) ∧
    ((loadConfig GoLib.plain (JsonLib.fixed styleConfig) bundleHost siteSrc = .ok none ∧
        [("style.css".toList, "style.css".toList)] = ([] : Manifest)) ∨
      ∃ config, loadConfig GoLib.plain (JsonLib.fixed styleConfig) bundleHost siteSrc =
          .ok (some config) ∧
        IdentityManifest (configNames config) [("style.css".toList, "style.css".toList)]) ∧
    (Build GoLib.plain (JsonLib.fixed styleConfig) (Host.ofList siteEntries []) siteSrc siteOut).2.1 =
      [] :=
  ⟨rfl, (C11_Build_manifest GoLib.plain (JsonLib.fixed styleConfig) bundleHost siteSrc
      siteOut).1 _ _ rfl,
    (C11_Build_manifest GoLib.plain (JsonLib.fixed styleConfig) (Host.ofList siteEntries []) siteSrc
      siteOut).2 _ rfl rfl⟩

/-- C11 as stated fails for a bundle declared with white space around its
name: the bundle declared as ` style.css` (with a leading space) is built, and
the key of the manifest is `style.css`, not the declared name. -/
theorem C11_counterexample :
    paddedConfig.CSSBundles.map Bundle.Name = [" style.css".toList] ∧
    Build GoLib.plain (JsonLib.fixed paddedConfig) bundleHost siteSrc siteOut =
      ([.mkdirAll siteOut 0o755,
        .writeFile "/site/out/style.css".toList ":root\x7b--bg:#fff;\x7d\n".toList 0o644,
        .writeFile "/site/out/assets-manifest.json".toList
          "style.css=style.css;\n".toList 0o644],
       [("style.css".toList, "style.css".toList)], none) ∧
    " style.css".toList ∉
      ([("style.css".toList, "style.css".toList)] : Manifest).map Prod.fst :=
  ⟨rfl, rfl, by decide⟩

/-! ## `assets.Build`: the bundles in order -/

theorem writeBundle_manifest (lib : GoLib) (fs : FS) (outRoot name content : Str)
    (m : Manifest) :
    writeBundle lib fs outRoot name content m =
      match writeBundle lib fs outRoot name content [] with
      | (ws, .error e) => (ws, .error e)
      | (ws, .ok _) => (ws, .ok (m.set name name)) := by
  unfold writeBundle
  cases ResolveWithinRoot lib fs outRoot name with
  | error e => rfl
  | ok outPath =>
    simp only
    cases EnsureNoSymlinkTraversal lib fs outRoot outPath with
    | error e => rfl
    | ok u =>
      simp only
      cases fs.mkdirAll (Dir outPath) with
      | some e => rfl
      | none =>
        simp only
        cases fs.writeFile outPath content with
        | some e => rfl
        | none => rfl

/-- The manifest passed to `buildBundle` has no part in what it does, except
that the name is recorded in it on success. -/
theorem buildBundle_manifest (lib : GoLib) (fs : FS) (srcRoot outRoot : Str) (b : Bundle)
    (m : Manifest) :
    buildBundle lib fs srcRoot outRoot b m =
      match buildBundle lib fs srcRoot outRoot b [] with
      | (ws, .error e) => (ws, .error e)
      | (ws, .ok _) => (ws, .ok (m.set (bundleName b) (bundleName b))) := by
  by_cases hr : bundleRejected b
  · obtain ⟨msg, hmsg⟩ := (buildBundle_validation lib b).1 hr
    rw [hmsg fs srcRoot outRoot m, hmsg fs srcRoot outRoot []]
  · rw [(buildBundle_validation lib b).2 hr fs srcRoot outRoot m,
      (buildBundle_validation lib b).2 hr fs srcRoot outRoot []]
    cases concatInputs lib fs srcRoot b.Inputs with
    | error e => rfl
    | ok content =>
      simp only
      exact writeBundle_manifest lib fs outRoot _ content m

theorem buildBundle_of_Builds (lib : GoLib) (fs : FS) (srcRoot outRoot : Str) (b : Bundle)
    (m : Manifest) (hb : Builds lib fs srcRoot outRoot b) :
    buildBundle lib fs srcRoot outRoot b m =
      (bundleWrites lib fs srcRoot outRoot b, .ok (m.set (bundleName b) (bundleName b))) := by
  obtain ⟨ws, m1, h⟩ := hb
  rw [buildBundle_manifest, bundleWrites, h]

theorem buildBundle_writes (lib : GoLib) (fs : FS) (srcRoot outRoot : Str) (b : Bundle)
    (m : Manifest) :
    (buildBundle lib fs srcRoot outRoot b m).1 = bundleWrites lib fs srcRoot outRoot b := by
  rw [buildBundle_manifest, bundleWrites]
  cases buildBundle lib fs srcRoot outRoot b [] with
  | mk ws res =>
    cases res with
    | error e => rfl
    | ok m1 => rfl

/-- When every bundle of a list builds at its turn, the loop builds them all in
order, whether or not two of them share a name. -/
theorem buildBundles_all (lib : GoLib) (world : List Write → FS) (kind srcRoot outRoot : Str)
    (bs : List Bundle) (done : List Write) (m : Manifest)
    (h : BuildInTurn lib world srcRoot outRoot done bs) :
    buildBundles lib world kind srcRoot outRoot done bs m =
      (turnWrites lib world srcRoot outRoot done bs, recordAll m bs, none) := by
  induction bs generalizing done m with
  | nil => rfl
  | cons b bs ih =>
    obtain ⟨hb, hrest⟩ := h
    unfold buildBundles
    rw [buildBundle_of_Builds lib (world done) srcRoot outRoot b m hb]
    simp only
    rw [ih _ _ hrest]
    simp [recordAll, turnWrites]

theorem turnWrites_append (lib : GoLib) (world : List Write → FS) (srcRoot outRoot : Str)
    (xs ys : List Bundle) (done : List Write) :
    turnWrites lib world srcRoot outRoot done (xs ++ ys) =
      turnWrites lib world srcRoot outRoot done xs ++
        turnWrites lib world srcRoot outRoot
          (done ++ turnWrites lib world srcRoot outRoot done xs) ys := by
  induction xs generalizing done with
  | nil => simp [turnWrites]
  | cons x xs ih =>
    show turnWrites lib world srcRoot outRoot done (x :: (xs ++ ys)) = _
    simp only [turnWrites, ih, List.append_assoc]

theorem BuildInTurn_append (lib : GoLib) (world : List Write → FS) (srcRoot outRoot : Str)
    (xs ys : List Bundle) (done : List Write)
    (h : BuildInTurn lib world srcRoot outRoot done (xs ++ ys)) :
    BuildInTurn lib world srcRoot outRoot done xs ∧
      BuildInTurn lib world srcRoot outRoot
        (done ++ turnWrites lib world srcRoot outRoot done xs) ys := by
  induction xs generalizing done with
  | nil => simpa [BuildInTurn, turnWrites] using h
  | cons x xs ih =>
    obtain ⟨hx, hrest⟩ := h
    obtain ⟨h1, h2⟩ := ih _ hrest
    refine ⟨⟨hx, h1⟩, ?_⟩
    simpa only [turnWrites, List.append_assoc] using h2

/-- Every call of the loop that changes the file system belongs to one of the
bundles of the list, built on the file system as the calls before it have left
it. -/
theorem buildBundles_writes (lib : GoLib) (world : List Write → FS) (kind srcRoot outRoot : Str)
    (bs : List Bundle) (done : List Write) (m : Manifest) (ws : List Write) (m1 : Manifest)
    (err : Option Str)
    (h : buildBundles lib world kind srcRoot outRoot done bs m = (ws, m1, err)) :
    ∀ w ∈ ws, ∃ b ∈ bs, ∃ d, d <+: ws ∧
      w ∈ bundleWrites lib (world (done ++ d)) srcRoot outRoot b := by
  induction bs generalizing done m ws m1 err with
  | nil =>
    simp only [buildBundles, Prod.mk.injEq] at h
    intro w hw
    rw [← h.1] at hw
    cases hw
  | cons b bs ih =>
    intro w hw
    unfold buildBundles at h
    have hwb := buildBundle_writes lib (world done) srcRoot outRoot b m
    cases hb : buildBundle lib (world done) srcRoot outRoot b m with
    | mk wsb res =>
      rw [hb] at hwb h
      simp only at hwb
      cases res with
      | error e =>
        simp only [Prod.mk.injEq] at h
        rw [← h.1] at hw
        exact ⟨b, by simp, [], List.nil_prefix, by rw [List.append_nil, ← hwb]; exact hw⟩
      | ok mb =>
        simp only at h
        cases hrest : buildBundles lib world kind srcRoot outRoot (done ++ wsb) bs mb with
        | mk ws2 r2 =>
          cases r2 with
          | mk m2 err2 =>
            rw [hrest] at h
            simp only [Prod.mk.injEq] at h
            obtain ⟨hws, _, _⟩ := h
            subst hws
            rcases List.mem_append.mp hw with h1 | h1
            · exact ⟨b, by simp, [], List.nil_prefix,
                by rw [List.append_nil, ← hwb]; exact h1⟩
            · obtain ⟨b', hb', d, hd, hw'⟩ := ih (done ++ wsb) mb ws2 m2 err2 hrest w h1
              refine ⟨b', List.mem_cons_of_mem _ hb', wsb ++ d,
                (List.prefix_append_right_inj wsb).mpr hd, ?_⟩
              rw [← List.append_assoc]
              exact hw'

/-- A rejected bundle ends the loop with an error, and every call that
changes the file system belongs to a bundle listed before it. -/
theorem buildBundles_rejected (lib : GoLib) (world : List Write → FS)
    (kind srcRoot outRoot : Str) (pre : List Bundle) (b : Bundle) (post : List Bundle)
    (done : List Write) (m : Manifest) (hb : bundleRejected b) (ws : List Write)
    (m1 : Manifest) (err : Option Str)
    (h : buildBundles lib world kind srcRoot outRoot done (pre ++ b :: post) m =
      (ws, m1, err)) :
    (∃ e, err = some e) ∧
    ∀ w ∈ ws, ∃ b' ∈ pre, ∃ d, d <+: ws ∧
      w ∈ bundleWrites lib (world (done ++ d)) srcRoot outRoot b' := by
  induction pre generalizing done m ws m1 err with
  | nil =>
    obtain ⟨msg, hmsg⟩ := (buildBundle_validation lib b).1 hb
    simp only [List.nil_append, buildBundles, hmsg (world done) srcRoot outRoot m,
      Prod.mk.injEq] at h
    obtain ⟨hws, _, herr⟩ := h
    subst hws
    exact ⟨⟨_, herr.symm⟩, fun w hw => by cases hw⟩
  | cons p pre ih =>
    rw [List.cons_append] at h
    unfold buildBundles at h
    have hwb := buildBundle_writes lib (world done) srcRoot outRoot p m
    cases hp : buildBundle lib (world done) srcRoot outRoot p m with
    | mk wsp res =>
      rw [hp] at hwb h
      simp only at hwb
      cases res with
      | error e =>
        simp only [Prod.mk.injEq] at h
        obtain ⟨hws, _, herr⟩ := h
        subst hws
        exact ⟨⟨_, herr.symm⟩, fun w hw => ⟨p, by simp, [], List.nil_prefix,
          by rw [List.append_nil, ← hwb]; exact hw⟩⟩
      | ok mp =>
        simp only at h
        cases hrest : buildBundles lib world kind srcRoot outRoot (done ++ wsp)
            (pre ++ b :: post) mp with
        | mk ws2 r2 =>
          cases r2 with
          | mk m2 err2 =>
            rw [hrest] at h
            simp only [Prod.mk.injEq] at h
            obtain ⟨hws, _, herr⟩ := h
            subst hws herr
            obtain ⟨he, hwrites⟩ := ih (done ++ wsp) mp ws2 m2 err2 hrest
            refine ⟨he, ?_⟩
            intro w hw
            rcases List.mem_append.mp hw with h1 | h1
            · exact ⟨p, by simp, [], List.nil_prefix,
                by rw [List.append_nil, ← hwb]; exact h1⟩
            · obtain ⟨b', hb', d, hd, hw'⟩ := hwrites w h1
              refine ⟨b', List.mem_cons_of_mem _ hb', wsp ++ d,
                (List.prefix_append_right_inj wsp).mpr hd, ?_⟩
              rw [← List.append_assoc]
              exact hw'

/-- C13 (amended). `Build` does not look for bundles that share a name. The
bundles are built one after another in declaration order, the CSS bundles
before the JS bundles, each on the file system as the bundles before it have
left it. For every configuration, with or without a shared name, in which each
bundle builds at its turn and the manifest can be written after them, `Build`
succeeds: its calls are those of the bundles in order, followed by the
manifest, so that of two bundles with one name the later content is written
last to the same file, and the manifest holds each name once, mapped to
itself. -/
theorem C13_duplicate_names (lib : GoLib) (json : JsonLib) (h : Host) (srcRoot outRoot : Str)
    (config : BundleConfig)
    (hl : loadConfig lib json h srcRoot = .ok (some config))
    (hb : BuildInTurn lib h.after srcRoot outRoot [] (config.CSSBundles ++ config.JSBundles))
    (hm : ∀ m, ∃ data, json.marshalManifest m = .ok data ∧
      (h.after (turnWrites lib h.after srcRoot outRoot []
        (config.CSSBundles ++ config.JSBundles))).writeFile
          (Join [outRoot, ManifestFilename]) (data ++ ['\n']) = none) :
    ∃ m data, Build lib json h srcRoot outRoot =
        (turnWrites lib h.after srcRoot outRoot [] (config.CSSBundles ++ config.JSBundles) ++
          [.writeFile (Join [outRoot, ManifestFilename]) (data ++ ['\n']) 0o644], m, none) ∧
      json.marshalManifest m = .ok data ∧
      IdentityManifest (configNames config) m := by
  obtain ⟨hcss, hjs⟩ := BuildInTurn_append lib h.after srcRoot outRoot _ _ [] hb
  rw [List.nil_append] at hjs
  have h1 := buildBundles_all lib h.after "css".toList srcRoot outRoot config.CSSBundles [] []
    hcss
  have h2 := buildBundles_all lib h.after "js".toList srcRoot outRoot config.JSBundles
    (turnWrites lib h.after srcRoot outRoot [] config.CSSBundles)
    (recordAll [] config.CSSBundles) hjs
  have hall := turnWrites_append lib h.after srcRoot outRoot config.CSSBundles
    config.JSBundles []
  rw [List.nil_append] at hall
  obtain ⟨data, hd, hw⟩ := hm (recordAll (recordAll [] config.CSSBundles) config.JSBundles)
  rw [hall] at hw
  have hB : Build lib json h srcRoot outRoot =
      (turnWrites lib h.after srcRoot outRoot [] (config.CSSBundles ++ config.JSBundles) ++
        [.writeFile (Join [outRoot, ManifestFilename]) (data ++ ['\n']) 0o644],
        recordAll (recordAll [] config.CSSBundles) config.JSBundles, none) := by
    unfold Build
    rw [hl]
    simp only
    rw [h1]
    simp only
    rw [h2]
    simp only [writeManifest, hd, hw, hall]
  refine ⟨_, data, hB, hd, ?_⟩
  have i1 := buildBundles_ok lib h.after _ srcRoot outRoot _ [] [] _ _ [] h1
    IdentityManifest_nil
  have i2 := buildBundles_ok lib h.after _ srcRoot outRoot _ _ _ _ _ _ h2 i1
  simpa [configNames] using i2

set_option maxRecDepth 100000 in
/-- C13 (amended), at a configuration with two bundles named `style.css`: the
second bundle is built on the file system that holds the file of the first. -/
theorem C13_duplicate_names_witness :
    loadConfig GoLib.plain (JsonLib.fixed dupConfig) bundleHost siteSrc = .ok (some dupConfig) ∧
    BuildInTurn GoLib.plain bundleHost.after siteSrc siteOut []
      (dupConfig.CSSBundles ++ dupConfig.JSBundles) ∧
    (bundleHost.after [.mkdirAll siteOut 0o755,
        .writeFile "/site/out/style.css".toList ":root\x7b--bg:#fff;\x7d\n".toList 0o644]).lstat
      "/site/out/style.css".toList = .info false false ∧
    ∃ m data, Build GoLib.plain (JsonLib.fixed dupConfig) bundleHost siteSrc siteOut =
        (turnWrites GoLib.plain bundleHost.after siteSrc siteOut []
            (dupConfig.CSSBundles ++ dupConfig.JSBundles) ++
          [.writeFile (Join [siteOut, ManifestFilename]) (data ++ ['\n']) 0o644], m, none) ∧
      (JsonLib.fixed dupConfig).marshalManifest m = .ok data ∧
      IdentityManifest (configNames dupConfig) m :=
  have hb : BuildInTurn GoLib.plain bundleHost.after siteSrc siteOut []
      (dupConfig.CSSBundles ++ dupConfig.JSBundles) :=
    ⟨⟨_, _, rfl⟩, ⟨_, _, rfl⟩, trivial⟩
  ⟨rfl, hb, rfl,
    C13_duplicate_names GoLib.plain (JsonLib.fixed dupConfig) bundleHost siteSrc siteOut
      dupConfig rfl hb (fun _ => ⟨_, rfl, rfl⟩)⟩

set_option maxRecDepth 100000 in
/-- C13 as stated fails: for the configuration with two bundles named
`style.css`, `Build` returns no error; the file `style.css` is written twice,
the second bundle's content last, and the manifest holds `style.css` once. -/
theorem C13_counterexample :
    dupConfig.CSSBundles.map Bundle.Name = ["style.css".toList, "style.css".toList] ∧
    Build GoLib.plain (JsonLib.fixed dupConfig) bundleHost siteSrc siteOut =
      ([.mkdirAll siteOut 0o755,
        .writeFile "/site/out/style.css".toList ":root\x7b--bg:#fff;\x7d\n".toList 0o644,
        .mkdirAll siteOut 0o755,
        .writeFile "/site/out/style.css".toList "body\x7bcolor:#111;\x7d\n".toList 0o644,
        .writeFile "/site/out/assets-manifest.json".toList
          "style.css=style.css;\n".toList 0o644],
       [("style.css".toList, "style.css".toList)], none) :=
  ⟨rfl, rfl⟩

set_option maxRecDepth 100000 in
/-- A bundle sees what the bundles before it have written: after the bundle `a`
is written as a regular file, the bundle `a/b` is refused, because its output
path lies below that file. -/
theorem Build_below_example :
    Build GoLib.plain (JsonLib.fixed belowConfig) bundleHost siteSrc siteOut =
      ([.mkdirAll siteOut 0o755,
        .writeFile "/site/out/a".toList ":root\x7b--bg:#fff;\x7d\n".toList 0o644],
       [("a".toList, "a".toList)],
       some ("build css bundle \"a/b\": validate output path: " ++
         "lstat \"/site/out/a/b\": not a directory").toList) ∧
    Builds GoLib.plain bundleHost.toFS siteSrc siteOut
      ⟨"a/b".toList, ["_css/elements.css".toList]⟩ :=
  ⟨rfl, ⟨_, _, rfl⟩⟩

/-! ## Names that escape -/

theorem Contains_iff_occurs (s sub : Str) : Contains s sub = true ↔ sub <:+: s := by
  induction s with
  | nil =>
    simp only [Contains, List.isEmpty_iff]
    constructor
    · rintro rfl; exact List.infix_refl _
    · intro h; exact List.eq_nil_of_infix_nil h
  | cons c cs ih =>
    simp only [Contains, Bool.or_eq_true, ih, List.isPrefixOf_iff_prefix]
    exact List.infix_cons_iff.symm

theorem firstElem_prefix (s : Str) : firstElem s <+: s :=
  List.takeWhile_prefix _

theorem infix_of_mem_splitSep (s e : Str) (he : e ∈ splitSep s) : e <:+: s := by
  induction s generalizing e with
  | nil =>
    simp only [splitSep, List.mem_singleton] at he
    subst he
    exact List.infix_refl _
  | cons c cs ih =>
    by_cases h : c = '/'
    · subst h
      rw [splitSep_cons_sep] at he
      rcases List.mem_cons.mp he with rfl | he
      · exact List.nil_infix
      · exact List.infix_cons (ih e he)
    · obtain ⟨w, ws, hs, h2⟩ := splitSep_cons_other c cs h
      rw [h2] at he
      rcases List.mem_cons.mp he with rfl | he
      · have hw : w = firstElem cs := by
          have := head?_splitSep cs
          rw [hs] at this
          simpa using this
        have hp : w <+: cs := hw ▸ firstElem_prefix cs
        obtain ⟨t, ht⟩ := hp
        exact ⟨[], t, by simp [← ht]⟩
      · exact List.infix_cons (ih e (by rw [hs]; exact List.mem_cons_of_mem _ he))

/-- Dropping leading elements that satisfy `p` keeps every run that starts with
an element that does not. -/
theorem infix_dropWhile (p : Char → Bool) (c : Char) (w s : Str) (hc : p c = false)
    (h : c :: w <:+: s) : c :: w <:+: s.dropWhile p := by
  obtain ⟨a, b, rfl⟩ := h
  rw [List.append_assoc, List.dropWhile_append]
  have hd : List.dropWhile p (c :: w ++ b) = c :: w ++ b := by
    simp [List.dropWhile, hc]
  split
  · rw [hd]
    exact ⟨[], b, rfl⟩
  · exact ⟨List.dropWhile p a, b, by simp⟩

theorem dotdot_infix_TrimSpace (s : Str) (h : dotdot <:+: s) : dotdot <:+: TrimSpace s := by
  unfold TrimSpace
  have h1 : dotdot <:+: s.dropWhile isSpace :=
    infix_dropWhile isSpace '.' ['.'] s (by decide) h
  have h2 : dotdot <:+: (s.dropWhile isSpace).reverse := by
    have := List.reverse_infix.mpr h1
    simpa [dotdot] using this
  have h3 : dotdot <:+: ((s.dropWhile isSpace).reverse).dropWhile isSpace :=
    infix_dropWhile isSpace '.' ['.'] _ (by decide) h2
  have := List.reverse_infix.mpr h3
  simpa [dotdot] using this

theorem rtrim_prefix (p : Char → Bool) (l : Str) : (l.reverse.dropWhile p).reverse <+: l := by
  have := List.reverse_prefix.mpr (List.dropWhile_suffix (l := l.reverse) p)
  rwa [List.reverse_reverse] at this

theorem HasPrefix_TrimSpace (cs : Str) : HasPrefix (TrimSpace ('/' :: cs)) ['/'] = true := by
  unfold TrimSpace
  have hd : List.dropWhile isSpace ('/' :: cs) = '/' :: cs := by
    have : isSpace '/' = false := by decide
    simp [List.dropWhile, this]
  rw [hd]
  have hne : List.dropWhile isSpace ('/' :: cs).reverse ≠ [] := by
    intro h0
    have := List.dropWhile_eq_nil_iff.mp h0 '/' (by simp)
    exact absurd this (by decide)
  obtain ⟨t, ht⟩ := rtrim_prefix isSpace ('/' :: cs)
  cases hq : (List.dropWhile isSpace ('/' :: cs).reverse).reverse with
  | nil =>
    rw [List.reverse_eq_nil_iff] at hq
    exact absurd hq hne
  | cons c q =>
    rw [hq] at ht
    simp only [List.cons_append, List.cons.injEq] at ht
    rw [ht.1]
    simp [HasPrefix, List.isPrefixOf]

/-- A declared name that starts with `/` or has a `..` segment is rejected. -/
theorem bundleRejected_of_EscapingName (b : Bundle) (h : EscapingName b) :
    bundleRejected b := by
  unfold bundleRejected bundleName ToSlash
  rcases h with h | h
  · right; left
    obtain ⟨cs, hcs⟩ := (IsAbs_iff b.Name).mp h
    rw [hcs]
    exact HasPrefix_TrimSpace cs
  · right; right; left
    rw [Contains_iff_occurs]
    exact dotdot_infix_TrimSpace _ (infix_of_mem_splitSep _ _ h)

/-- C14 (amended). For every configuration in which some bundle's declared
name has a `..` segment or starts with `/`, `Build` returns an error and does
not write the manifest file: every call that changes the file system belongs to
a bundle listed before that bundle (CSS bundles before JS bundles), built on
the file system as the calls before it have left it, so that no write at all
has occurred when that bundle is the first of the configuration. -/
theorem C14_escaping_name (lib : GoLib) (json : JsonLib) (h : Host) (srcRoot outRoot : Str)
    (config : BundleConfig) (pre : List Bundle) (b : Bundle) (post : List Bundle)
    (hl : loadConfig lib json h srcRoot = .ok (some config))
    (hsplit : config.CSSBundles ++ config.JSBundles = pre ++ b :: post)
    (hbad : EscapingName b) :
    (∃ e, (Build lib json h srcRoot outRoot).2.2 = some e) ∧
    (∀ w ∈ (Build lib json h srcRoot outRoot).1,
      ∃ b' ∈ pre, ∃ d, d <+: (Build lib json h srcRoot outRoot).1 ∧
        w ∈ bundleWrites lib (h.after d) srcRoot outRoot b') ∧
    (pre = [] → (Build lib json h srcRoot outRoot).1 = []) := by
  have hrej := bundleRejected_of_EscapingName b hbad
  have key : (∃ e, (Build lib json h srcRoot outRoot).2.2 = some e) ∧
      (∀ w ∈ (Build lib json h srcRoot outRoot).1,
        ∃ b' ∈ pre, ∃ d, d <+: (Build lib json h srcRoot outRoot).1 ∧
          w ∈ bundleWrites lib (h.after d) srcRoot outRoot b') := by
    unfold Build
    rw [hl]
    simp only
    cases h1 : buildBundles lib h.after "css".toList srcRoot outRoot [] config.CSSBundles
        [] with
    | mk ws1 r1 =>
      cases r1 with
      | mk m1 e1 =>
        have hcssw := buildBundles_writes lib h.after "css".toList srcRoot outRoot
          config.CSSBundles [] [] ws1 m1 e1 h1
        simp only [List.nil_append] at hcssw
        rcases List.append_eq_append_iff.mp hsplit with ⟨a', hpre, hjs⟩ | ⟨c', hcss, hpost⟩
        · -- the bundle is among the JS bundles
          have hmem : ∀ b', b' ∈ config.CSSBundles → b' ∈ pre := fun b' hb' => by
            rw [hpre]
            exact List.mem_append_left _ hb'
          cases e1 with
          | some e =>
            refine ⟨⟨e, rfl⟩, fun w hw => ?_⟩
            obtain ⟨b', hb', d, hd, hw'⟩ := hcssw w hw
            exact ⟨b', hmem b' hb', d, hd, hw'⟩
          | none =>
            simp only
            cases h2 : buildBundles lib h.after "js".toList srcRoot outRoot ws1
                config.JSBundles m1 with
            | mk ws2 r2 =>
              cases r2 with
              | mk m2 e2 =>
                have hr := buildBundles_rejected lib h.after "js".toList srcRoot outRoot a' b
                  post ws1 m1 hrej ws2 m2 e2 (hjs ▸ h2)
                obtain ⟨⟨e, he⟩, hws⟩ := hr
                subst he
                refine ⟨⟨e, rfl⟩, fun w hw => ?_⟩
                rcases List.mem_append.mp hw with hw1 | hw2
                · obtain ⟨b', hb', d, hd, hw'⟩ := hcssw w hw1
                  exact ⟨b', hmem b' hb', d, hd.trans (List.prefix_append ws1 ws2), hw'⟩
                · obtain ⟨b', hb', d, hd, hw'⟩ := hws w hw2
                  exact ⟨b', by rw [hpre]; exact List.mem_append_right _ hb', ws1 ++ d,
                    (List.prefix_append_right_inj ws1).mpr hd, hw'⟩
        · -- the bundle is among the CSS bundles, or is the first JS bundle
          cases c' with
          | nil =>
            simp only [List.nil_append, List.append_nil] at hcss hpost
            cases e1 with
            | some e =>
              refine ⟨⟨e, rfl⟩, fun w hw => ?_⟩
              obtain ⟨b', hb', d, hd, hw'⟩ := hcssw w hw
              exact ⟨b', hcss ▸ hb', d, hd, hw'⟩
            | none =>
              simp only
              cases h2 : buildBundles lib h.after "js".toList srcRoot outRoot ws1
                  config.JSBundles m1 with
              | mk ws2 r2 =>
                cases r2 with
                | mk m2 e2 =>
                  have hr := buildBundles_rejected lib h.after "js".toList srcRoot outRoot []
                    b post ws1 m1 hrej ws2 m2 e2 (by rw [List.nil_append, hpost]; exact h2)
                  obtain ⟨⟨e, he⟩, hws⟩ := hr
                  subst he
                  refine ⟨⟨e, rfl⟩, fun w hw => ?_⟩
                  rcases List.mem_append.mp hw with hw1 | hw2
                  · obtain ⟨b', hb', d, hd, hw'⟩ := hcssw w hw1
                    exact ⟨b', hcss ▸ hb', d, hd.trans (List.prefix_append ws1 ws2), hw'⟩
                  · obtain ⟨b', hb', _⟩ := hws w hw2
                    simp at hb'
          | cons x c'' =>
            simp only [List.cons_append, List.cons.injEq] at hpost
            obtain ⟨hx, _⟩ := hpost
            subst hx
            have hr := buildBundles_rejected lib h.after "css".toList srcRoot outRoot pre b
              c'' [] [] hrej ws1 m1 e1 (hcss ▸ h1)
            obtain ⟨⟨e, he⟩, hws⟩ := hr
            subst he
            simp only [List.nil_append] at hws
            exact ⟨⟨e, rfl⟩, hws⟩
  refine ⟨key.1, key.2, fun hp => ?_⟩
  subst hp
  apply List.eq_nil_iff_forall_not_mem.mpr
  intro w hw
  obtain ⟨b', hb', _⟩ := key.2 w hw
  simp at hb'

/-- C14 (amended), at a configuration whose second bundle is named `../x.css`. -/
theorem C14_escaping_name_witness :
    loadConfig GoLib.plain (JsonLib.fixed escapingConfig) bundleHost siteSrc =
      .ok (some escapingConfig) ∧
    escapingConfig.CSSBundles ++ escapingConfig.JSBundles =
      [⟨"style.css".toList, ["_css/colors.css".toList]⟩] ++
        ⟨"../x.css".toList, ["_css/elements.css".toList]⟩ :: [] ∧
    EscapingName ⟨"../x.css".toList, ["_css/elements.css".toList]⟩ ∧
    ((∃ e, (Build GoLib.plain (JsonLib.fixed escapingConfig) bundleHost siteSrc siteOut).2.2 =
        some e) ∧
    (∀ w ∈ (Build GoLib.plain (JsonLib.fixed escapingConfig) bundleHost siteSrc siteOut).1,
      ∃ b' ∈ [(⟨"style.css".toList, ["_css/colors.css".toList]⟩ : Bundle)],
        ∃ d, d <+: (Build GoLib.plain (JsonLib.fixed escapingConfig) bundleHost siteSrc
            siteOut).1 ∧
          w ∈ bundleWrites GoLib.plain (bundleHost.after d) siteSrc siteOut b') ∧
    ([(⟨"style.css".toList, ["_css/colors.css".toList]⟩ : Bundle)] = [] →
      (Build GoLib.plain (JsonLib.fixed escapingConfig) bundleHost siteSrc siteOut).1 = [])) :=
  ⟨rfl, rfl, Or.inr (by decide),
    C14_escaping_name GoLib.plain (JsonLib.fixed escapingConfig) bundleHost siteSrc siteOut
      escapingConfig [⟨"style.css".toList, ["_css/colors.css".toList]⟩]
      ⟨"../x.css".toList, ["_css/elements.css".toList]⟩ [] rfl rfl (Or.inr (by decide))⟩

/-- C14 as stated fails when a bundle is listed before the one with the bad
name: for the bundles `style.css` and `../x.css`, `Build` returns the error of
the second bundle after it has created the output directory of the first and
written its file. -/
theorem C14_counterexample :
    EscapingName ⟨"../x.css".toList, ["_css/elements.css".toList]⟩ ∧
    escapingConfig.CSSBundles =
      [⟨"style.css".toList, ["_css/colors.css".toList]⟩,
        ⟨"../x.css".toList, ["_css/elements.css".toList]⟩] ∧
    Build GoLib.plain (JsonLib.fixed escapingConfig) bundleHost siteSrc siteOut =
      ([.mkdirAll siteOut 0o755,
        .writeFile "/site/out/style.css".toList ":root\x7b--bg:#fff;\x7d\n".toList 0o644],
       [("style.css".toList, "style.css".toList)],
       some ("build css bundle \"../x.css\": bundle name cannot contain '..': " ++
         "\"../x.css\"").toList) :=
  ⟨Or.inr (by decide), rfl, rfl⟩

/-! ## Concatenating again -/

/-- The buffer `concatInputs` returns is empty or ends in a newline. -/
theorem concatLoop_normalized (lib : GoLib) (fs : FS) (srcRoot : Str) (inputs : List Str)
    (i : Nat) (out0 out : Str) (h0 : out0 = [] ∨ endsInNewline out0 = true)
    (h : concatLoop lib fs srcRoot i out0 inputs = .ok out) :
    out = [] ∨ endsInNewline out = true := by
  induction inputs generalizing i out0 with
  | nil =>
    simp only [concatLoop, Except.ok.injEq] at h
    exact h ▸ h0
  | cons input rest ih =>
    unfold concatLoop at h
    by_cases hrel : ToSlash (TrimSpace input) = []
    · simp [hrel] at h
    · simp only [hrel, if_false] at h
      cases h1 : ResolveWithinRoot lib fs srcRoot (ToSlash (TrimSpace input)) with
      | error e => simp [h1] at h
      | ok inputPath =>
        simp only [h1] at h
        cases h2 : EnsureNoSymlinkTraversal lib fs srcRoot inputPath with
        | error e => simp [h2] at h
        | ok u =>
          simp only [h2] at h
          cases h3 : fs.stat inputPath with
          | failed e => simp [h3] at h
          | info isDir perm =>
            cases isDir with
            | true => simp [h3] at h
            | false =>
              simp only [h3, Bool.false_eq_true, if_false] at h
              cases h4 : fs.readFile inputPath with
              | error e => simp [h4] at h
              | ok data =>
                simp only [h4] at h
                refine ih _ _ ?_ h
                by_cases hd : (decide (data.length > 0) && !endsInNewline data) = true
                · rw [if_pos hd]
                  right
                  rw [endsInNewline_append _ ['\n'] (by simp)]
                  rfl
                · rw [if_neg hd]
                  by_cases hdn : data = []
                  · subst hdn
                    rw [List.append_nil]
                    by_cases hs : (decide (i > 0) && decide (out0.length > 0) &&
                        !endsInNewline out0) = true
                    · rw [if_pos hs]
                      right
                      rw [endsInNewline_append _ ['\n'] (by simp)]
                      rfl
                    · rw [if_neg hs]
                      exact h0
                  · right
                    rw [endsInNewline_append _ _ hdn]
                    have hl : data.length > 0 := List.length_pos.mpr hdn
                    simpa [hl] using hd

theorem normInput_of_normalized (out : Str) (h : out = [] ∨ endsInNewline out = true) :
    normInput out = out := by
  unfold normInput
  rcases h with h | h
  · simp [h]
  · simp [h]

/-- C15. For every list of inputs on which `concatInputs` succeeds, running
`concatInputs` on a single input whose content is that output (in any tree)
returns exactly that output again. -/
theorem C15_concat_idempotent (lib : GoLib) (fs fs2 : FS) (srcRoot srcRoot2 : Str)
    (inputs : List Str) (input out : Str)
    (h : concatInputs lib fs srcRoot inputs = .ok out)
    (h2 : ReadableInput lib fs2 srcRoot2 input out) :
    concatInputs lib fs2 srcRoot2 [input] = .ok out := by
  have hn := concatLoop_normalized lib fs srcRoot inputs 0 [] out (Or.inl rfl) h
  rw [concatInputs_eq lib fs2 srcRoot2 [input] [out] (.cons h2 .nil)]
  simp [normInput_of_normalized out hn]

/-- C15, at the two style sheets of the example tree and a tree that holds
their bundle. -/
theorem C15_concat_idempotent_witness :
    concatInputs GoLib.plain siteFS siteSrc
        ["_css/colors.css".toList, "_css/elements.css".toList] =
      .ok ":root\x7b--bg:#fff;\x7d\nbody\x7bcolor:#111;\x7d\n".toList ∧
    ReadableInput GoLib.plain normalizedFS siteOut "style.css".toList
      ":root\x7b--bg:#fff;\x7d\nbody\x7bcolor:#111;\x7d\n".toList ∧
    concatInputs GoLib.plain normalizedFS siteOut ["style.css".toList] =
      .ok ":root\x7b--bg:#fff;\x7d\nbody\x7bcolor:#111;\x7d\n".toList :=
  have h2 : ReadableInput GoLib.plain normalizedFS siteOut "style.css".toList
      ":root\x7b--bg:#fff;\x7d\nbody\x7bcolor:#111;\x7d\n".toList :=
    ⟨by decide, "/site/out/style.css".toList, rfl, rfl, ⟨0o644, rfl⟩, rfl⟩
  ⟨rfl, h2, C15_concat_idempotent GoLib.plain siteFS normalizedFS siteSrc siteOut
    ["_css/colors.css".toList, "_css/elements.css".toList] "style.css".toList _ rfl h2⟩

/-! ## The output path of a bundle -/

set_option maxRecDepth 100000 in
/-- C12, at the bundle named `.`: the name passes validation, the output path
resolves to the output root itself, and `buildBundle` creates the parent of the
output root and writes the bundle to the path of the output root. -/
theorem C12_dot_bundle :
    ¬ bundleRejected dotBundle ∧
    Abs bundleFS siteOut = .ok siteOut ∧
    ResolveWithinRoot GoLib.plain bundleFS siteOut (bundleName dotBundle) = .ok siteOut ∧
    buildBundle GoLib.plain bundleFS siteSrc siteOut dotBundle [] =
      ([.mkdirAll "/site".toList 0o755,
        .writeFile siteOut ":root\x7b--bg:#fff;\x7d\n".toList 0o644],
       .ok [(".".toList, ".".toList)]) :=
  ⟨by unfold bundleRejected; decide, rfl, rfl, rfl⟩

/-! ## The source walk: reserved directories -/

theorem firstElem_of_noSep (pre : Str) (h : '/' ∉ pre) : firstElem pre = pre := by
  induction pre with
  | nil => rfl
  | cons c cs ih =>
    have hc : c ≠ '/' := fun e => h (by simp [e])
    rw [firstElem_other c cs hc, ih (fun hm => h (List.mem_cons_of_mem _ hm))]

theorem firstElem_append_sep (pre t : Str) (h : '/' ∉ pre) :
    firstElem (pre ++ '/' :: t) = pre := by
  induction pre with
  | nil => exact firstElem_sep t
  | cons c cs ih =>
    have hc : c ≠ '/' := fun e => h (by simp [e])
    rw [List.cons_append, firstElem_other _ _ hc, ih (fun hm => h (List.mem_cons_of_mem _ hm))]

/-- The test of `isPipelineSource` for one reserved name: the path is the name,
or starts with the name and a separator, exactly when its first element is the
name. -/
theorem prefix_rule (rel pre : Str) (h : '/' ∉ pre) :
    (rel = pre ∨ HasPrefix rel (pre ++ ['/']) = true) ↔ firstElem rel = pre := by
  constructor
  · rintro (rfl | hp)
    · exact firstElem_of_noSep _ h
    · obtain ⟨t, rfl⟩ := List.isPrefixOf_iff_prefix.mp hp
      rw [List.append_assoc]
      exact firstElem_append_sep pre t h
  · intro hf
    have hsplit := List.takeWhile_append_dropWhile (fun c => c != '/') rel
    cases hd : rel.dropWhile (fun c => c != '/') with
    | nil =>
      left
      rw [hd, List.append_nil] at hsplit
      rw [← hsplit]
      exact hf
    | cons c t =>
      right
      have hne : rel.dropWhile (fun c => c != '/') ≠ [] := by simp [hd]
      have hc := List.head_dropWhile_not (fun c => c != '/') rel hne
      simp only [hd, List.head_cons, bne_eq_false_iff_eq] at hc
      subst hc
      rw [hd] at hsplit
      apply List.isPrefixOf_iff_prefix.mpr
      refine ⟨t, ?_⟩
      rw [← hsplit, List.append_assoc]
      unfold firstElem at hf
      rw [hf]
      rfl

theorem isPipelineSource_iff (rel : Str) :
    isPipelineSource rel = true ↔ firstElem rel ∈ pipelineSourcePrefixes := by
  by_cases hr : rel = []
  · subst hr
    constructor
    · intro h; exact absurd h (by decide)
    · intro h; exact absurd h (by decide)
  · have h1 := prefix_rule rel "_assets".toList (by decide)
    have h2 := prefix_rule rel "_css".toList (by decide)
    have h3 := prefix_rule rel "_js".toList (by decide)
    simp only [isPipelineSource, ToSlash, hr, if_false, pipelineSourcePrefixes, List.any_cons,
      List.any_nil, Bool.or_false, Bool.or_eq_true, decide_eq_true_eq, List.mem_cons,
      List.mem_singleton, List.not_mem_nil, or_false]
    rw [h1, h2, h3]

theorem isIgnored_not_dir (name : Str) (isDir : Bool) (h : isIgnored name isDir = true) :
    isDir = false := by
  cases isDir with
  | false => rfl
  | true =>
    unfold isIgnored at h
    by_cases hn : name = [] <;> simp [hn] at h

theorem walkFn_pipeline (lib : GoLib) (h : Host) (fuel : Nat) (inAbs outAbs : Str)
    (manifest : Manifest) (path rel : Str) (d : DirEntry) (hrel : Rel inAbs path = .ok rel)
    (hp : isPipelineSource rel = true) :
    walkFn lib h fuel inAbs outAbs manifest path d =
      some ([], if d.IsDir then .skipDir else .next) := by
  have hdot : rel ≠ dot := by
    rintro rfl
    exact absurd hp (by decide)
  unfold walkFn
  by_cases hi : isIgnored d.Name d.IsDir = true
  · have hd : d.IsDir = false := isIgnored_not_dir _ _ hi
    rw [if_pos hi, hd]
  · simp [hi, hrel, hdot, hp]

theorem walkDir_skipped (visit : Str → DirEntry → Option (List Write × WalkStep)) (h : Host)
    (n : Nat) (path : Str) (d : DirEntry)
    (hv : visit path d = some ([], if d.IsDir then .skipDir else .next)) :
    walkDir visit h (n + 1) path d = some ([], .next) := by
  cases hd : d.IsDir <;> simp [walkDir, hv, hd]

/-- C18. For every relative path `rel`, `isPipelineSource(rel)` is true exactly
when the first element of `rel` is `_assets`, `_css` or `_js`. For an entry of
the walk with such a relative path the callback makes no call that changes the
file system, and asks to skip the entry when it is a directory, so that the
walk of the entry writes nothing and reads nothing below it. The names `_cssx`
and `nested/_css` are not pipeline sources. -/
theorem C18_pipeline_source (lib : GoLib) (h : Host) (fuel : Nat) (inAbs outAbs : Str)
    (manifest : Manifest) (rel : Str) :
    (isPipelineSource rel = true ↔ firstElem rel ∈ pipelineSourcePrefixes) ∧
    (isPipelineSource rel = true → ∀ path d, Rel inAbs path = .ok rel →
      walkFn lib h fuel inAbs outAbs manifest path d =
        some ([], if d.IsDir then .skipDir else .next) ∧
      ∀ n, walkDir (walkFn lib h fuel inAbs outAbs manifest) h (n + 1) path d =
        some ([], .next)) ∧
    isPipelineSource "_cssx".toList = false ∧
    isPipelineSource "nested/_css".toList = false := by
  refine ⟨isPipelineSource_iff rel, ?_, by decide, by decide⟩
  intro hp path d hrel
  have hv := walkFn_pipeline lib h fuel inAbs outAbs manifest path rel d hrel hp
  exact ⟨hv, fun n => walkDir_skipped _ h n path d hv⟩

/-- C18, on the example tree: the style sheet `_css/colors.css` is a pipeline
source, and the callback of the walk writes nothing for it. -/
theorem C18_pipeline_source_witness :
    isPipelineSource "_css/colors.css".toList = true ∧
    Rel siteSrc "/site/src/_css/colors.css".toList = .ok "_css/colors.css".toList ∧
    walkFn GoLib.plain walkHost 2 siteSrc siteOut [] "/site/src/_css/colors.css".toList
      ⟨"colors.css".toList, false, false⟩ = some ([], .next) :=
  ⟨by decide, rfl,
    ((C18_pipeline_source GoLib.plain walkHost 2 siteSrc siteOut []
      "_css/colors.css".toList).2.1 (by decide) "/site/src/_css/colors.css".toList
      ⟨"colors.css".toList, false, false⟩ rfl).1⟩

/-! ## The source walk: metadata entries -/

theorem isIgnored_metadata (name : Str) (h : MetadataName name) :
    isIgnored name false = true := by
  have hne : name ≠ [] := by
    rintro rfl
    rcases h with h | h | h
    · exact absurd h (by decide)
    · exact absurd h (by decide)
    · exact absurd h (by decide)
  unfold isIgnored
  rw [if_neg hne]
  rcases h with h | h | h
  · simp [h]
  · simp [h]
  · rw [h]
    simp

theorem isIgnored_dir (name : Str) : isIgnored name true = false := by
  unfold isIgnored
  by_cases h : name = [] <;> simp [h]

theorem walkFn_metadata_file (lib : GoLib) (h : Host) (fuel : Nat) (inAbs outAbs : Str)
    (manifest : Manifest) (path : Str) (d : DirEntry) (hname : MetadataName d.Name)
    (hd : d.IsDir = false) :
    walkFn lib h fuel inAbs outAbs manifest path d = some ([], .next) := by
  unfold walkFn
  rw [hd, if_pos (isIgnored_metadata _ hname)]
  rfl

theorem walkFn_dir (lib : GoLib) (h : Host) (fuel : Nat) (inAbs outAbs : Str)
    (manifest : Manifest) (path rel : Str) (d : DirEntry) (hd : d.IsDir = true)
    (hrel : Rel inAbs path = .ok rel) (hdot : rel ≠ dot) (hp : isPipelineSource rel = false)
    (hm : manifest.lookup (ToSlash rel) = none) (hmk : h.mkdirAll (Join [outAbs, rel]) = none) :
    walkFn lib h fuel inAbs outAbs manifest path d =
      some ([.mkdirAll (Join [outAbs, rel]) 0o755], .next) := by
  unfold walkFn
  rw [hd, isIgnored_dir]
  simp [hrel, hdot, hp, hm, hmk]

theorem walkList_skip (walk : Str → DirEntry → Option (List Write × WalkStep)) (dir : Str)
    (d : DirEntry) (rest : List DirEntry) (hw : walk (Join [dir, d.Name]) d = some ([], .next)) :
    walkList walk dir (d :: rest) = walkList walk dir rest := by
  simp only [walkList, hw]
  cases walkList walk dir rest with
  | none => rfl
  | some r => simp

/-- C17 (amended). An entry of the walk that is not a directory and
whose name is `.DS_Store` or `Thumbs.db` or starts with `._` is skipped: the
callback makes no call that changes the file system, and the walk of a
directory that holds the entry goes on as if the entry were not there. A
directory with such a name is not ignored: when it is neither a pipeline
source nor shadowed by a bundle output, the callback creates it at the
corresponding output path, and the walk reads it and walks its entries. -/
theorem C17_metadata_entries (lib : GoLib) (h : Host) (fuel : Nat) (inAbs outAbs : Str)
    (manifest : Manifest) (d : DirEntry) (hname : MetadataName d.Name) :
    (d.IsDir = false → ∀ path,
      walkFn lib h fuel inAbs outAbs manifest path d = some ([], .next) ∧
      ∀ n dir rest,
        walkList (walkDir (walkFn lib h fuel inAbs outAbs manifest) h (n + 1)) dir (d :: rest) =
          walkList (walkDir (walkFn lib h fuel inAbs outAbs manifest) h (n + 1)) dir rest) ∧
    (d.IsDir = true → isIgnored d.Name d.IsDir = false ∧
      ∀ path rel, Rel inAbs path = .ok rel → rel ≠ dot → isPipelineSource rel = false →
        manifest.lookup (ToSlash rel) = none → h.mkdirAll (Join [outAbs, rel]) = none →
        walkFn lib h fuel inAbs outAbs manifest path d =
          some ([.mkdirAll (Join [outAbs, rel]) 0o755], .next) ∧
        ∀ n dirs, h.readDir path = .ok dirs →
          walkDir (walkFn lib h fuel inAbs outAbs manifest) h (n + 1) path d =
            (walkList (walkDir (walkFn lib h fuel inAbs outAbs manifest) h n) path dirs).map
              (fun r => (.mkdirAll (Join [outAbs, rel]) 0o755 :: r.1, r.2))) := by
  constructor
  · intro hd path
    refine ⟨walkFn_metadata_file lib h fuel inAbs outAbs manifest path d hname hd, ?_⟩
    intro n dir rest
    apply walkList_skip
    have hv := walkFn_metadata_file lib h fuel inAbs outAbs manifest (Join [dir, d.Name]) d
      hname hd
    simp [walkDir, hv, hd]
  · intro hd
    refine ⟨by rw [hd]; exact isIgnored_dir _, ?_⟩
    intro path rel hrel hdot hp hm hmk
    have hv := walkFn_dir lib h fuel inAbs outAbs manifest path rel d hd hrel hdot hp hm hmk
    refine ⟨hv, ?_⟩
    intro n dirs hdirs
    simp only [walkDir, hv, hd, hdirs]
    cases walkList (walkDir (walkFn lib h fuel inAbs outAbs manifest) h n) path dirs with
    | none => rfl
    | some r => rfl

/-- C17 (amended), on the example tree: the file `.DS_Store` has a metadata name, and the
callback of the walk writes nothing for it. -/
theorem C17_metadata_entries_witness :
    MetadataName ".DS_Store".toList ∧
    walkFn GoLib.plain walkHost 2 siteSrc siteOut [] "/site/src/.DS_Store".toList
      ⟨".DS_Store".toList, false, false⟩ = some ([], .next) :=
  ⟨Or.inl rfl,
    ((C17_metadata_entries GoLib.plain walkHost 2 siteSrc siteOut []
      ⟨".DS_Store".toList, false, false⟩ (Or.inl rfl)).1 rfl
      "/site/src/.DS_Store".toList).1⟩

set_option maxRecDepth 100000 in
/-- C17 as stated fails for a directory. The example tree holds the file `.DS_Store`, the
directory `._cache` with the file `a.txt`, and `nested/Thumbs.db`. The build
writes nothing for the two files, but creates `/site/out/._cache` and copies
`a.txt` into it: the directory has a metadata name and its subtree is not
skipped. -/
theorem C17_counterexample :
    MetadataName "._cache".toList ∧
    Run GoLib.plain noBundles walkHost 4 walkConfig =
      some ([],
        [.mkdirAll "/site/out".toList 0o755,
         .writeFile "/site/out/assets-manifest.json".toList "\n".toList 0o644,
         .mkdirAll "/site/out/._cache".toList 0o755,
         .mkdirAll "/site/out/._cache".toList 0o755,
         .writeFile "/site/out/._cache/a.txt".toList "a".toList 0o644,
         .mkdirAll "/site/out".toList 0o755,
         .writeFile "/site/out/_cssx".toList "x".toList 0o644,
         .mkdirAll "/site/out".toList 0o755,
         .writeFile "/site/out/index.html".toList "<h1>Hello</h1>".toList 0o644,
         .mkdirAll "/site/out/nested".toList 0o755,
         .mkdirAll "/site/out/nested/_css".toList 0o755,
         .mkdirAll "/site/out/nested/_css".toList 0o755,
         .writeFile "/site/out/nested/_css/x.css".toList "x".toList 0o644,
         .mkdirAll "/site/out/nested".toList 0o755,
         .writeFile "/site/out/nested/about.txt".toList "about".toList 0o644],
        none) :=
  ⟨Or.inr (Or.inr rfl), rfl⟩

/-! ## `Run`: the configurations it rejects -/

theorem joinSep_append (es ns : List Str) (he : es ≠ []) (hn : ns ≠ []) :
    joinSep (es ++ ns) = joinSep es ++ '/' :: joinSep ns := by
  induction es with
  | nil => exact absurd rfl he
  | cons w ws ih =>
    cases ws with
    | nil =>
      cases ns with
      | nil => exact absurd rfl hn
      | cons v vs => simp [joinSep]
    | cons w2 ws2 =>
      have := ih (by simp)
      simp only [List.cons_append] at this ⊢
      simp only [joinSep, this, List.append_assoc, List.cons_append]

/-- The test of `Run` on the two absolute paths finds an output directory
nested inside an input directory other than the root. -/
theorem nested_prefix (inAbs outAbs : Str) (hi : IsAbs inAbs = true) (hic : Clean inAbs = inAbs)
    (ho : IsAbs outAbs = true) (hoc : Clean outAbs = outAbs) (hroot : inAbs ≠ ['/'])
    (hn : NestedIn inAbs outAbs) :
    HasPrefix (outAbs ++ ['/']) (inAbs ++ ['/']) = true := by
  obtain ⟨names, hne, hnames⟩ := hn
  have h1 := Clean_rooted inAbs hi
  have h2 := Clean_rooted outAbs ho
  rw [hic] at h1
  rw [hoc, hnames] at h2
  have hei : rootedElems inAbs ≠ [] := by
    intro he
    rw [he] at h1
    exact hroot h1
  rw [joinSep_append _ _ hei hne] at h2
  apply List.isPrefixOf_iff_prefix.mpr
  refine ⟨joinSep names ++ ['/'], ?_⟩
  conv_rhs => rw [h2]
  conv_lhs => rw [h1]
  simp

/-- The part of C16 that holds. `Run` returns an error, and has neither removed
nor created anything, when the input or the output directory is empty, when
the two absolute paths are equal, and when the output directory is nested
inside an input directory other than the root. -/
theorem Run_rejects (lib : GoLib) (json : JsonLib) (h : Host) (fuel : Nat) (cfg : Config)
    (hc : cfg.InDir = [] ∨ cfg.OutDir = [] ∨
      ∃ inAbs outAbs, Abs h.toFS cfg.InDir = .ok inAbs ∧ Abs h.toFS cfg.OutDir = .ok outAbs ∧
        (inAbs = outAbs ∨ (inAbs ≠ ['/'] ∧ NestedIn inAbs outAbs))) :
    ∃ e, Run lib json h fuel cfg = some ([], [], some e) := by
  unfold Run
  by_cases h1 : cfg.InDir = []
  · rw [if_pos h1]
    exact ⟨_, rfl⟩
  rw [if_neg h1]
  by_cases h2 : cfg.OutDir = []
  · rw [if_pos h2]
    exact ⟨_, rfl⟩
  rw [if_neg h2]
  rcases hc with hc | hc | ⟨inAbs, outAbs, hi, ho, hc⟩
  · exact absurd hc h1
  · exact absurd hc h2
  simp only [hi, ho]
  by_cases he : inAbs = outAbs
  · rw [if_pos he]
    exact ⟨_, rfl⟩
  rw [if_neg he]
  rcases hc with hc | ⟨hroot, hn⟩
  · exact absurd hc he
  cases hs : h.stat inAbs with
  | failed e => exact ⟨_, rfl⟩
  | info isDir perm =>
    cases isDir with
    | false => exact ⟨_, rfl⟩
    | true =>
      have hp := nested_prefix inAbs outAbs (Abs_ok _ _ _ hi).1 (Abs_ok _ _ _ hi).2
        (Abs_ok _ _ _ ho).1 (Abs_ok _ _ _ ho).2 hroot hn
      simp only [hp, Bool.not_true, Bool.false_eq_true, if_false, if_true]
      exact ⟨_, rfl⟩

/-- An output directory nested inside the input directory of the example site
is rejected before anything is removed or created. -/
theorem Run_rejects_example :
    ∃ e, Run GoLib.plain noBundles walkHost 4
      ⟨"/site/src".toList, "/site/src/public/html".toList, true, false⟩ =
        some ([], [], some e) :=
  Run_rejects GoLib.plain noBundles walkHost 4 _
    (Or.inr (Or.inr ⟨"/site/src".toList, "/site/src/public/html".toList, rfl, rfl,
      Or.inr ⟨by decide, ["public".toList, "html".toList], by decide, by decide⟩⟩))

/-- With the root directory as input, `Run` never rejects an output directory
`/name` below it: when the root can be inspected, `Run` has removed the output
directory or has asked to create it by the time it returns. -/
theorem Run_root_input (lib : GoLib) (json : JsonLib) (h : Host) (fuel : Nat) (name : Str)
    (clean verbose : Bool) (perm : Nat) (hname : IsName name)
    (hs : h.stat ['/'] = .info true perm) (e : Str) :
    Run lib json h fuel ⟨['/'], '/' :: name, clean, verbose⟩ ≠ some ([], [], some e) := by
  have ha : Abs h.toFS ['/'] = .ok ['/'] := rfl
  have hb : Abs h.toFS ('/' :: name) = .ok ('/' :: name) := by
    unfold Abs
    rw [IsAbs_cons, if_pos rfl, Clean_rooted _ (IsAbs_cons name)]
    have := rootedElems_root_join [name] (by simpa using hname)
    simp only [joinSep] at this
    rw [this]
    rfl
  obtain ⟨c, cs, rfl⟩ := List.exists_cons_of_ne_nil hname.1
  have hc : c ≠ '/' := fun hc => hname.2.2.2 (by simp [hc])
  have hp : HasPrefix ('/' :: (c :: cs) ++ ['/']) (['/'] ++ ['/']) = false := by
    simp [HasPrefix, List.isPrefixOf, Ne.symm hc]
  unfold Run
  simp only [ha, hb, hs, hp, List.cons_ne_nil, if_false, List.cons.injEq, true_and,
    List.nil_eq, Bool.not_true, Bool.false_eq_true, reduceCtorEq]
  cases clean with
  | true =>
    simp only [if_true]
    repeat' split
    all_goals simp
  | false =>
    simp only [Bool.false_eq_true, if_false]
    repeat' split
    all_goals simp

set_option maxRecDepth 100000 in
/-- C16, at the root directory as input. The output directory `/_css` is
nested inside the input directory `/`, and `Run` does not reject the
configuration: it removes `/_css`, creates it again, writes the manifest and
copies the page into it, and returns without error. -/
theorem C16_root_input :
    Abs rootHost.toFS rootConfig.InDir = .ok "/".toList ∧
    Abs rootHost.toFS rootConfig.OutDir = .ok "/_css".toList ∧
    NestedIn "/".toList "/_css".toList ∧
    HasPrefix ("/_css".toList ++ ['/']) ("/".toList ++ ['/']) = false ∧
    Run GoLib.plain noBundles rootHost 2 rootConfig =
      some (["/_css".toList],
        [.mkdirAll "/_css".toList 0o755,
         .writeFile "/_css/assets-manifest.json".toList "\n".toList 0o644,
         .mkdirAll "/_css".toList 0o755,
         .writeFile "/_css/index.txt".toList "hello".toList 0o644],
        none) :=
  ⟨rfl, rfl, ⟨["_css".toList], by decide, by decide⟩, by decide, rfl⟩

/-! ## `snapshotsDiffer` -/

theorem lookup_some_mem {α β : Type} [BEq α] [LawfulBEq α] (l : List (α × β)) (k : α) (v : β)
    (h : l.lookup k = some v) : (k, v) ∈ l := by
  induction l with
  | nil => simp at h
  | cons kv rest ih =>
    obtain ⟨k1, v1⟩ := kv
    by_cases hk : k = k1
    · subst hk
      simp only [List.lookup, beq_self_eq_true, Option.some.injEq] at h
      simp [h]
    · have hb : (k == k1) = false := by simpa using hk
      simp only [List.lookup, hb] at h
      exact List.mem_cons_of_mem _ (ih h)

theorem lookup_none_of_not_mem {α β : Type} [BEq α] [LawfulBEq α] (l : List (α × β)) (k : α)
    (h : k ∉ l.map Prod.fst) : l.lookup k = none := by
  induction l with
  | nil => rfl
  | cons kv rest ih =>
    obtain ⟨k1, v1⟩ := kv
    simp only [List.map_cons, List.mem_cons, not_or] at h
    have hb : (k == k1) = false := by simpa using h.1
    simp only [List.lookup, hb]
    exact ih h.2

theorem lookup_of_mem_nodup {α β : Type} [BEq α] [LawfulBEq α] (l : List (α × β)) (k : α)
    (v : β) (hnd : (l.map Prod.fst).Nodup) (h : (k, v) ∈ l) : l.lookup k = some v := by
  induction l with
  | nil => simp at h
  | cons kv rest ih =>
    obtain ⟨k1, v1⟩ := kv
    simp only [List.map_cons, List.nodup_cons] at hnd
    rcases List.mem_cons.mp h with h1 | h1
    · cases h1
      simp [List.lookup]
    · have hk : k ≠ k1 := by
        rintro rfl
        exact hnd.1 (List.mem_map.mpr ⟨(k, v), h1, rfl⟩)
      have hb : (k == k1) = false := by simpa using hk
      simp only [List.lookup, hb]
      exact ih hnd.2 h1

theorem mem_keys_of_get (s : Snapshot) (path : Str) (st : fileState)
    (h : s.get path = some st) : path ∈ s.entries.map Prod.fst :=
  List.mem_map.mpr ⟨(path, st), lookup_some_mem _ _ _ h, rfl⟩

theorem get_of_mem_keys (s : Snapshot) (path : Str) (h : path ∈ s.entries.map Prod.fst) :
    ∃ st, s.get path = some st := by
  obtain ⟨⟨k, v⟩, hm, hk⟩ := List.mem_map.mp h
  cases hk
  exact ⟨v, lookup_of_mem_nodup _ _ _ s.nodup hm⟩

/-- What `snapshotsDiffer` tests: the maps have the same length, and every
entry of the first is an entry of the second. -/
theorem snapshotsDiffer_false (a b : Snapshot) :
    snapshotsDiffer a b = false ↔
      a.len = b.len ∧ ∀ entry ∈ a.entries, b.get entry.1 = some entry.2 := by
  unfold snapshotsDiffer
  by_cases hl : a.len = b.len
  · simp only [hl, bne_self_eq_false, Bool.false_eq_true, if_false, true_and]
    rw [Bool.eq_false_iff, Ne, List.any_eq_true]
    constructor
    · intro h entry he
      cases hb : b.get entry.1 with
      | none => exact absurd ⟨entry, he, by simp [hb]⟩ h
      | some stateB =>
        by_cases hs : entry.2 = stateB
        · rw [hs]
        · exact absurd ⟨entry, he, by simp [hb, hs]⟩ h
    · rintro h ⟨entry, he, hx⟩
      rw [h entry he] at hx
      simp at hx
  · have hb : (a.len != b.len) = true := by simpa using hl
    rw [if_pos hb]
    constructor
    · intro h
      cases h
    · rintro ⟨h, _⟩
      exact absurd h hl

theorem snapshotsDiffer_false_iff (a b : Snapshot) :
    snapshotsDiffer a b = false ↔ ∀ path, a.get path = b.get path := by
  rw [snapshotsDiffer_false]
  constructor
  · rintro ⟨hl, h⟩ path
    have hsub : a.entries.map Prod.fst ⊆ b.entries.map Prod.fst := by
      intro k hk
      obtain ⟨st, hst⟩ := get_of_mem_keys a k hk
      exact mem_keys_of_get b k st (h (k, st) (lookup_some_mem _ _ _ hst))
    have hperm : (a.entries.map Prod.fst).Perm (b.entries.map Prod.fst) :=
      (List.subperm_of_subset a.nodup hsub).perm_of_length_le (by
        simp only [List.length_map]
        exact le_of_eq hl.symm)
    cases ha : a.get path with
    | some st => exact (h (path, st) (lookup_some_mem _ _ _ ha)).symm
    | none =>
      cases hb : b.get path with
      | none => rfl
      | some st =>
        have hk := hperm.symm.subset (mem_keys_of_get b path st hb)
        obtain ⟨st2, hst2⟩ := get_of_mem_keys a path hk
        rw [ha] at hst2
        cases hst2
  · intro h
    have hab : a.entries.map Prod.fst ⊆ b.entries.map Prod.fst := by
      intro k hk
      obtain ⟨st, hst⟩ := get_of_mem_keys a k hk
      exact mem_keys_of_get b k st (by rw [← h k]; exact hst)
    have hba : b.entries.map Prod.fst ⊆ a.entries.map Prod.fst := by
      intro k hk
      obtain ⟨st, hst⟩ := get_of_mem_keys b k hk
      exact mem_keys_of_get a k st (by rw [h k]; exact hst)
    constructor
    · have h1 := (List.subperm_of_subset a.nodup hab).length_le
      have h2 := (List.subperm_of_subset b.nodup hba).length_le
      simp only [List.length_map] at h1 h2
      exact le_antisymm h1 h2
    · intro entry he
      rw [← h entry.1]
      exact lookup_of_mem_nodup _ _ _ a.nodup he

/-- C19. For all snapshots `a` and `b`, `snapshotsDiffer(a, b)` returns false
if and only if every path has the same entry in both: it is in neither, or it
is in both with the same modification time, size and mode. Consequently a path
whose state differs between the two, a path only the second holds and a path
only the first holds each make it return true. -/
theorem C19_snapshotsDiffer (a b : Snapshot) :
    (snapshotsDiffer a b = false ↔ ∀ path, a.get path = b.get path) ∧
    (∀ path sa sb, a.get path = some sa → b.get path = some sb → sa ≠ sb →
      snapshotsDiffer a b = true) ∧
    (∀ path sb, a.get path = none → b.get path = some sb → snapshotsDiffer a b = true) ∧
    (∀ path sa, a.get path = some sa → b.get path = none → snapshotsDiffer a b = true) := by
  refine ⟨snapshotsDiffer_false_iff a b, ?_, ?_, ?_⟩
  · intro path sa sb ha hb hne
    rw [← Bool.not_eq_false, snapshotsDiffer_false_iff]
    intro h
    have := h path
    rw [ha, hb] at this
    exact hne (Option.some.inj this)
  · intro path sb ha hb
    rw [← Bool.not_eq_false, snapshotsDiffer_false_iff]
    intro h
    have := h path
    rw [ha, hb] at this
    cases this
  · intro path sa ha hb
    rw [← Bool.not_eq_false, snapshotsDiffer_false_iff]
    intro h
    have := h path
    rw [ha, hb] at this
    cases this

/-- The snapshots of the example: writing `index.html` again, adding `new.txt`
and removing `index.html` are each a difference, and a snapshot does not
differ from itself. -/
theorem snapshotsDiffer_example :
    snapshotsDiffer snap1 snap2 = true ∧ snapshotsDiffer snap2 snap3 = true ∧
    snapshotsDiffer snap3 snap4 = true ∧ snapshotsDiffer snap3 snap3 = false := by
  decide

/-! ## The watch loop -/

/-- A poll tick that invokes the callback reads the clock at the test of the due
time; it has found a difference and the reading is not before the new due
time, or it has found none, a change was pending and the reading is not before
the due time. -/
theorem tick_called (debounce : Int) (s : Watch.State) (t : Watch.Tick) (now : Int)
    (h : (Watch.tick debounce s t).called = some now) :
    now = t.nowCheck ∧
    (((Watch.tick debounce s t).detected = some t.nowDetect ∧ t.nowDetect + debounce ≤ now) ∨
      ((Watch.tick debounce s t).detected = none ∧ s.pending = true ∧ s.dueAt ≤ now)) := by
  unfold Watch.tick at h ⊢
  cases hc : t.current with
  | error e => simp [hc] at h
  | ok current =>
    simp only [hc] at h ⊢
    by_cases hd : snapshotsDiffer s.lastSnapshot current = true
    · simp only [hd, if_true, Bool.true_and, Bool.not_eq_true', decide_eq_false_iff_not,
        not_lt] at h ⊢
      by_cases hdue : t.nowDetect + debounce ≤ t.nowCheck
      · simp only [hdue, if_true] at h ⊢
        cases hl : t.latest with
        | error e =>
          simp only [hl, Option.some.injEq] at h ⊢
          subst h
          exact ⟨rfl, Or.inl ⟨trivial, hdue⟩⟩
        | ok latest =>
          simp only [hl, Option.some.injEq] at h ⊢
          subst h
          exact ⟨rfl, Or.inl ⟨trivial, hdue⟩⟩
      · simp [hdue] at h
    · simp only [hd, Bool.false_eq_true, if_false, Bool.and_eq_true, Bool.not_eq_true',
        decide_eq_false_iff_not, not_lt] at h ⊢
      by_cases hp : s.pending = true ∧ s.dueAt ≤ t.nowCheck
      · rw [if_pos hp] at h ⊢
        cases hl : t.latest with
        | error e =>
          simp only [hl, Option.some.injEq] at h ⊢
          subst h
          exact ⟨rfl, Or.inr ⟨trivial, hp.1, hp.2⟩⟩
        | ok latest =>
          simp only [hl, Option.some.injEq] at h ⊢
          subst h
          exact ⟨rfl, Or.inr ⟨trivial, hp.1, hp.2⟩⟩
      · simp [hp] at h

/-- The variables after a poll tick. After the callback no change is pending.
Without the callback, a difference leaves a change pending and due the
debounce interval after the clock reading, and no difference leaves the
variables as they were. -/
theorem tick_next (debounce : Int) (s s1 : Watch.State) (t : Watch.Tick)
    (h : (Watch.tick debounce s t).next = .ok s1) :
    (∀ now, (Watch.tick debounce s t).called = some now → s1.pending = false) ∧
    ((Watch.tick debounce s t).called = none →
      (∃ t0, (Watch.tick debounce s t).detected = some t0 ∧ s1.pending = true ∧
        s1.dueAt = t0 + debounce) ∨
      ((Watch.tick debounce s t).detected = none ∧ s1 = s)) := by
  unfold Watch.tick at h ⊢
  cases hc : t.current with
  | error e => simp [hc] at h
  | ok current =>
    simp only [hc] at h ⊢
    by_cases hd : snapshotsDiffer s.lastSnapshot current = true
    · simp only [hd, if_true, Bool.true_and, Bool.not_eq_true', decide_eq_false_iff_not,
        not_lt] at h ⊢
      by_cases hdue : t.nowDetect + debounce ≤ t.nowCheck
      · rw [if_pos hdue] at h ⊢
        cases hl : t.latest with
        | error e => simp [hl] at h
        | ok latest =>
          simp only [hl, Except.ok.injEq] at h ⊢
          subst h
          exact ⟨fun _ _ => rfl, fun hn => by cases hn⟩
      · rw [if_neg hdue] at h ⊢
        simp only [Except.ok.injEq] at h
        subst h
        exact ⟨fun _ hn => (by cases hn), fun _ => Or.inl ⟨_, rfl, rfl, rfl⟩⟩
    · simp only [hd, Bool.false_eq_true, if_false, Bool.and_eq_true, Bool.not_eq_true',
        decide_eq_false_iff_not, not_lt] at h ⊢
      by_cases hp : s.pending = true ∧ s.dueAt ≤ t.nowCheck
      · rw [if_pos hp] at h ⊢
        cases hl : t.latest with
        | error e => simp [hl] at h
        | ok latest =>
          simp only [hl, Except.ok.injEq] at h ⊢
          subst h
          exact ⟨fun _ _ => rfl, fun hn => by cases hn⟩
      · rw [if_neg hp] at h ⊢
        simp only [Except.ok.injEq] at h
        subst h
        exact ⟨fun _ hn => (by cases hn), fun _ => Or.inr ⟨rfl, rfl⟩⟩

/-- The debounce property of the loop from any state: a tick that invokes the
callback follows a tick of the trace that found a difference, as `Debounced`
says, or the loop started with a change pending and no tick before has found a
difference or invoked the callback. -/
theorem loop_debounced (debounce : Int) (events : List Watch.Event) :
    ∀ (s : Watch.State) (i : Nat) (o : Watch.Outcome) (now : Int),
      (Watch.loop debounce s events).1[i]? = some o → o.called = some now →
      (∃ (j : Nat) (oj : Watch.Outcome) (t0 : Int), j ≤ i ∧
        (Watch.loop debounce s events).1[j]? = some oj ∧ oj.detected = some t0 ∧
        t0 + debounce ≤ now ∧
        (∀ (k : Nat) (ok : Watch.Outcome), j < k → k ≤ i →
          (Watch.loop debounce s events).1[k]? = some ok → ok.detected = none) ∧
        (∀ (k : Nat) (ok : Watch.Outcome), j ≤ k → k < i →
          (Watch.loop debounce s events).1[k]? = some ok → ok.called = none)) ∨
      (s.pending = true ∧ s.dueAt ≤ now ∧
        (∀ (k : Nat) (ok : Watch.Outcome), k ≤ i →
          (Watch.loop debounce s events).1[k]? = some ok → ok.detected = none) ∧
        (∀ (k : Nat) (ok : Watch.Outcome), k < i →
          (Watch.loop debounce s events).1[k]? = some ok → ok.called = none)) := by
  induction events with
  | nil =>
    intro s i o now hi
    simp [Watch.loop] at hi
  | cons ev rest ih =>
    intro s i o now hi hcall
    cases ev with
    | done => simp [Watch.loop] at hi
    | tick t =>
      have hzero : ∀ (l : List Watch.Outcome),
          (Watch.tick debounce s t :: l)[0]? = some o →
          (∃ (j : Nat) (oj : Watch.Outcome) (t0 : Int), j ≤ 0 ∧
            (Watch.tick debounce s t :: l)[j]? = some oj ∧ oj.detected = some t0 ∧
            t0 + debounce ≤ now ∧
            (∀ (k : Nat) (ok : Watch.Outcome), j < k → k ≤ 0 →
              (Watch.tick debounce s t :: l)[k]? = some ok → ok.detected = none) ∧
            (∀ (k : Nat) (ok : Watch.Outcome), j ≤ k → k < 0 →
              (Watch.tick debounce s t :: l)[k]? = some ok → ok.called = none)) ∨
          (s.pending = true ∧ s.dueAt ≤ now ∧
            (∀ (k : Nat) (ok : Watch.Outcome), k ≤ 0 →
              (Watch.tick debounce s t :: l)[k]? = some ok → ok.detected = none) ∧
            (∀ (k : Nat) (ok : Watch.Outcome), k < 0 →
              (Watch.tick debounce s t :: l)[k]? = some ok → ok.called = none)) := by
        intro l h0
        simp only [List.getElem?_cons_zero, Option.some.injEq] at h0
        subst h0
        obtain ⟨-, hcase⟩ := tick_called debounce s t now hcall
        rcases hcase with ⟨hdet, hdue⟩ | ⟨hdet, hp, hdue⟩
        · left
          refine ⟨0, Watch.tick debounce s t, _, le_refl 0, List.getElem?_cons_zero, hdet, hdue,
            ?_, ?_⟩
          · intro k ok h1 h2
            omega
          · intro k ok h1 h2
            omega
        · right
          refine ⟨hp, hdue, ?_, ?_⟩
          · intro k ok hk hok
            have hk0 : k = 0 := by omega
            subst hk0
            simp only [List.getElem?_cons_zero, Option.some.injEq] at hok
            subst hok
            exact hdet
          · intro k ok hk
            omega
      cases hn : (Watch.tick debounce s t).next with
      | error e =>
        have hl : (Watch.loop debounce s (.tick t :: rest)).1 = [Watch.tick debounce s t] := by
          simp [Watch.loop, hn]
        rw [hl] at hi ⊢
        cases i with
        | zero => exact hzero [] hi
        | succ i1 => simp at hi
      | ok s1 =>
        have hl : (Watch.loop debounce s (.tick t :: rest)).1 =
            Watch.tick debounce s t :: (Watch.loop debounce s1 rest).1 := by
          simp [Watch.loop, hn]
        rw [hl] at hi ⊢
        cases i with
        | zero => exact hzero _ hi
        | succ i1 =>
          rw [List.getElem?_cons_succ] at hi
          obtain ⟨hafter, hquiet⟩ := tick_next debounce s s1 t hn
          rcases ih s1 i1 o now hi hcall with
            ⟨j, oj, t0, hj, hoj, hdet, hdue, hnodet, hnocall⟩ | ⟨hp, hdue, hnodet, hnocall⟩
          · left
            refine ⟨j + 1, oj, t0, by omega, by rw [List.getElem?_cons_succ]; exact hoj, hdet,
              hdue, ?_, ?_⟩
            · intro k ok h1 h2 hok
              cases k with
              | zero => omega
              | succ k1 =>
                rw [List.getElem?_cons_succ] at hok
                exact hnodet k1 ok (by omega) (by omega) hok
            · intro k ok h1 h2 hok
              cases k with
              | zero => omega
              | succ k1 =>
                rw [List.getElem?_cons_succ] at hok
                exact hnocall k1 ok (by omega) (by omega) hok
          · have hnc : (Watch.tick debounce s t).called = none := by
              cases hcl : (Watch.tick debounce s t).called with
              | none => rfl
              | some now0 =>
                have := hafter now0 hcl
                rw [hp] at this
                cases this
            rcases hquiet hnc with ⟨t0, hdet, -, hdue0⟩ | ⟨hdet, hs⟩
            · left
              refine ⟨0, Watch.tick debounce s t, t0, by omega, List.getElem?_cons_zero, hdet,
                by rw [← hdue0]; exact hdue, ?_, ?_⟩
              · intro k ok h1 h2 hok
                cases k with
                | zero => omega
                | succ k1 =>
                  rw [List.getElem?_cons_succ] at hok
                  exact hnodet k1 ok (by omega) hok
              · intro k ok h1 h2 hok
                cases k with
                | zero =>
                  simp only [List.getElem?_cons_zero, Option.some.injEq] at hok
                  subst hok
                  exact hnc
                | succ k1 =>
                  rw [List.getElem?_cons_succ] at hok
                  exact hnocall k1 ok (by omega) hok
            · right
              subst hs
              refine ⟨hp, hdue, ?_, ?_⟩
              · intro k ok h1 hok
                cases k with
                | zero =>
                  simp only [List.getElem?_cons_zero, Option.some.injEq] at hok
                  subst hok
                  exact hdet
                | succ k1 =>
                  rw [List.getElem?_cons_succ] at hok
                  exact hnodet k1 ok (by omega) hok
              · intro k ok h1 hok
                cases k with
                | zero =>
                  simp only [List.getElem?_cons_zero, Option.some.injEq] at hok
                  subst hok
                  exact hnc
                | succ k1 =>
                  rw [List.getElem?_cons_succ] at hok
                  exact hnocall k1 ok (by omega) hok

theorem loop_Debounced (debounce : Int) (snap : Snapshot) (due : Int)
    (events : List Watch.Event) :
    Debounced debounce (Watch.loop debounce ⟨snap, false, due⟩ events).1 := by
  intro i o now hi hcall
  rcases loop_debounced debounce events ⟨snap, false, due⟩ i o now hi hcall with h | ⟨hp, -⟩
  · exact h
  · cases hp

theorem Run_Debounced (fs : FS) (cfg : Watch.Config) (hasCallback : Bool)
    (initial : Except Str Snapshot) (events : List Watch.Event) :
    Debounced (Watch.debounceOf cfg) (Watch.Run fs cfg hasCallback initial events).1 := by
  have hnil : Debounced (Watch.debounceOf cfg) [] := by
    intro i o now hi
    simp at hi
  unfold Watch.Run
  cases hasCallback with
  | false => exact hnil
  | true =>
    simp only [Bool.not_true, Bool.false_eq_true, if_false]
    cases Abs fs cfg.Root with
    | error e => exact hnil
    | ok rootAbs =>
      dsimp only
      cases fs.stat rootAbs with
      | failed e => exact hnil
      | info isDir perm =>
        cases isDir with
        | false => exact hnil
        | true =>
          cases initial with
          | error e => exact hnil
          | ok snap => exact loop_Debounced (Watch.debounceOf cfg) snap 0 events

theorem debounceOf_pos (cfg : Watch.Config) : 0 < Watch.debounceOf cfg := by
  unfold Watch.debounceOf
  split <;> omega

/-- A poll tick that finds a difference: the change is pending and due the
debounce interval after the clock reading, and the callback is invoked on the
same tick exactly when the clock reading at the test is not before that. -/
theorem tick_differ (debounce : Int) (s : Watch.State) (t : Watch.Tick) (current : Snapshot)
    (hc : t.current = .ok current) (hd : snapshotsDiffer s.lastSnapshot current = true) :
    (Watch.tick debounce s t).detected = some t.nowDetect ∧
    (t.nowCheck < t.nowDetect + debounce →
      (Watch.tick debounce s t).called = none ∧
      (Watch.tick debounce s t).next = .ok ⟨current, true, t.nowDetect + debounce⟩) ∧
    (t.nowDetect + debounce ≤ t.nowCheck →
      (Watch.tick debounce s t).called = some t.nowCheck) := by
  unfold Watch.tick
  simp only [hc, hd, if_true, Bool.true_and, Bool.not_eq_true', decide_eq_false_iff_not, not_lt]
  by_cases hdue : t.nowDetect + debounce ≤ t.nowCheck
  · rw [if_pos hdue]
    cases hl : t.latest with
    | error e => exact ⟨rfl, fun h => absurd hdue (not_le.mpr h), fun _ => rfl⟩
    | ok latest => exact ⟨rfl, fun h => absurd hdue (not_le.mpr h), fun _ => rfl⟩
  · rw [if_neg hdue]
    exact ⟨rfl, fun _ => ⟨rfl, rfl⟩, fun h => absurd h hdue⟩

/-- After the callback the loop takes a snapshot: when that succeeds, no change
is pending and the loop goes on from the new snapshot, whatever the callback
returned; when it fails, `Run` returns the error. -/
theorem tick_after_callback (debounce : Int) (s : Watch.State) (t : Watch.Tick) (now : Int)
    (h : (Watch.tick debounce s t).called = some now) :
    (∀ latest, t.latest = .ok latest →
      ∃ due, (Watch.tick debounce s t).next = .ok ⟨latest, false, due⟩) ∧
    (∀ e, t.latest = .error e → (Watch.tick debounce s t).next = .error e) := by
  unfold Watch.tick at h ⊢
  cases hc : t.current with
  | error e => simp [hc] at h
  | ok current =>
    simp only [hc] at h ⊢
    by_cases hd : snapshotsDiffer s.lastSnapshot current = true
    · simp only [hd, if_true, Bool.true_and, Bool.not_eq_true', decide_eq_false_iff_not,
        not_lt] at h ⊢
      by_cases hdue : t.nowDetect + debounce ≤ t.nowCheck
      · rw [if_pos hdue]
        constructor
        · intro latest hl
          simp only [hl]
          exact ⟨_, rfl⟩
        · intro e hl
          simp only [hl]
      · simp [hdue] at h
    · simp only [hd, Bool.false_eq_true, if_false, Bool.and_eq_true, Bool.not_eq_true',
        decide_eq_false_iff_not, not_lt] at h ⊢
      by_cases hp : s.pending = true ∧ s.dueAt ≤ t.nowCheck
      · rw [if_pos hp]
        constructor
        · intro latest hl
          simp only [hl]
          exact ⟨_, rfl⟩
        · intro e hl
          simp only [hl]
      · simp [hp] at h

theorem tick_next_ok (debounce : Int) (s : Watch.State) (t : Watch.Tick)
    (hc : ∃ c, t.current = .ok c) (hl : ∃ l, t.latest = .ok l) :
    ∃ s1, (Watch.tick debounce s t).next = .ok s1 := by
  obtain ⟨c, hc⟩ := hc
  obtain ⟨l, hl⟩ := hl
  unfold Watch.tick
  simp only [hc, hl]
  repeat' split
  all_goals exact ⟨_, rfl⟩

/-- While every snapshot can be taken the loop does not return an error, and
it handles every tick until the context is done. -/
theorem loop_keeps_running (debounce : Int) (events : List Watch.Event)
    (hok : SnapshotsOk events) :
    ∀ s : Watch.State, (∀ e, (Watch.loop debounce s events).2 ≠ some (some e)) ∧
      (Watch.Event.done ∉ events →
        (Watch.loop debounce s events).2 = none ∧
        (Watch.loop debounce s events).1.length = events.length) := by
  induction events with
  | nil =>
    intro s
    simp [Watch.loop]
  | cons ev rest ih =>
    intro s
    cases ev with
    | done => simp [Watch.loop]
    | tick t =>
      obtain ⟨hc, hl⟩ := hok t (by simp)
      obtain ⟨s1, hs1⟩ := tick_next_ok debounce s t hc hl
      have hrest : SnapshotsOk rest := fun t1 ht1 => hok t1 (List.mem_cons_of_mem _ ht1)
      obtain ⟨h1, h2⟩ := ih hrest s1
      simp only [Watch.loop, hs1]
      refine ⟨h1, ?_⟩
      intro hdone
      have hdone1 : Watch.Event.done ∉ rest := fun hm => hdone (List.mem_cons_of_mem _ hm)
      obtain ⟨h3, h4⟩ := h2 hdone1
      exact ⟨h3, by simp [h4]⟩

/-- C20 (amended). In every run of the watcher the callback is
debounced: a tick invokes it only after a tick that found a difference, with no
difference found and no callback invoked in between, and only when the clock
reading at the test is at least the debounce interval after the clock reading
of that difference; the interval is positive. On one tick, the callback is
invoked only when a change is pending and the due time has come; a difference
makes the change pending and due the debounce interval after the clock reading
taken then, and the same tick invokes the callback exactly when the second
clock reading of the tick is not before that due time. After the callback,
whatever it returns, a snapshot is taken: when that succeeds no change is
pending and the loop goes on, when it fails `Run` returns the error. While
every snapshot succeeds, the loop never returns an error and handles every
tick until the context is done. -/
theorem C20_debounce (fs : FS) (cfg : Watch.Config) (hasCallback : Bool)
    (initial : Except Str Snapshot) (events : List Watch.Event) (debounce : Int)
    (s : Watch.State) (t : Watch.Tick) :
    Debounced (Watch.debounceOf cfg) (Watch.Run fs cfg hasCallback initial events).1 ∧
    0 < Watch.debounceOf cfg ∧
    (∀ now, (Watch.tick debounce s t).called = some now → now = t.nowCheck ∧
      (((Watch.tick debounce s t).detected = some t.nowDetect ∧
          t.nowDetect + debounce ≤ now) ∨
        ((Watch.tick debounce s t).detected = none ∧ s.pending = true ∧ s.dueAt ≤ now))) ∧
    (∀ current, t.current = .ok current → snapshotsDiffer s.lastSnapshot current = true →
      (Watch.tick debounce s t).detected = some t.nowDetect ∧
      (t.nowCheck < t.nowDetect + debounce →
        (Watch.tick debounce s t).called = none ∧
        (Watch.tick debounce s t).next = .ok ⟨current, true, t.nowDetect + debounce⟩) ∧
      (t.nowDetect + debounce ≤ t.nowCheck →
        (Watch.tick debounce s t).called = some t.nowCheck)) ∧
    (∀ now, (Watch.tick debounce s t).called = some now →
      (∀ latest, t.latest = .ok latest →
        ∃ due, (Watch.tick debounce s t).next = .ok ⟨latest, false, due⟩) ∧
      (∀ e, t.latest = .error e → (Watch.tick debounce s t).next = .error e)) ∧
    (SnapshotsOk events →
      (∀ e, (Watch.loop debounce s events).2 ≠ some (some e)) ∧
      (Watch.Event.done ∉ events →
        (Watch.loop debounce s events).2 = none ∧
        (Watch.loop debounce s events).1.length = events.length)) :=
  ⟨Run_Debounced fs cfg hasCallback initial events, debounceOf_pos cfg,
    fun now h => tick_called debounce s t now h,
    fun current hc hd => tick_differ debounce s t current hc hd,
    fun now h => tick_after_callback debounce s t now h,
    fun hok => loop_keeps_running debounce events hok s⟩

/-- C20 (amended), on two ticks 250 milliseconds apart with the default intervals: the
first finds a difference and does not invoke the callback, the second invokes
it; the rebuild fails, its error is printed, and the watcher goes on. -/
theorem C20_debounce_witness :
    (Watch.Run walkFS watchConfig true (.ok snap1) twoTicks).1.map
        (fun o => (o.detected, o.called, o.printed)) =
      [(some 0, none, none),
       (none, some 250000000, some "sitegen: rebuild error: boom\n".toList)] ∧
    (Watch.Run walkFS watchConfig true (.ok snap1) twoTicks).2 = none ∧
    Debounced (Watch.debounceOf watchConfig)
      (Watch.Run walkFS watchConfig true (.ok snap1) twoTicks).1 :=
  ⟨by decide, by decide,
    (C20_debounce walkFS watchConfig true (.ok snap1) twoTicks 1 ⟨snap1, false, 0⟩
      quickTick).1⟩

/-- C20 as stated fails in two ways. With a debounce interval of one nanosecond and the
clock read at 0 and at 1 during the tick, the tick that finds the difference
invokes the callback. With the default intervals, when the snapshot after the
callback cannot be taken, `Run` returns that error: the watcher stops. -/
theorem C20_counterexample :
    (Watch.Run walkFS quickConfig true (.ok snap1) [.tick quickTick]).1.map
        (fun o => (o.detected, o.called)) = [(some 0, some 1)] ∧
    (Watch.Run walkFS watchConfig true (.ok snap1) failingTicks).1.map
        (fun o => (o.detected, o.called)) = [(some 0, none), (none, some 250000000)] ∧
    (Watch.Run walkFS watchConfig true (.ok snap1) failingTicks).2 =
      some (some "walk snapshot: stat /site/src/new.txt: no such file or directory".toList) :=
  ⟨by decide, by decide, by decide⟩

/-- C19, on the snapshots of the example: `index.html` has another state in the
second snapshot, and the two differ. -/
theorem C19_snapshotsDiffer_witness : snapshotsDiffer snap1 snap2 = true :=
  (C19_snapshotsDiffer snap1 snap2).2.1 "index.html".toList stateV1 stateV2 rfl rfl (by decide)

/-! ## `concatInputs` and list append -/

/-- The loop of `concatInputs`, one input at a time. -/
theorem concatLoop_cons (lib : GoLib) (fs : FS) (srcRoot : Str) (i : Nat) (out input : Str)
    (rest : List Str) :
    concatLoop lib fs srcRoot i out (input :: rest) =
      match readInput lib fs srcRoot input with
      | .error e => .error e
      | .ok data => concatLoop lib fs srcRoot (i + 1) (addInput i out data) rest := by
  unfold readInput
  rw [concatLoop]
  by_cases hrel : ToSlash (TrimSpace input) = []
  · simp only [hrel, if_true]
  · simp only [hrel, if_false]
    cases ResolveWithinRoot lib fs srcRoot (ToSlash (TrimSpace input)) with
    | error e => rfl
    | ok inputPath =>
      dsimp only
      cases EnsureNoSymlinkTraversal lib fs srcRoot inputPath with
      | error e => rfl
      | ok u =>
        cases u
        dsimp only
        cases fs.stat inputPath with
        | failed e => rfl
        | info isDir perm =>
          cases isDir with
          | true => rfl
          | false =>
            dsimp only
            cases fs.readFile inputPath with
            | error e => rfl
            | ok data => rfl

theorem separatorDue_false (i : Nat) (out : Str) (h : out = [] ∨ endsInNewline out = true) :
    separatorDue i out = false := by
  unfold separatorDue
  rcases h with h | h
  · simp [h]
  · simp [h]

theorem addInput_eq (i : Nat) (out data : Str) (h : out = [] ∨ endsInNewline out = true) :
    addInput i out data = out ++ normInput data := by
  unfold addInput normInput
  rw [separatorDue_false i out h]
  by_cases hc : (decide (data.length > 0) && !endsInNewline data) = true
  · simp [hc]
  · simp [hc]

theorem normalized_append (out data : Str) (h : out = [] ∨ endsInNewline out = true) :
    out ++ normInput data = [] ∨ endsInNewline (out ++ normInput data) = true := by
  by_cases hc : data = []
  · subst hc
    simpa [normInput_nil] using h
  · right
    have hn : normInput data ≠ [] := by
      unfold normInput
      split <;> simp [hc]
    rw [endsInNewline_append _ _ hn]
    exact endsInNewline_normInput data hc

/-- From a buffer that is empty or ends in a newline, the loop of
`concatInputs` appends what it writes from the empty buffer, whatever the index
of the next input. -/
theorem concatLoop_general (lib : GoLib) (fs : FS) (srcRoot : Str) (inputs : List Str) :
    ∀ (i : Nat) (out : Str), (out = [] ∨ endsInNewline out = true) →
      concatLoop lib fs srcRoot i out inputs =
        match concatLoop lib fs srcRoot 0 [] inputs with
        | .error e => .error e
        | .ok written => .ok (out ++ written) := by
  induction inputs with
  | nil =>
    intro i out _
    simp [concatLoop]
  | cons input rest ih =>
    intro i out hout
    rw [concatLoop_cons, concatLoop_cons lib fs srcRoot 0 []]
    cases readInput lib fs srcRoot input with
    | error e => rfl
    | ok data =>
      dsimp only
      rw [addInput_eq i out data hout, addInput_eq 0 [] data (Or.inl rfl), List.nil_append,
        ih (i + 1) (out ++ normInput data) (normalized_append out data hout),
        ih (0 + 1) (normInput data) (by simpa using normalized_append [] data (Or.inl rfl))]
      cases concatLoop lib fs srcRoot 0 [] rest with
      | error e => rfl
      | ok written => simp [List.append_assoc]

/-- The loop of `concatInputs` over two lists of inputs: the second list is
handled from the buffer and the index the first list leaves. -/
theorem concatLoop_append (lib : GoLib) (fs : FS) (srcRoot : Str) (xs ys : List Str) :
    ∀ (i : Nat) (out : Str),
      concatLoop lib fs srcRoot i out (xs ++ ys) =
        match concatLoop lib fs srcRoot i out xs with
        | .error e => .error e
        | .ok a => concatLoop lib fs srcRoot (i + xs.length) a ys := by
  induction xs with
  | nil =>
    intro i out
    simp [concatLoop]
  | cons input rest ih =>
    intro i out
    rw [List.cons_append, concatLoop_cons, concatLoop_cons]
    cases readInput lib fs srcRoot input with
    | error e => rfl
    | ok data =>
      dsimp only
      rw [ih (i + 1) (addInput i out data)]
      have hl : i + 1 + rest.length = i + (input :: rest).length := by
        simp only [List.length_cons]
        omega
      rw [hl]

/-- C22. `concatInputs` distributes over list append: its result for
`xs ++ ys` is the error of `xs`, or else the error of `ys`, or else the output
for `xs` followed by the output for `ys`. Every input that can be read
contributes its bytes, and one newline exactly when it is non-empty and does
not end in one. When the loop comes to the inputs `ys`, the buffer is the
output for `xs`; that buffer is empty or ends in a newline, so the test of the
branch that writes a separator before an input is false at every index. -/
theorem C22_concat_append (lib : GoLib) (fs : FS) (srcRoot : Str) (xs ys : List Str) :
    (concatInputs lib fs srcRoot (xs ++ ys) =
      match concatInputs lib fs srcRoot xs with
      | .error e => .error e
      | .ok a =>
        match concatInputs lib fs srcRoot ys with
        | .error e => .error e
        | .ok b => .ok (a ++ b)) ∧
    (∀ contents, List.Forall₂ (ReadableInput lib fs srcRoot) xs contents →
      concatInputs lib fs srcRoot xs = .ok (contents.map normInput).flatten) ∧
    (concatLoop lib fs srcRoot 0 [] (xs ++ ys) =
      match concatInputs lib fs srcRoot xs with
      | .error e => .error e
      | .ok out => concatLoop lib fs srcRoot xs.length out ys) ∧
    (∀ out, concatInputs lib fs srcRoot xs = .ok out →
      (out = [] ∨ endsInNewline out = true) ∧ ∀ i, separatorDue i out = false) := by
  have hloop := concatLoop_append lib fs srcRoot xs ys 0 []
  rw [Nat.zero_add] at hloop
  have hnorm : ∀ out, concatInputs lib fs srcRoot xs = .ok out →
      out = [] ∨ endsInNewline out = true :=
    fun out h => concatLoop_normalized lib fs srcRoot xs 0 [] out (Or.inl rfl) h
  refine ⟨?_, fun contents h => concatInputs_eq lib fs srcRoot xs contents h, hloop,
    fun out h => ⟨hnorm out h, fun i => separatorDue_false i out (hnorm out h)⟩⟩
  unfold concatInputs at hnorm ⊢
  rw [hloop]
  cases hx : concatLoop lib fs srcRoot 0 [] xs with
  | error e => rfl
  | ok a =>
    dsimp only
    rw [concatLoop_general lib fs srcRoot ys xs.length a (hnorm a hx)]

set_option maxRecDepth 100000 in
/-- C22, at the two style sheets of the example tree: the bundle of both is the
bundle of the first followed by the bundle of the second. -/
theorem C22_concat_append_witness :
    concatInputs GoLib.plain siteFS siteSrc
        (["_css/colors.css".toList] ++ ["_css/elements.css".toList]) =
      .ok (":root\x7b--bg:#fff;\x7d\n".toList ++ "body\x7bcolor:#111;\x7d\n".toList) ∧
    concatInputs GoLib.plain siteFS siteSrc ["_css/colors.css".toList] =
      .ok ":root\x7b--bg:#fff;\x7d\n".toList ∧
    concatInputs GoLib.plain siteFS siteSrc ["_css/elements.css".toList] =
      .ok "body\x7bcolor:#111;\x7d\n".toList :=
  ⟨(C22_concat_append GoLib.plain siteFS siteSrc ["_css/colors.css".toList]
    ["_css/elements.css".toList]).1, rfl, rfl⟩

/-! ## Termination of `render` -/

/-- An execution returns when every include of the template returns. -/
theorem execNodes_some (lib : GoLib) (assets : Manifest) (name : Str)
    (incl : Str → Option (Except Str Str)) (nodes : List Node)
    (h : ∀ arg, Node.render arg ∈ nodes → ∃ res, incl arg = some res) :
    ∀ buf, ∃ res, execNodes lib assets name incl nodes buf = some res := by
  induction nodes with
  | nil =>
    intro buf
    exact ⟨_, rfl⟩
  | cons n rest ih =>
    intro buf
    have hrest : ∀ arg, Node.render arg ∈ rest → ∃ res, incl arg = some res :=
      fun arg ha => h arg (List.mem_cons_of_mem _ ha)
    cases n with
    | text t => exact ih hrest _
    | render arg =>
      obtain ⟨res, hres⟩ := h arg (by simp)
      cases res with
      | error e =>
        simp only [execNodes, hres]
        exact ⟨_, rfl⟩
      | ok out =>
        simp only [execNodes, hres]
        exact ih hrest _
    | asset arg =>
      cases ha : assetFunc lib assets arg with
      | error e =>
        simp only [execNodes, ha]
        exact ⟨_, rfl⟩
      | ok out =>
        simp only [execNodes, ha]
        exact ih hrest _

/-- An execution whose includes return the same results with another include
function returns the same result. -/
theorem execNodes_mono (lib : GoLib) (assets : Manifest) (name : Str)
    (incl incl2 : Str → Option (Except Str Str)) (nodes : List Node)
    (h : ∀ arg res, Node.render arg ∈ nodes → incl arg = some res → incl2 arg = some res) :
    ∀ buf res, execNodes lib assets name incl nodes buf = some res →
      execNodes lib assets name incl2 nodes buf = some res := by
  induction nodes with
  | nil =>
    intro buf res hex
    exact hex
  | cons n rest ih =>
    intro buf res hex
    have hrest : ∀ arg res, Node.render arg ∈ rest → incl arg = some res →
        incl2 arg = some res :=
      fun arg res ha => h arg res (List.mem_cons_of_mem _ ha)
    cases n with
    | text t =>
      simp only [execNodes] at hex ⊢
      exact ih hrest _ _ hex
    | render arg =>
      cases hi : incl arg with
      | none => simp [execNodes, hi] at hex
      | some r1 =>
        have h2 := h arg r1 (by simp) hi
        cases r1 with
        | error e =>
          simp only [execNodes, hi] at hex
          simp only [execNodes, h2]
          exact hex
        | ok out =>
          simp only [execNodes, hi] at hex
          simp only [execNodes, h2]
          exact ih hrest _ _ hex
    | asset arg =>
      cases ha : assetFunc lib assets arg with
      | error e =>
        simp only [execNodes, ha] at hex ⊢
        exact hex
      | ok out =>
        simp only [execNodes, ha] at hex ⊢
        exact hex |> ih hrest _ _

/-- The result of the execution with its calls is the result of the execution,
when the include function with its calls returns what the include function
returns. -/
theorem execNodesLog_fst (lib : GoLib) (assets : Manifest) (name : Str)
    (inclLog : Str → Option (Except Str Str) × List (Str × List Str))
    (incl : Str → Option (Except Str Str)) (nodes : List Node)
    (h : ∀ arg, Node.render arg ∈ nodes → (inclLog arg).1 = incl arg) :
    ∀ buf, (execNodesLog lib assets name inclLog nodes buf).1 =
      execNodes lib assets name incl nodes buf := by
  induction nodes with
  | nil =>
    intro buf
    rfl
  | cons n rest ih =>
    intro buf
    have hrest : ∀ arg, Node.render arg ∈ rest → (inclLog arg).1 = incl arg :=
      fun arg ha => h arg (List.mem_cons_of_mem _ ha)
    cases n with
    | text t =>
      simp only [execNodesLog, execNodes]
      exact ih hrest _
    | render arg =>
      have ha := h arg (by simp)
      cases hi : inclLog arg with
      | mk res calls =>
        rw [hi] at ha
        simp only at ha
        cases res with
        | none =>
          simp only [execNodesLog, execNodes, hi, ← ha]
        | some x =>
          cases x with
          | error e =>
            simp only [execNodesLog, execNodes, hi, ← ha]
          | ok out =>
            simp only [execNodesLog, execNodes, hi, ← ha]
            exact ih hrest _
    | asset arg =>
      cases ha : assetFunc lib assets arg with
      | error e =>
        simp only [execNodesLog, execNodes, ha]
      | ok out =>
        simp only [execNodesLog, execNodes, ha]
        exact ih hrest _

/-- Every call of an execution is a call made for one of its includes. -/
theorem execNodesLog_calls (lib : GoLib) (assets : Manifest) (name : Str)
    (inclLog : Str → Option (Except Str Str) × List (Str × List Str))
    (P : Str × List Str → Prop) (nodes : List Node)
    (h : ∀ arg, Node.render arg ∈ nodes → ∀ c ∈ (inclLog arg).2, P c) :
    ∀ buf, ∀ c ∈ (execNodesLog lib assets name inclLog nodes buf).2, P c := by
  induction nodes with
  | nil =>
    intro buf c hc
    simp [execNodesLog] at hc
  | cons n rest ih =>
    intro buf c hc
    have hrest : ∀ arg, Node.render arg ∈ rest → ∀ c ∈ (inclLog arg).2, P c :=
      fun arg ha => h arg (List.mem_cons_of_mem _ ha)
    cases n with
    | text t =>
      simp only [execNodesLog] at hc
      exact ih hrest _ c hc
    | render arg =>
      have ha := h arg (by simp)
      cases hi : inclLog arg with
      | mk res calls =>
        rw [hi] at ha
        simp only at ha
        cases res with
        | none =>
          simp only [execNodesLog, hi] at hc
          exact ha c hc
        | some x =>
          cases x with
          | error e =>
            simp only [execNodesLog, hi] at hc
            exact ha c hc
          | ok out =>
            simp only [execNodesLog, hi] at hc
            rcases List.mem_append.mp hc with h1 | h1
            · exact ha c h1
            · exact ih hrest _ c h1
    | asset arg =>
      cases ha : assetFunc lib assets arg with
      | error e =>
        simp [execNodesLog, ha] at hc
      | ok out =>
        simp only [execNodesLog, ha] at hc
        exact ih hrest _ c hc

/-- One call of `render`: it returns an error before it reads the template,
whatever the depth it may go to, and makes no further call; or it resolves and
reads a template that is not on the stack. -/
theorem render_early_or_read (lib : GoLib) (fs : FS) (r : templateRenderer) (p : Str)
    (stack : List Str) :
    (∃ res, ∀ fuel, r.render lib fs (fuel + 1) p stack = some res ∧
      r.renderLog lib fs (fuel + 1) p stack = (some res, [(p, stack)])) ∨
    (∃ templateAbs content, Abs fs p = .ok templateAbs ∧
      IsWithinRoot fs r.srcRoot templateAbs = .ok true ∧
      stack.any (fun parent => decide (parent = templateAbs)) = false ∧
      fs.readFile templateAbs = .ok content) := by
  cases hA : Abs fs p with
  | error e =>
    left
    refine ⟨.error ("resolve template path ".toList ++ lib.quote p ++ ": ".toList ++ e),
      fun fuel => ⟨?_, ?_⟩⟩
    · simp only [templateRenderer.render, hA]
    · simp only [templateRenderer.renderLog, hA]
  | ok templateAbs =>
    cases hW : IsWithinRoot fs r.srcRoot templateAbs with
    | error e =>
      left
      refine ⟨.error e, fun fuel => ⟨?_, ?_⟩⟩
      · simp only [templateRenderer.render, hA, hW]
      · simp only [templateRenderer.renderLog, hA, hW]
    | ok ok =>
      cases ok with
      | false =>
        left
        refine ⟨.error ("template path ".toList ++ lib.quote templateAbs ++
          " is outside source root".toList), fun fuel => ⟨?_, ?_⟩⟩
        · simp only [templateRenderer.render, hA, hW, Bool.not_false, if_true]
        · simp only [templateRenderer.renderLog, hA, hW, Bool.not_false, if_true]
      | true =>
        cases hany : stack.any (fun parent => decide (parent = templateAbs)) with
        | true =>
          left
          refine ⟨.error ("render include cycle detected: ".toList ++
            joinWith " -> ".toList (stack ++ [templateAbs])), fun fuel => ⟨?_, ?_⟩⟩
          · simp only [templateRenderer.render, hA, hW, hany, Bool.not_true,
              Bool.false_eq_true, if_false, if_true]
          · simp only [templateRenderer.renderLog, hA, hW, hany, Bool.not_true,
              Bool.false_eq_true, if_false, if_true]
        | false =>
          cases hR : fs.readFile templateAbs with
          | error e =>
            left
            refine ⟨.error ("read template ".toList ++ lib.quote templateAbs ++
              ": ".toList ++ e), fun fuel => ⟨?_, ?_⟩⟩
            · simp only [templateRenderer.render, hA, hW, hany, hR, Bool.not_true,
                Bool.false_eq_true, if_false]
            · simp only [templateRenderer.renderLog, hA, hW, hany, hR, Bool.not_true,
                Bool.false_eq_true, if_false]
          | ok content =>
            right
            exact ⟨templateAbs, content, rfl, hW, hany, hR⟩

/-- A template outside the fragment: the model gives no result, and records
the call alone. -/
theorem render_outside (lib : GoLib) (fs : FS) (r : templateRenderer) (fuel : Nat)
    (p templateAbs content : Str) (stack : List Str)
    (hA : Abs fs p = .ok templateAbs)
    (hW : IsWithinRoot fs r.srcRoot templateAbs = .ok true)
    (hany : stack.any (fun parent => decide (parent = templateAbs)) = false)
    (hR : fs.readFile templateAbs = .ok content) (hP : parseTemplate content = none) :
    r.render lib fs (fuel + 1) p stack = none ∧
      r.renderLog lib fs (fuel + 1) p stack = (none, [(p, stack)]) := by
  constructor
  · simp only [templateRenderer.render, hA, hW, hany, hR, hP, Bool.not_true,
      Bool.false_eq_true, if_false]
  · simp only [templateRenderer.renderLog, hA, hW, hany, hR, hP, Bool.not_true,
      Bool.false_eq_true, if_false]

/-- One call of `render` with its calls, on a template that is read and
parsed: the call itself, then the calls of the execution. -/
theorem renderLog_succ (lib : GoLib) (fs : FS) (r : templateRenderer) (fuel : Nat)
    (p templateAbs content : Str) (stack : List Str) (nodes : List Node)
    (hA : Abs fs p = .ok templateAbs)
    (hW : IsWithinRoot fs r.srcRoot templateAbs = .ok true)
    (hany : stack.any (fun parent => decide (parent = templateAbs)) = false)
    (hR : fs.readFile templateAbs = .ok content) (hP : parseTemplate content = some nodes) :
    r.renderLog lib fs (fuel + 1) p stack =
      match execNodesLog lib r.assets (ToSlash templateAbs)
        (r.includeLog lib fs fuel templateAbs (stack ++ [templateAbs])) nodes [] with
      | (none, calls) => (none, (p, stack) :: calls)
      | (some (.error e), calls) =>
        (some (.error ("execute template ".toList ++ lib.quote templateAbs ++
          ": ".toList ++ e)), (p, stack) :: calls)
      | (some (.ok out), calls) => (some (.ok out), (p, stack) :: calls) := by
  simp only [templateRenderer.renderLog, hA, hW, hany, hR, hP, Bool.not_true,
    Bool.false_eq_true, if_false]
  rfl

theorem not_mem_of_any_false (stack : List Str) (templateAbs : Str)
    (h : stack.any (fun parent => decide (parent = templateAbs)) = false) :
    templateAbs ∉ stack := by
  intro hm
  rw [List.any_eq_false] at h
  exact h templateAbs hm (by simp)

/-- The result that `renderLog` returns is the result of `render`, at every
depth: recording the calls changes nothing. -/
theorem renderLog_fst (lib : GoLib) (fs : FS) (r : templateRenderer) :
    ∀ (fuel : Nat) (p : Str) (stack : List Str),
      (r.renderLog lib fs fuel p stack).1 = r.render lib fs fuel p stack := by
  intro fuel
  induction fuel with
  | zero =>
    intro p stack
    simp [templateRenderer.renderLog, templateRenderer.render]
  | succ fuel ih =>
    intro p stack
    rcases render_early_or_read lib fs r p stack with
      ⟨res, h⟩ | ⟨templateAbs, content, hA, hW, hany, hR⟩
    · rw [(h fuel).1, (h fuel).2]
    · cases hP : parseTemplate content with
      | none =>
        obtain ⟨h1, h2⟩ := render_outside lib fs r fuel p templateAbs content stack hA hW
          hany hR hP
        rw [h1, h2]
      | some nodes =>
        have hns := not_mem_of_any_false stack templateAbs hany
        rw [render_succ lib fs r fuel p templateAbs content stack nodes hA hW hns hR hP,
          renderLog_succ lib fs r fuel p templateAbs content stack nodes hA hW hany hR hP]
        have hinc : ∀ arg, Node.render arg ∈ nodes →
            (r.includeLog lib fs fuel templateAbs (stack ++ [templateAbs]) arg).1 =
              r.includeFn lib fs fuel templateAbs (stack ++ [templateAbs]) arg := by
          intro arg _
          unfold templateRenderer.includeLog templateRenderer.includeFn
          cases resolveIncludePath lib fs r.srcRoot templateAbs arg with
          | error e => rfl
          | ok resolved => exact ih resolved _
        have key := execNodesLog_fst lib r.assets (ToSlash templateAbs) _ _ nodes hinc []
        cases hL : execNodesLog lib r.assets (ToSlash templateAbs)
            (r.includeLog lib fs fuel templateAbs (stack ++ [templateAbs])) nodes [] with
        | mk res calls =>
          rw [hL] at key
          simp only at key
          rw [← key]
          cases res with
          | none => rfl
          | some x =>
            cases x with
            | error e => rfl
            | ok out => rfl

/-- The calls of one call of `render` on a template that is read and parsed. -/
theorem renderLog_succ_calls (lib : GoLib) (fs : FS) (r : templateRenderer) (fuel : Nat)
    (p templateAbs content : Str) (stack : List Str) (nodes : List Node)
    (hA : Abs fs p = .ok templateAbs)
    (hW : IsWithinRoot fs r.srcRoot templateAbs = .ok true)
    (hany : stack.any (fun parent => decide (parent = templateAbs)) = false)
    (hR : fs.readFile templateAbs = .ok content) (hP : parseTemplate content = some nodes) :
    (r.renderLog lib fs (fuel + 1) p stack).2 =
      (p, stack) :: (execNodesLog lib r.assets (ToSlash templateAbs)
        (r.includeLog lib fs fuel templateAbs (stack ++ [templateAbs])) nodes []).2 := by
  rw [renderLog_succ lib fs r fuel p templateAbs content stack nodes hA hW hany hR hP]
  cases hL : execNodesLog lib r.assets (ToSlash templateAbs)
      (r.includeLog lib fs fuel templateAbs (stack ++ [templateAbs])) nodes [] with
  | mk res calls =>
    cases res with
    | none => rfl
    | some x =>
      cases x with
      | error e => rfl
      | ok out => rfl

/-- An include that resolves has no symbolic link below the source root. -/
theorem resolveIncludePath_nolink (lib : GoLib) (fs : FS) (srcRoot T p r : Str)
    (h : resolveIncludePath lib fs srcRoot T p = .ok r) :
    EnsureNoSymlinkTraversal lib fs srcRoot r = .ok () := by
  unfold resolveIncludePath at h
  by_cases hp : p = []
  · simp [hp] at h
  · simp only [hp, if_false] at h
    cases habs : Abs fs (Join [Dir T, Clean p]) with
    | error e => simp [habs] at h
    | ok resolvedAbs =>
      simp only [habs] at h
      cases hin : IsWithinRoot fs srcRoot resolvedAbs with
      | error e => simp [hin] at h
      | ok b =>
        cases b with
        | false => simp [hin] at h
        | true =>
          simp only [hin, Bool.not_true, Bool.false_eq_true, if_false] at h
          cases hst : fs.stat resolvedAbs with
          | failed e => simp [hst] at h
          | info isDir perm =>
            cases isDir with
            | true => simp [hst] at h
            | false =>
              simp only [hst, Bool.false_eq_true, if_false] at h
              cases hens : EnsureNoSymlinkTraversal lib fs srcRoot resolvedAbs with
              | error e => simp [hens] at h
              | ok u =>
                simp only [hens, Except.ok.injEq] at h
                subst h
                exact hens

/-- In a finite tree, the template an include resolves to is a listed file
whenever it can be read. -/
theorem resolved_listed (lib : GoLib) (fs : FS) (srcRoot : Str) (files : List Str)
    (hfin : FiniteTree lib fs srcRoot files) (T arg resolved : Str)
    (h : resolveIncludePath lib fs srcRoot T arg = .ok resolved) :
    ListedTemplate fs files resolved := by
  obtain ⟨_, _, habs, hin⟩ := resolveIncludePath_ok lib fs srcRoot T arg resolved h
  have hens := resolveIncludePath_nolink lib fs srcRoot T arg resolved h
  obtain ⟨h1, h2⟩ := Abs_ok fs resolved resolved habs
  intro templateAbs content hA hR
  rw [habs] at hA
  cases hA
  exact hfin resolved content h1 h2 hin hens hR

/-- A stack of distinct paths of a finite tree is no longer than the number of
distinct paths of the tree. -/
theorem stack_length_le (files stack : List Str) (hnd : stack.Nodup)
    (hsub : ∀ x ∈ stack, x ∈ files) : stack.length ≤ files.dedup.length :=
  (List.subperm_of_subset hnd (fun x hx => List.mem_dedup.mpr (hsub x hx))).length_le

/-- The stack of distinct listed files stays one when a listed file that is
not on it is added. -/
theorem stack_push (files stack : List Str) (templateAbs : Str) (hnd : stack.Nodup)
    (hsub : ∀ x ∈ stack, x ∈ files) (hns : templateAbs ∉ stack) (hmem : templateAbs ∈ files) :
    (stack ++ [templateAbs]).Nodup ∧ ∀ x ∈ stack ++ [templateAbs], x ∈ files := by
  constructor
  · rw [List.nodup_append]
    refine ⟨hnd, List.nodup_singleton _, ?_⟩
    intro x hx hx2
    rw [List.mem_singleton] at hx2
    subst hx2
    exact hns hx
  · intro x hx
    rcases List.mem_append.mp hx with hx | hx
    · exact hsub x hx
    · rw [List.mem_singleton] at hx
      subst hx
      exact hmem

/-- In a finite tree every call that `render` makes, at any depth, is given a
stack of distinct listed files, when the first call is. -/
theorem renderLog_calls (lib : GoLib) (fs : FS) (r : templateRenderer) (files : List Str)
    (hfin : FiniteTree lib fs r.srcRoot files) :
    ∀ (fuel : Nat) (p : Str) (stack : List Str), ListedTemplate fs files p → stack.Nodup →
      (∀ x ∈ stack, x ∈ files) →
      ∀ c ∈ (r.renderLog lib fs fuel p stack).2, c.2.Nodup ∧ ∀ x ∈ c.2, x ∈ files := by
  intro fuel
  induction fuel with
  | zero =>
    intro p stack _ hnd hsub c hc
    simp only [templateRenderer.renderLog, List.mem_singleton] at hc
    subst hc
    exact ⟨hnd, hsub⟩
  | succ fuel ih =>
    intro p stack hp hnd hsub c hc
    rcases render_early_or_read lib fs r p stack with
      ⟨res, h⟩ | ⟨templateAbs, content, hA, hW, hany, hR⟩
    · rw [(h fuel).2] at hc
      simp only [List.mem_singleton] at hc
      subst hc
      exact ⟨hnd, hsub⟩
    · cases hP : parseTemplate content with
      | none =>
        rw [(render_outside lib fs r fuel p templateAbs content stack hA hW hany hR hP).2] at hc
        simp only [List.mem_singleton] at hc
        subst hc
        exact ⟨hnd, hsub⟩
      | some nodes =>
        rw [renderLog_succ_calls lib fs r fuel p templateAbs content stack nodes hA hW hany
          hR hP] at hc
        rcases List.mem_cons.mp hc with h1 | h1
        · subst h1
          exact ⟨hnd, hsub⟩
        · have hns := not_mem_of_any_false stack templateAbs hany
          obtain ⟨hnd2, hsub2⟩ := stack_push files stack templateAbs hnd hsub hns
            (hp templateAbs content hA hR)
          refine execNodesLog_calls lib r.assets (ToSlash templateAbs) _
            (fun c => c.2.Nodup ∧ ∀ x ∈ c.2, x ∈ files) nodes ?_ [] c h1
          intro arg _ c2 hc2
          unfold templateRenderer.includeLog at hc2
          cases hres : resolveIncludePath lib fs r.srcRoot templateAbs arg with
          | error e => simp [hres] at hc2
          | ok resolved =>
            rw [hres] at hc2
            exact ih resolved (stack ++ [templateAbs])
              (resolved_listed lib fs r.srcRoot files hfin templateAbs arg resolved hres)
              hnd2 hsub2 c2 hc2

/-- In a finite tree of templates of the fragment, `render` returns when the
depth it may go to and the length of its stack of distinct files together
exceed the number of files. -/
theorem render_some (lib : GoLib) (fs : FS) (r : templateRenderer) (files : List Str)
    (hfin : FiniteTree lib fs r.srcRoot files) (hfrag : FragmentFiles fs files) :
    ∀ (fuel : Nat) (p : Str) (stack : List Str), ListedTemplate fs files p → stack.Nodup →
      (∀ x ∈ stack, x ∈ files) → files.dedup.length < fuel + stack.length →
      ∃ res, r.render lib fs fuel p stack = some res := by
  intro fuel
  induction fuel with
  | zero =>
    intro p stack _ hnd hsub hlen
    have := stack_length_le files stack hnd hsub
    omega
  | succ fuel ih =>
    intro p stack hp hnd hsub hlen
    rcases render_early_or_read lib fs r p stack with
      ⟨res, h⟩ | ⟨templateAbs, content, hA, hW, hany, hR⟩
    · exact ⟨res, (h fuel).1⟩
    · have hmem := hp templateAbs content hA hR
      obtain ⟨nodes, hP⟩ := hfrag templateAbs hmem content hR
      have hns := not_mem_of_any_false stack templateAbs hany
      rw [render_succ lib fs r fuel p templateAbs content stack nodes hA hW hns hR hP]
      obtain ⟨hnd2, hsub2⟩ := stack_push files stack templateAbs hnd hsub hns hmem
      have hinc : ∀ arg, Node.render arg ∈ nodes →
          ∃ res, r.includeFn lib fs fuel templateAbs (stack ++ [templateAbs]) arg = some res := by
        intro arg _
        unfold templateRenderer.includeFn
        cases hres : resolveIncludePath lib fs r.srcRoot templateAbs arg with
        | error e => exact ⟨_, rfl⟩
        | ok resolved =>
          exact ih resolved (stack ++ [templateAbs])
            (resolved_listed lib fs r.srcRoot files hfin templateAbs arg resolved hres)
            hnd2 hsub2 (by
              simp only [List.length_append, List.length_singleton]
              omega)
      obtain ⟨res, hres⟩ := execNodes_some lib r.assets (ToSlash templateAbs) _ nodes hinc []
      rw [hres]
      cases res with
      | error e => exact ⟨_, rfl⟩
      | ok out => exact ⟨_, rfl⟩

/-- What `render` returns at one depth it returns at every greater depth. -/
theorem render_mono (lib : GoLib) (fs : FS) (r : templateRenderer) :
    ∀ (fuel : Nat) (p : Str) (stack : List Str) (res : Except Str Str),
      r.render lib fs fuel p stack = some res → r.render lib fs (fuel + 1) p stack = some res := by
  intro fuel
  induction fuel with
  | zero =>
    intro p stack res h
    simp [templateRenderer.render] at h
  | succ fuel ih =>
    intro p stack res h
    rcases render_early_or_read lib fs r p stack with
      ⟨res1, h1⟩ | ⟨templateAbs, content, hA, hW, hany, hR⟩
    · rw [(h1 fuel).1] at h
      rw [(h1 (fuel + 1)).1]
      exact h
    · cases hP : parseTemplate content with
      | none =>
        rw [(render_outside lib fs r fuel p templateAbs content stack hA hW hany hR hP).1] at h
        cases h
      | some nodes =>
        have hns := not_mem_of_any_false stack templateAbs hany
        rw [render_succ lib fs r fuel p templateAbs content stack nodes hA hW hns hR hP] at h
        rw [render_succ lib fs r (fuel + 1) p templateAbs content stack nodes hA hW hns hR hP]
        have hinc : ∀ arg res, Node.render arg ∈ nodes →
            r.includeFn lib fs fuel templateAbs (stack ++ [templateAbs]) arg = some res →
            r.includeFn lib fs (fuel + 1) templateAbs (stack ++ [templateAbs]) arg =
              some res := by
          intro arg res _
          unfold templateRenderer.includeFn
          cases resolveIncludePath lib fs r.srcRoot templateAbs arg with
          | error e => exact id
          | ok resolved => exact ih resolved (stack ++ [templateAbs]) res
        cases hex : execNodes lib r.assets (ToSlash templateAbs)
            (r.includeFn lib fs fuel templateAbs (stack ++ [templateAbs])) nodes [] with
        | none => simp [hex] at h
        | some x =>
          rw [hex] at h
          rw [execNodes_mono lib r.assets (ToSlash templateAbs) _ _ nodes hinc [] x hex]
          exact h

theorem render_mono_le (lib : GoLib) (fs : FS) (r : templateRenderer) (p : Str)
    (stack : List Str) (res : Except Str Str) (fuel : Nat)
    (h : r.render lib fs fuel p stack = some res) :
    ∀ fuel2, fuel ≤ fuel2 → r.render lib fs fuel2 p stack = some res := by
  intro fuel2 hle
  induction hle with
  | refl => exact h
  | step _ ih => exact render_mono lib fs r _ p stack res ih

/-- C21. Let the source tree be finite: the list `files` holds every file of
the tree, that is every rooted, cleaned path inside the source root that is
reached without crossing a symbolic link and can be read; let these files be
templates of the modelled fragment (literal text and the actions
`{{ render "path" }}` and `{{ asset "name" }}`), and let the top-level template
be one of them whenever it can be read.  Then `render` started with an empty
stack returns a result, rendered text or an error, and the same one at every
depth of include calls greater than the number of distinct files.  Every call
of `render` that is made, at whatever depth, is given a stack that holds no
path twice and is no longer than the number of distinct files; recording the
calls does not change what `render` returns. -/
theorem C21_render_terminates (lib : GoLib) (fs : FS) (r : templateRenderer)
    (files : List Str) (templatePath : Str)
    (hfin : FiniteTree lib fs r.srcRoot files) (hfrag : FragmentFiles fs files)
    (htop : ListedTemplate fs files templatePath) :
    (∃ result, ∀ fuel, files.dedup.length < fuel →
      r.render lib fs fuel templatePath [] = some result) ∧
    (∀ fuel, (r.renderLog lib fs fuel templatePath []).1 =
      r.render lib fs fuel templatePath []) ∧
    (∀ fuel, ∀ call ∈ (r.renderLog lib fs fuel templatePath []).2,
      call.2.Nodup ∧ call.2.length ≤ files.dedup.length) := by
  refine ⟨?_, fun fuel => renderLog_fst lib fs r fuel templatePath [], ?_⟩
  · obtain ⟨res, hres⟩ := render_some lib fs r files hfin hfrag (files.dedup.length + 1)
      templatePath [] htop List.nodup_nil (fun x hx => absurd hx (List.not_mem_nil x))
      (by simp)
    exact ⟨res, fun fuel hf => render_mono_le lib fs r templatePath [] res _ hres fuel hf⟩
  · intro fuel call hc
    obtain ⟨hnd, hsub⟩ := renderLog_calls lib fs r files hfin fuel templatePath [] htop
      List.nodup_nil (fun x hx => absurd hx (List.not_mem_nil x)) call hc
    exact ⟨hnd, stack_length_le files call.2 hnd hsub⟩

/-- What an example file system reads is the content of a listed file. -/
theorem ofList_readFile (entries : List (Str × Entry)) (p content : Str)
    (h : (FS.ofList entries).readFile p = .ok content) :
    (p, Entry.file content) ∈ entries ∨ (p, Entry.linkToFile content) ∈ entries := by
  simp only [FS.ofList] at h
  cases hl : entries.lookup p with
  | none => simp [hl] at h
  | some e =>
    have hm := lookup_some_mem entries p e hl
    cases e with
    | file c =>
      simp only [hl, Except.ok.injEq] at h
      subst h
      exact Or.inl hm
    | dir => simp [hl] at h
    | linkToFile c =>
      simp only [hl, Except.ok.injEq] at h
      subst h
      exact Or.inr hm
    | linkDangling => simp [hl] at h

theorem cycleFS_finite : FiniteTree GoLib.plain cycleFS noAssets.srcRoot cycleFiles := by
  intro p content _ _ _ _ h
  have hm := ofList_readFile _ p content h
  simp only [List.mem_cons, Prod.mk.injEq, List.mem_singleton, List.not_mem_nil, or_false,
    reduceCtorEq, and_false, false_or] at hm
  rcases hm with ⟨hp, -⟩ | ⟨hp, -⟩
  · rw [hp]
    decide
  · rw [hp]
    decide

theorem cycleFS_fragment : FragmentFiles cycleFS cycleFiles := by
  intro p hp content h
  have hm := ofList_readFile _ p content h
  simp only [List.mem_cons, Prod.mk.injEq, List.mem_singleton, List.not_mem_nil, or_false,
    reduceCtorEq, and_false, false_or] at hm
  rcases hm with ⟨-, hc⟩ | ⟨-, hc⟩
  · rw [Entry.file.inj hc]
    exact ⟨_, rfl⟩
  · rw [Entry.file.inj hc]
    exact ⟨_, rfl⟩

theorem cycleFS_listed : ListedTemplate cycleFS cycleFiles "/site/src/a.html".toList := by
  intro templateAbs content hA _
  have h : Abs cycleFS "/site/src/a.html".toList = .ok "/site/src/a.html".toList := rfl
  rw [h] at hA
  cases hA
  decide

set_option maxRecDepth 100000 in
/-- C21, at two templates that include each other: the tree has two files, and
`render` returns the cycle error at every depth greater than two; at depth two
the model has not returned yet. Three calls are made, with the stacks of no,
one and two files. -/
theorem C21_render_terminates_witness :
    FiniteTree GoLib.plain cycleFS noAssets.srcRoot cycleFiles ∧
    FragmentFiles cycleFS cycleFiles ∧
    ListedTemplate cycleFS cycleFiles "/site/src/a.html".toList ∧
    cycleFiles.dedup.length = 2 ∧
    ((∃ result, ∀ fuel, cycleFiles.dedup.length < fuel →
        noAssets.render GoLib.plain cycleFS fuel "/site/src/a.html".toList [] =
          some result) ∧
      (∀ fuel, (noAssets.renderLog GoLib.plain cycleFS fuel "/site/src/a.html".toList []).1 =
        noAssets.render GoLib.plain cycleFS fuel "/site/src/a.html".toList []) ∧
      (∀ fuel,
        ∀ call ∈ (noAssets.renderLog GoLib.plain cycleFS fuel "/site/src/a.html".toList []).2,
        call.2.Nodup ∧ call.2.length ≤ cycleFiles.dedup.length)) ∧
    noAssets.render GoLib.plain cycleFS 3 "/site/src/a.html".toList [] =
      some (.error ("execute template \"/site/src/a.html\": template: /site/src/a.html: " ++
        "executing at <render \"./b.html\">: error calling render: " ++
        "execute template \"/site/src/b.html\": template: /site/src/b.html: " ++
        "executing at <render \"./a.html\">: error calling render: " ++
        "render include cycle detected: " ++
        "/site/src/a.html -> /site/src/b.html -> /site/src/a.html").toList) ∧
    noAssets.render GoLib.plain cycleFS 2 "/site/src/a.html".toList [] = none ∧
    (noAssets.renderLog GoLib.plain cycleFS 3 "/site/src/a.html".toList []).2 =
      [("/site/src/a.html".toList, []),
       ("/site/src/b.html".toList, ["/site/src/a.html".toList]),
       ("/site/src/a.html".toList, ["/site/src/a.html".toList, "/site/src/b.html".toList])] :=
  ⟨cycleFS_finite, cycleFS_fragment, cycleFS_listed, by decide,
    C21_render_terminates GoLib.plain cycleFS noAssets cycleFiles "/site/src/a.html".toList
      cycleFS_finite cycleFS_fragment cycleFS_listed,
    by rfl, by rfl, by rfl⟩

end Sitegen
